import Mathlib

/-!
# Reagent bank: ledger and transfer engine

A shallow embedding of `src/ReagentBankAccount.cpp` (AzerothCore module
"Account-wide Reagent Bank").  The SQL table `mod_reagent_bank_account` is a
list of rows, the player's carried inventory is a map from positions to item
stacks, and everything the script tells the game (new items, destroyed
stacks, chat lines) is appended to an event log.  Engine facilities that the
script only calls (item catalog, capacity check, item placement, enum
constants) are fields of `Env`.
-/

namespace ReagentBank

/-! ## Machine integers -/

/-- Wrap a natural number into the range of a C++ `uint32`. -/
def u32 (n : Nat) : Nat := n % 4294967296

/-! ## Engine data -/

/-- The fields of the engine's `ItemTemplate` that the script reads.
`MaxStackSize` is the value returned by `GetMaxStackSize()`. -/
structure ItemTemplate where
  ItemId : Nat
  Class : Nat
  SubClass : Nat
  MaxStackSize : Nat
  Name1 : String
deriving DecidableEq, Repr

/-- A carried stack: `pItem->GetTemplate()` and `pItem->GetCount()`. -/
structure Item where
  template : ItemTemplate
  count : Nat
deriving DecidableEq, Repr

/-- The carried inventory as the script sees it: `items bag slot` is
`player->GetItemByPos(bag, slot)`, and `bags i` is the size of the container
`player->GetBagByPos(i)` when there is one. -/
structure Inventory where
  items : Nat → Nat → Option Item
  bags : Nat → Option Nat

/-- The effect of `player->DestroyItem(bag, slot, true)` on the inventory:
the stack at that position is gone. -/
def Inventory.DestroyItem (inv : Inventory) (bag slot : Nat) : Inventory :=
  { inv with items := fun b s => if b = bag ∧ s = slot then none else inv.items b s }

/-- Everything the script takes from the engine and from its configuration:
the two globals, the enum constants of the engine headers, the item catalog
`sObjectMgr->GetItemTemplate`, and the receiving inventory's capacity check
(`CanStoreNewItem(...) == EQUIP_ERR_OK`) and placement (`StoreNewItem`). -/
structure Env where
  g_accountWideReagentBank : Bool
  g_maxOptionsPerPage : Nat
  ITEM_CLASS_TRADE_GOODS : Nat
  ITEM_CLASS_GEM : Nat
  ITEM_SUBCLASS_CLOTH : Nat
  ITEM_SUBCLASS_MEAT : Nat
  ITEM_SUBCLASS_METAL_STONE : Nat
  ITEM_SUBCLASS_ENCHANTING : Nat
  ITEM_SUBCLASS_ELEMENTAL : Nat
  ITEM_SUBCLASS_PARTS : Nat
  ITEM_SUBCLASS_TRADE_GOODS_OTHER : Nat
  ITEM_SUBCLASS_HERB : Nat
  ITEM_SUBCLASS_LEATHER : Nat
  ITEM_SUBCLASS_JEWELCRAFTING : Nat
  ITEM_SUBCLASS_EXPLOSIVES : Nat
  ITEM_SUBCLASS_DEVICES : Nat
  ITEM_SUBCLASS_MATERIAL : Nat
  ITEM_SUBCLASS_ARMOR_ENCHANTMENT : Nat
  ITEM_SUBCLASS_WEAPON_ENCHANTMENT : Nat
  INVENTORY_SLOT_BAG_0 : Nat
  INVENTORY_SLOT_ITEM_START : Nat
  INVENTORY_SLOT_ITEM_END : Nat
  INVENTORY_SLOT_BAG_START : Nat
  INVENTORY_SLOT_BAG_END : Nat
  GetItemTemplate : Nat → Option ItemTemplate
  CanStoreNewItem : Inventory → Nat → Nat → Bool
  StoreNewItem : Inventory → Nat → Nat → Inventory

/-- The identity of the player: `GetSession()->GetAccountId()` and
`GetGUID().GetRawValue()`. -/
structure Player where
  accountId : Nat
  guidRaw : Nat
deriving DecidableEq, Repr

/-! ## The table `mod_reagent_bank_account` -/

/-- One row of `mod_reagent_bank_account`. -/
structure Row where
  account_id : Nat
  guid : Nat
  item_entry : Nat
  item_subclass : Nat
  amount : Nat
deriving DecidableEq, Repr

/-- The table, in storage order. -/
abbrev Table := List Row

/-- The condition `account_id = a AND guid = g AND item_entry = e`. -/
def Row.hasKey (r : Row) (a g e : Nat) : Bool :=
  r.account_id == a && r.guid == g && r.item_entry == e

/-- The condition `account_id = a AND guid = g`. -/
def Row.hasOwner (r : Row) (a g : Nat) : Bool :=
  r.account_id == a && r.guid == g

/-- The query `SELECT amount FROM ... WHERE account_id = a AND guid = g AND
item_entry = e`: the result set, empty when the query returns no result. -/
def Table.selectAmount (t : Table) (a g e : Nat) : List Nat :=
  (t.filter (fun r => r.hasKey a g e)).map (fun r => r.amount)

/-- The query `SELECT item_entry, item_subclass, amount FROM ... WHERE
account_id = a AND guid = g`. -/
def Table.selectOwner (t : Table) (a g : Nat) : List (Nat × Nat × Nat) :=
  (t.filter (fun r => r.hasOwner a g)).map (fun r => (r.item_entry, r.item_subclass, r.amount))

/-- The query `SELECT item_entry, amount FROM ... WHERE account_id = a AND
guid = g AND item_subclass = c`. -/
def Table.selectCategory (t : Table) (a g c : Nat) : List (Nat × Nat) :=
  (t.filter (fun r => r.hasOwner a g && r.item_subclass == c)).map
    (fun r => (r.item_entry, r.amount))

/-- The statement `DELETE FROM ... WHERE account_id = a AND guid = g AND
item_entry = e`. -/
def Table.delete (t : Table) (a g e : Nat) : Table :=
  t.filter (fun r => !r.hasKey a g e)

/-- The statement `UPDATE ... SET amount = v WHERE account_id = a AND guid = g
AND item_entry = e`. -/
def Table.update (t : Table) (v a g e : Nat) : Table :=
  t.map (fun r => if r.hasKey a g e then { r with amount := v } else r)

/-- The statement `REPLACE INTO ... VALUES (a, g, e, c, v)`: the row with the
same `(account_id, guid, item_entry)`, the table's unique key, is removed and
the new row is inserted. -/
def Table.replaceInto (t : Table) (a g e c v : Nat) : Table :=
  t.delete a g e ++ [{ account_id := a, guid := g, item_entry := e, item_subclass := c, amount := v }]

/-! ## What the script tells the game -/

/-- The chat lines of the script, with the values substituted for `{}`. -/
inductive Msg where
  /-- The line "Withdrew {} x {}." -/
  | withdrew (n : Nat) (name : String)
  /-- The line "Not enough space to withdraw {} x {}." -/
  | notEnoughSpace (n : Nat) (name : String)
  /-- The line "Not enough bag space to withdraw {} x {}." -/
  | notEnoughBagSpace (n : Nat) (name : String)
  /-- The line "Bag full after withdrawing {} x {} (remaining {})." -/
  | bagFull (given : Nat) (name : String) (remaining : Nat)
  /-- The line "The following was deposited:" -/
  | depositedHeader
  /-- A line "<amount> <name>" of the deposit feedback. -/
  | depositedLine (amount : Nat) (name : String)
  /-- The line "No reagents to deposit." -/
  | noReagentsToDeposit
  /-- The line "No reagents to deposit in this category." -/
  | noReagentsToDepositInCategory
  /-- The line "No reagents to withdraw in this category." -/
  | noReagentsToWithdrawInCategory
  /-- The line "No reagents withdrawn." -/
  | noReagentsWithdrawn
deriving DecidableEq, Repr

/-- The observable calls of the script, in the order they are made. -/
inductive Event where
  /-- The call `player->SendEquipError(msg, nullptr, nullptr, entry)`. -/
  | sendEquipError (entry : Nat)
  /-- The calls `StoreNewItem(dest, entry, true)` and `SendNewItem(item, count, ...)`:
  `count` units of `entry` are granted. -/
  | newItem (entry count : Nat)
  /-- The call `player->DestroyItem(bag, slot, true)` on a stack of `count`
  units of `entry`. -/
  | destroyItem (bag slot entry count : Nat)
  /-- A chat line sent through `ChatHandler`. -/
  | sysMessage (m : Msg)
  /-- The call `CloseGossipMenuFor(player)`. -/
  | closeGossipMenu
deriving DecidableEq, Repr

/-- The state the operations act on: the table, the player's inventory and
the log of observable calls made so far. -/
structure World where
  db : Table
  inv : Inventory
  log : List Event

/-! ## Storage keys -/

/-- The function `GetStorageKeys`: `(accountKey, guidKey)`.  The raw guid is
assigned to a `uint32`. -/
def GetStorageKeys (env : Env) (player : Player) : Nat × Nat :=
  if env.g_accountWideReagentBank then (player.accountId, 0)
  else (0, u32 player.guidRaw)

/-! ## Single-item withdrawals -/

/-- The function `WithdrawOne`. -/
def WithdrawOne (env : Env) (player : Player) (entry : Nat) (w : World) : World :=
  let accountKey := (GetStorageKeys env player).1
  let guidKey := (GetStorageKeys env player).2
  match w.db.selectAmount accountKey guidKey entry with
  | [] => w
  | stored :: _ =>
    if stored = 0 then w
    else
      match env.GetItemTemplate entry with
      | none => w
      | some temp =>
        if env.CanStoreNewItem w.inv entry 1 = false then
          { w with log := w.log ++ [Event.sendEquipError entry,
              Event.sysMessage (Msg.notEnoughSpace 1 temp.Name1)] }
        else
          { db := if stored = 1 then w.db.delete accountKey guidKey entry
                  else w.db.update (stored - 1) accountKey guidKey entry
            inv := env.StoreNewItem w.inv entry 1
            log := w.log ++ [Event.newItem entry 1,
              Event.sysMessage (Msg.withdrew 1 temp.Name1)] }

/-- The function `WithdrawStack`. -/
def WithdrawStack (env : Env) (player : Player) (entry : Nat) (w : World) : World :=
  let accountKey := (GetStorageKeys env player).1
  let guidKey := (GetStorageKeys env player).2
  match w.db.selectAmount accountKey guidKey entry with
  | [] => w
  | stored :: _ =>
    if stored = 0 then w
    else
      match env.GetItemTemplate entry with
      | none => w
      | some temp =>
        let stackSize := temp.MaxStackSize
        let toGive := min stackSize stored
        if env.CanStoreNewItem w.inv entry toGive = false then
          { w with log := w.log ++ [Event.sendEquipError entry,
              Event.sysMessage (Msg.notEnoughSpace toGive temp.Name1)] }
        else
          { db := if toGive = stored then w.db.delete accountKey guidKey entry
                  else w.db.update (stored - toGive) accountKey guidKey entry
            inv := env.StoreNewItem w.inv entry toGive
            log := w.log ++ [Event.newItem entry toGive,
              Event.sysMessage (Msg.withdrew toGive temp.Name1)] }

/-! ## Withdraw all of one item -/

/-- The local variables of the grant loop of `WithdrawAllOfItem`, with the
inventory and the log it acts on. -/
structure GrantState where
  inv : Inventory
  log : List Event
  givenTotal : Nat
  remaining : Nat

/-- The loop `while (remaining > 0) { ... }` of `WithdrawAllOfItem`, run for
at most `fuel` iterations; `none` when the loop condition still holds after
them. -/
def grantLoop (env : Env) (entry stackSize : Nat) (name : String) :
    Nat → GrantState → Option GrantState
  | 0, s => if s.remaining > 0 then none else some s
  | fuel + 1, s =>
    if s.remaining > 0 then
      let toGive := min stackSize s.remaining
      if env.CanStoreNewItem s.inv entry toGive = false then
        some { s with log := s.log ++ [Event.sendEquipError entry,
          Event.sysMessage (Msg.bagFull s.givenTotal name s.remaining)] }
      else
        grantLoop env entry stackSize name fuel
          { inv := env.StoreNewItem s.inv entry toGive
            log := s.log ++ [Event.newItem entry toGive]
            givenTotal := u32 (s.givenTotal + toGive)
            remaining := s.remaining - toGive }
    else some s

/-- The function `WithdrawAllOfItem`.  The grant loop is given as many
iterations as there are stored units, which is enough whenever the stack size
is at least 1; the result is `none` when the loop is still running after
them. -/
def WithdrawAllOfItem (env : Env) (player : Player) (entry : Nat) (w : World) : Option World :=
  let accountKey := (GetStorageKeys env player).1
  let guidKey := (GetStorageKeys env player).2
  match w.db.selectAmount accountKey guidKey entry with
  | [] => some w
  | stored :: _ =>
    if stored = 0 then some w
    else
      match env.GetItemTemplate entry with
      | none => some w
      | some temp =>
        match grantLoop env entry temp.MaxStackSize temp.Name1 stored
            { inv := w.inv, log := w.log, givenTotal := 0, remaining := stored } with
        | none => none
        | some s =>
          some
            { db := if s.remaining = 0 then w.db.delete accountKey guidKey entry
                    else w.db.update s.remaining accountKey guidKey entry
              inv := s.inv
              log := if s.givenTotal > 0 then
                       s.log ++ [Event.sysMessage (Msg.withdrew s.givenTotal temp.Name1)]
                     else s.log }

/-! ## Withdraw all items of a category -/

/-- The state of the per-item loop of `WithdrawAllInCategory`. -/
structure CategoryState where
  db : Table
  inv : Inventory
  log : List Event
  anyWithdrawn : Bool

/-- The inner loop `while (remaining > 0) { ... }` of `WithdrawAllInCategory`
for one result row, run for at most `fuel` iterations. -/
def categoryGrantLoop (env : Env) (accountKey guidKey itemEntry stackSize : Nat) (name : String) :
    Nat → Nat → CategoryState → Option CategoryState
  | 0, remaining, s => if remaining > 0 then none else some s
  | fuel + 1, remaining, s =>
    if remaining > 0 then
      let toGive := min stackSize remaining
      if env.CanStoreNewItem s.inv itemEntry toGive = true then
        categoryGrantLoop env accountKey guidKey itemEntry stackSize name fuel (remaining - toGive)
          { db := if toGive = remaining then s.db.delete accountKey guidKey itemEntry
                  else s.db.update (remaining - toGive) accountKey guidKey itemEntry
            inv := env.StoreNewItem s.inv itemEntry toGive
            log := s.log ++ [Event.newItem itemEntry toGive,
              Event.sysMessage (Msg.withdrew toGive name)]
            anyWithdrawn := true }
      else
        some { s with log := s.log ++ [Event.sendEquipError itemEntry,
          Event.sysMessage (Msg.notEnoughBagSpace toGive name)] }
    else some s

/-- The loop `do { ... } while (result->NextRow())` of `WithdrawAllInCategory`
over the rows of the query result. -/
def categoryRows (env : Env) (accountKey guidKey : Nat) :
    List (Nat × Nat) → CategoryState → Option CategoryState
  | [], s => some s
  | (itemEntry, amount) :: rest, s =>
    match env.GetItemTemplate itemEntry with
    | none => categoryRows env accountKey guidKey rest s
    | some temp =>
      match categoryGrantLoop env accountKey guidKey itemEntry temp.MaxStackSize temp.Name1
          amount amount s with
      | none => none
      | some s' => categoryRows env accountKey guidKey rest s'

/-- The function `WithdrawAllInCategory`. -/
def WithdrawAllInCategory (env : Env) (player : Player) (item_subclass : Nat) (w : World) :
    Option World :=
  let accountKey := (GetStorageKeys env player).1
  let guidKey := (GetStorageKeys env player).2
  match w.db.selectCategory accountKey guidKey item_subclass with
  | [] => some { w with log := w.log ++ [Event.sysMessage Msg.noReagentsToWithdrawInCategory] }
  | row :: rows =>
    match categoryRows env accountKey guidKey (row :: rows)
        { db := w.db, inv := w.inv, log := w.log, anyWithdrawn := false } with
    | none => none
    | some s =>
      some
        { db := s.db
          inv := s.inv
          log := if s.anyWithdrawn = false then
                   s.log ++ [Event.sysMessage Msg.noReagentsWithdrawn]
                 else s.log }

/-! ## Deposits -/

/-- A `std::map<uint32, uint32>`: the pairs in ascending key order. -/
abbrev StdMap := List (Nat × Nat)

/-- The lookup `m.find(k)`, `none` for `m.end()`. -/
def StdMap.find : StdMap → Nat → Option Nat
  | [], _ => none
  | (k', v') :: m, k => if k' = k then some v' else StdMap.find m k

/-- The assignment `m[k] = v`. -/
def StdMap.set : StdMap → Nat → Nat → StdMap
  | [], k, v => [(k, v)]
  | (k', v') :: m, k, v =>
    if k < k' then (k, v) :: (k', v') :: m
    else if k = k' then (k, v) :: m
    else (k', v') :: StdMap.set m k v

/-- The three maps of a deposit with the inventory and the log they are
filled from. -/
structure DepositState where
  entryToAmountMap : StdMap
  entryToSubclassMap : StdMap
  itemsAddedMap : StdMap
  inv : Inventory
  log : List Event

/-- The function `UpdateItemCount` on the stack `pItem` found at
`(bagSlot, itemSlot)`. -/
def UpdateItemCount (env : Env) (s : DepositState) (pItem : Item) (bagSlot itemSlot : Nat) :
    DepositState :=
  let count := pItem.count
  let itemTemplate := pItem.template
  if !(itemTemplate.Class = env.ITEM_CLASS_TRADE_GOODS ∨ itemTemplate.Class = env.ITEM_CLASS_GEM)
      ∨ itemTemplate.MaxStackSize = 1 then s
  else
    let itemEntry := itemTemplate.ItemId
    let itemSubclass :=
      if itemTemplate.Class = env.ITEM_CLASS_GEM then env.ITEM_SUBCLASS_JEWELCRAFTING
      else itemTemplate.SubClass
    { entryToAmountMap :=
        match s.entryToAmountMap.find itemEntry with
        | none => s.entryToAmountMap.set itemEntry count
        | some existingCount => s.entryToAmountMap.set itemEntry (u32 (existingCount + count))
      entryToSubclassMap :=
        match s.entryToAmountMap.find itemEntry with
        | none => s.entryToSubclassMap.set itemEntry itemSubclass
        | some _ => s.entryToSubclassMap
      itemsAddedMap :=
        match s.itemsAddedMap.find itemEntry with
        | none => s.itemsAddedMap.set itemEntry count
        | some existingCount => s.itemsAddedMap.set itemEntry (u32 (existingCount + count))
      inv := s.inv.DestroyItem bagSlot itemSlot
      log := s.log ++ [Event.destroyItem bagSlot itemSlot itemEntry count] }

/-- The body of the scanning loops of `DepositAllReagents` at one position. -/
def depositAt (env : Env) (s : DepositState) (bag slot : Nat) : DepositState :=
  match s.inv.items bag slot with
  | none => s
  | some pItem => UpdateItemCount env s pItem bag slot

/-- The body of the scanning loops of `DepositAllReagentsForCategory` at one
position. -/
def depositCategoryAt (env : Env) (item_subclass : Nat) (s : DepositState) (bag slot : Nat) :
    DepositState :=
  match s.inv.items bag slot with
  | none => s
  | some pItem =>
    let itemTemplate := pItem.template
    let subclass :=
      if itemTemplate.Class = env.ITEM_CLASS_GEM then env.ITEM_SUBCLASS_JEWELCRAFTING
      else itemTemplate.SubClass
    if (itemTemplate.Class = env.ITEM_CLASS_TRADE_GOODS ∨ itemTemplate.Class = env.ITEM_CLASS_GEM)
        ∧ itemTemplate.MaxStackSize > 1 ∧ subclass = item_subclass then
      UpdateItemCount env s pItem bag slot
    else s

/-- The two scanning loops shared by both deposits, "Inventory Items" then
"Bag Items", with `body` applied at every position.  The `uint8` counter of
the first loop runs over `[INVENTORY_SLOT_ITEM_START, INVENTORY_SLOT_ITEM_END)`
as the `uint32` counters do, the slot constants being below 256. -/
def scanInventory (env : Env) (body : DepositState → Nat → Nat → DepositState)
    (s : DepositState) : DepositState :=
  let s1 := (List.range' env.INVENTORY_SLOT_ITEM_START
      (env.INVENTORY_SLOT_ITEM_END - env.INVENTORY_SLOT_ITEM_START)).foldl
    (fun st i => body st env.INVENTORY_SLOT_BAG_0 i) s
  (List.range' env.INVENTORY_SLOT_BAG_START
      (env.INVENTORY_SLOT_BAG_END - env.INVENTORY_SLOT_BAG_START)).foldl
    (fun st i =>
      match st.inv.bags i with
      | none => st
      | some size => (List.range size).foldl (fun st2 j => body st2 i j) st) s1

/-- The block "Write all changes to the DB in a transaction": one
`REPLACE INTO` per entry of `entryToAmountMap`, in key order.  The category
is `entryToSubclassMap.find(itemEntry)->second`; the two maps always have the
same keys (`scan_keys_covered`), so the default 0 is never used. -/
def writeDeposit (accountKey guidKey : Nat) (s : DepositState) (db : Table) : Table :=
  if s.entryToAmountMap.length ≠ 0 then
    s.entryToAmountMap.foldl
      (fun t mapEntry =>
        t.replaceInto accountKey guidKey mapEntry.1
          ((s.entryToSubclassMap.find mapEntry.1).getD 0) mapEntry.2) db
  else db

/-- The name printed in a deposit feedback line:
`sObjectMgr->GetItemTemplate(itemEntry)->Name1`.  The source dereferences the
template without a check; the empty name stands for a missing template. -/
def depositName (env : Env) (itemEntry : Nat) : String :=
  match env.GetItemTemplate itemEntry with
  | some itemTemplate => itemTemplate.Name1
  | none => ""

/-- The block "Feedback to player" of both deposits; `emptyMsg` is the line
sent when nothing was deposited. -/
def depositFeedback (env : Env) (emptyMsg : Msg) (s : DepositState) : List Event :=
  if s.itemsAddedMap.length ≠ 0 then
    Event.sysMessage Msg.depositedHeader ::
      s.itemsAddedMap.map (fun mapEntry =>
        Event.sysMessage (Msg.depositedLine mapEntry.2 (depositName env mapEntry.1)))
  else [Event.sysMessage emptyMsg]

/-- The function `DepositAllReagents`, its query callback being run right
after the call returns: the stored rows of the owner are loaded into the
maps, the inventory is scanned, the totals are written back. -/
def DepositAllReagents (env : Env) (player : Player) (w : World) : World :=
  let accountKey := (GetStorageKeys env player).1
  let guidKey := (GetStorageKeys env player).2
  let result := w.db.selectOwner accountKey guidKey
  let s := scanInventory env (depositAt env)
    { entryToAmountMap := result.foldl (fun m r => m.set r.1 r.2.2) []
      entryToSubclassMap := result.foldl (fun m r => m.set r.1 r.2.1) []
      itemsAddedMap := []
      inv := w.inv
      log := w.log ++ [Event.closeGossipMenu] }
  { db := writeDeposit accountKey guidKey s w.db
    inv := s.inv
    log := s.log ++ depositFeedback env Msg.noReagentsToDeposit s }

/-- The function `DepositAllReagentsForCategory`. -/
def DepositAllReagentsForCategory (env : Env) (player : Player) (item_subclass : Nat)
    (w : World) : World :=
  let accountKey := (GetStorageKeys env player).1
  let guidKey := (GetStorageKeys env player).2
  let s := scanInventory env (depositCategoryAt env item_subclass)
    { entryToAmountMap := []
      entryToSubclassMap := []
      itemsAddedMap := []
      inv := w.inv
      log := w.log }
  { db := writeDeposit accountKey guidKey s w.db
    inv := s.inv
    log := s.log ++ depositFeedback env Msg.noReagentsToDepositInCategory s
      ++ [Event.closeGossipMenu] }

/-! ## Observations used in the statements -/

/-- The stored quantity of `(a, g, e)` as the point query of the withdrawals
reads it: the first row of `SELECT amount ...`, `none` without a row. -/
def Table.amountOf (t : Table) (a g e : Nat) : Option Nat :=
  (t.selectAmount a g e).head?

/-- The category stored with `(a, g, e)`, `none` without a row. -/
def Table.subclassOf (t : Table) (a g e : Nat) : Option Nat :=
  ((t.filter (fun r => r.hasKey a g e)).map (fun r => r.item_subclass)).head?

/-- The units of item `e` granted in a log: the counts of its `newItem`
events, added up. -/
def grantedUnits : List Event → Nat → Nat
  | [], _ => 0
  | Event.newItem e' c :: l, e => (if e' = e then c else 0) + grantedUnits l e
  | _ :: l, e => grantedUnits l e

/-- The units of item `e` removed from the carried inventory in a log: the
counts of its `destroyItem` events, added up. -/
def removedUnits : List Event → Nat → Nat
  | [], _ => 0
  | Event.destroyItem _ _ e' c :: l, e => (if e' = e then c else 0) + removedUnits l e
  | _ :: l, e => removedUnits l e

/-- The stacks granted in a log for item `e`, in order. -/
def grantedStacks : List Event → Nat → List Nat
  | [], _ => []
  | Event.newItem e' c :: l, e => if e' = e then c :: grantedStacks l e else grantedStacks l e
  | _ :: l, e => grantedStacks l e

/-! ## Capacity along a run of grants -/

/-- The inventory after the stacks `cs` of `entry` have been placed in it one
after the other. -/
def invAfter (env : Env) (entry : Nat) (inv : Inventory) (cs : List Nat) : Inventory :=
  cs.foldl (fun i c => env.StoreNewItem i entry c) inv

/-- Every capacity check succeeds while the stacks `cs` of `entry` are
granted one after the other, starting from `inv`. -/
def acceptsAll (env : Env) (entry : Nat) : Inventory → List Nat → Bool
  | _, [] => true
  | inv, c :: cs =>
    env.CanStoreNewItem inv entry c && acceptsAll env entry (env.StoreNewItem inv entry c) cs

/-- The stacks the specification promises for a withdrawal of `Q` units with
stack size `S`: `ceil(Q/S)` stacks, all of size `S` but the last, which has
`Q mod S` units, or `S` when `S` divides `Q`. -/
def specStacks (Q S : Nat) : List Nat :=
  List.replicate ((Q + S - 1) / S - 1) S ++ [if Q % S = 0 then S else Q % S]

/-- The row stored for `(a, g, e)`: the first one with that key. -/
def Table.rowOf (t : Table) (a g e : Nat) : Option Row :=
  t.find? (fun r => r.hasKey a g e)

/-! ## Eligibility and the carried units of an item -/

/-- The guard of `UpdateItemCount`: a stack of this template is counted, that
is, the class is trade goods or gem and the maximum stack size is not 1. -/
def eligible (env : Env) (t : ItemTemplate) : Bool :=
  decide ((t.Class = env.ITEM_CLASS_TRADE_GOODS ∨ t.Class = env.ITEM_CLASS_GEM)
    ∧ t.MaxStackSize ≠ 1)

/-- The category an item is filed under: jewelcrafting for a gem, its own
subclass otherwise. -/
def categoryOf (env : Env) (t : ItemTemplate) : Nat :=
  if t.Class = env.ITEM_CLASS_GEM then env.ITEM_SUBCLASS_JEWELCRAFTING else t.SubClass

/-- The guard of the scanning loops of `DepositAllReagentsForCategory` for the
category `c`. -/
def eligibleIn (env : Env) (c : Nat) (t : ItemTemplate) : Bool :=
  decide ((t.Class = env.ITEM_CLASS_TRADE_GOODS ∨ t.Class = env.ITEM_CLASS_GEM)
    ∧ t.MaxStackSize > 1 ∧ categoryOf env t = c)

/-- The positions a deposit looks at, in scanning order: the main pack, then
every slot of every equipped container. -/
def scanPositions (env : Env) (inv : Inventory) : List (Nat × Nat) :=
  (List.range' env.INVENTORY_SLOT_ITEM_START
      (env.INVENTORY_SLOT_ITEM_END - env.INVENTORY_SLOT_ITEM_START)).map
    (fun i => (env.INVENTORY_SLOT_BAG_0, i))
  ++ (List.range' env.INVENTORY_SLOT_BAG_START
      (env.INVENTORY_SLOT_BAG_END - env.INVENTORY_SLOT_BAG_START)).flatMap
    (fun i =>
      match inv.bags i with
      | none => []
      | some size => (List.range size).map (fun j => (i, j)))

/-- The main pack is not one of the container slots: `INVENTORY_SLOT_BAG_0`
lies outside `[INVENTORY_SLOT_BAG_START, INVENTORY_SLOT_BAG_END)`. -/
def Env.slotsDisjoint (env : Env) : Prop :=
  env.INVENTORY_SLOT_BAG_0 < env.INVENTORY_SLOT_BAG_START
    ∨ env.INVENTORY_SLOT_BAG_END ≤ env.INVENTORY_SLOT_BAG_0

/-- The units of item `X` in the stack at position `p`, when its template
satisfies `P`; 0 otherwise. -/
def stackUnits (P : ItemTemplate → Bool) (inv : Inventory) (X : Nat) (p : Nat × Nat) : Nat :=
  match inv.items p.1 p.2 with
  | some it => if P it.template = true ∧ it.template.ItemId = X then it.count else 0
  | none => 0

/-- Some position of `ps` holds a stack of item `X` whose template satisfies
`P`. -/
def hasStack (P : ItemTemplate → Bool) (inv : Inventory) (X : Nat) (ps : List (Nat × Nat)) :
    Bool :=
  ps.any (fun p =>
    match inv.items p.1 p.2 with
    | some it => P it.template && decide (it.template.ItemId = X)
    | none => false)

/-- The units of item `X` carried in stacks whose template satisfies `P`:
the sum of their counts over all scanned positions. -/
def carriedUnits (env : Env) (P : ItemTemplate → Bool) (inv : Inventory) (X : Nat) : Nat :=
  ((scanPositions env inv).map (stackUnits P inv X)).sum

/-- One step of a scan at position `p`: the stack found there goes to
`UpdateItemCount` when its template passes the filter `P` of the loop. -/
def depositStep (env : Env) (P : ItemTemplate → Bool) (s : DepositState) (p : Nat × Nat) :
    DepositState :=
  match s.inv.items p.1 p.2 with
  | none => s
  | some pItem => if P pItem.template = true then UpdateItemCount env s pItem p.1 p.2 else s

/-- The stacks a scan with loop filter `P` counts: those that pass `P` and
the guard of `UpdateItemCount`. -/
def counted (env : Env) (P : ItemTemplate → Bool) (t : ItemTemplate) : Bool :=
  P t && eligible env t

/-- The maps of `DepositAllReagents` as loaded from the stored rows of the
owner, before the scan. -/
def depositAllStart (env : Env) (player : Player) (w : World) : DepositState :=
  { entryToAmountMap :=
      (w.db.selectOwner (GetStorageKeys env player).1 (GetStorageKeys env player).2).foldl
        (fun m r => m.set r.1 r.2.2) []
    entryToSubclassMap :=
      (w.db.selectOwner (GetStorageKeys env player).1 (GetStorageKeys env player).2).foldl
        (fun m r => m.set r.1 r.2.1) []
    itemsAddedMap := []
    inv := w.inv
    log := w.log ++ [Event.closeGossipMenu] }

/-- The empty maps `DepositAllReagentsForCategory` starts its scan with. -/
def depositCategoryStart (w : World) : DepositState :=
  { entryToAmountMap := []
    entryToSubclassMap := []
    itemsAddedMap := []
    inv := w.inv
    log := w.log }

/-! ## Well-formed tables and maps -/

/-- The unique key of the table: no two rows agree on
`(account_id, guid, item_entry)`. -/
def Table.UniqueKeys (t : Table) : Prop :=
  t.Pairwise (fun r r' =>
    ¬ (r.account_id = r'.account_id ∧ r.guid = r'.guid ∧ r.item_entry = r'.item_entry))

/-- No row has quantity 0. -/
def Table.NoZero (t : Table) : Prop := ∀ r ∈ t, r.amount ≠ 0

/-- The keys of a `std::map` are strictly ascending. -/
def StdMap.Sorted (m : StdMap) : Prop := m.Pairwise (fun p q => p.1 < q.1)

instance Table.decidableUniqueKeys (t : Table) : Decidable t.UniqueKeys :=
  inferInstanceAs (Decidable (List.Pairwise _ t))

instance Table.decidableNoZero (t : Table) : Decidable t.NoZero :=
  inferInstanceAs (Decidable (∀ r ∈ t, r.amount ≠ 0))

instance StdMap.decidableSorted (m : StdMap) : Decidable m.Sorted :=
  inferInstanceAs (Decidable (List.Pairwise _ m))

instance Env.decidableSlotsDisjoint (env : Env) : Decidable env.slotsDisjoint :=
  inferInstanceAs (Decidable (_ ∨ _))

/-! ## Sequences of operations -/

/-- The six operations of the transfer engine. -/
inductive Op where
  | depositAll
  | depositCategory (item_subclass : Nat)
  | withdrawOne (entry : Nat)
  | withdrawStack (entry : Nat)
  | withdrawAllOfItem (entry : Nat)
  | withdrawAllInCategory (item_subclass : Nat)
deriving DecidableEq, Repr

/-- Run one operation; `none` when a grant loop does not come to an end. -/
def runOp (env : Env) (player : Player) (op : Op) (w : World) : Option World :=
  match op with
  | Op.depositAll => some (DepositAllReagents env player w)
  | Op.depositCategory c => some (DepositAllReagentsForCategory env player c w)
  | Op.withdrawOne e => some (WithdrawOne env player e w)
  | Op.withdrawStack e => some (WithdrawStack env player e w)
  | Op.withdrawAllOfItem e => WithdrawAllOfItem env player e w
  | Op.withdrawAllInCategory c => WithdrawAllInCategory env player c w

/-- Run a sequence of operations, one after the other. -/
def runOps (env : Env) (player : Player) : List Op → World → Option World
  | [], w => some w
  | op :: ops, w =>
    match runOp env player op w with
    | none => none
    | some w' => runOps env player ops w'

/-- The balance of item `X` the conservation property is about: its stored
quantity (0 without a row) plus the units of it granted so far. -/
def balance (env : Env) (player : Player) (w : World) (X : Nat) : Nat :=
  (w.db.amountOf (GetStorageKeys env player).1 (GetStorageKeys env player).2 X).getD 0
    + grantedUnits w.log X

/-- Nothing of item `X` is created or destroyed between `w` and `w'`: the
balance grows by exactly the units removed from the inventory by deposits. -/
def conserved (env : Env) (player : Player) (X : Nat) (w w' : World) : Prop :=
  balance env player w' X + removedUnits w.log X
    = balance env player w X + removedUnits w'.log X

/-- No deposit total of item `X` overflows along the run of `ops` from `w`:
at every `DepositAllReagents` of the run, the stored quantity of `X` plus its
carried eligible units is below `2^32`. -/
def fitsAlong (env : Env) (player : Player) (X : Nat) : List Op → World → Prop
  | [], _ => True
  | op :: ops, w =>
    (op = Op.depositAll →
        (w.db.amountOf (GetStorageKeys env player).1 (GetStorageKeys env player).2 X).getD 0
          + carriedUnits env (eligible env) w.inv X < 4294967296)
      ∧ ∀ w', runOp env player op w = some w' → fitsAlong env player X ops w'

/-- The operation is not a deposit of a single category. -/
def Op.notCategoryDeposit : Op → Bool
  | Op.depositCategory _ => false
  | _ => true

/-! ## The gossip menus -/

/-- Wrap a natural number into the range of a C++ `uint16`. -/
def u16 (n : Nat) : Nat := n % 65536

/-- The constants of `ReagentBankAccount.h`, which the script includes. -/
structure Header where
  DEPOSIT_ALL_REAGENTS : Nat
  WITHDRAW_ALL_REAGENTS : Nat
  MAIN_MENU : Nat
  NPC_TEXT_ID : Nat
  DEFAULT_MAX_OPTIONS : Nat

/-- The action code `ACTION_WITHDRAW_ONE`. -/
def ACTION_WITHDRAW_ONE : Nat := 900001

/-- The action code `ACTION_WITHDRAW_STACK`. -/
def ACTION_WITHDRAW_STACK : Nat := 900002

/-- The action code `ACTION_WITHDRAW_ALL`. -/
def ACTION_WITHDRAW_ALL : Nat := 900003

/-- The function `IsCategory`. -/
def IsCategory (env : Env) (value : Nat) : Bool :=
  value == env.ITEM_SUBCLASS_CLOTH || value == env.ITEM_SUBCLASS_MEAT
    || value == env.ITEM_SUBCLASS_METAL_STONE || value == env.ITEM_SUBCLASS_ENCHANTING
    || value == env.ITEM_SUBCLASS_ELEMENTAL || value == env.ITEM_SUBCLASS_PARTS
    || value == env.ITEM_SUBCLASS_TRADE_GOODS_OTHER || value == env.ITEM_SUBCLASS_HERB
    || value == env.ITEM_SUBCLASS_LEATHER || value == env.ITEM_SUBCLASS_JEWELCRAFTING
    || value == env.ITEM_SUBCLASS_EXPLOSIVES || value == env.ITEM_SUBCLASS_DEVICES
    || value == env.ITEM_SUBCLASS_MATERIAL || value == env.ITEM_SUBCLASS_ARMOR_ENCHANTMENT
    || value == env.ITEM_SUBCLASS_WEAPON_ENCHANTMENT

/-- The function `GetItemName`: the name of the template, replaced by the
locale string of the session when `localeName` has one, and "Unknown" without
a template.  `localeName` stands for `GetItemLocale` and `GetLocaleString`. -/
def GetItemName (env : Env) (localeName : Nat → Option String) (entry : Nat) : String :=
  match env.GetItemTemplate entry with
  | none => "Unknown"
  | some temp => (localeName temp.ItemId).getD temp.Name1

/-- The lambda `getSortKey` of `ShowReagentItems`: the item name with
`std::tolower` applied to every character by `std::transform`. -/
def getSortKey (env : Env) (localeName : Nat → Option String) (entry : Nat) : String :=
  String.mk ((GetItemName env localeName entry).data.map Char.toLower)

/-- The comparator handed to `std::sort` in `ShowReagentItems`; `operator<`
of `std::string` compares the characters in lexicographic order. -/
def itemLess (env : Env) (localeName : Nat → Option String) (lhs rhs : Nat) : Bool :=
  if getSortKey env localeName lhs = getSortKey env localeName rhs then decide (lhs < rhs)
  else decide ((getSortKey env localeName lhs).data < (getSortKey env localeName rhs).data)

/-- The call `std::sort(first, last, less)`: the elements rearranged so that
none is `less` than an earlier one, computed here by insertion. -/
def stdSort (less : Nat → Nat → Bool) (l : List Nat) : List Nat :=
  l.insertionSort (fun a b => less b a = false)

/-- The texts of the menu options, without icons and colour codes. -/
inductive Label where
  /-- The line "<category>: <n> types, <m> total". -/
  | categoryHeader (categoryName : String) (totalItems totalAmount : Nat)
  /-- The option "Deposit All" of a category. -/
  | depositAll
  /-- The option "Withdraw All" of a category. -/
  | withdrawAll
  /-- The option "Next Page (<page>/<totalPages>)". -/
  | nextPage (page totalPages : Nat)
  /-- The option "Previous Page (<page>/<totalPages>)". -/
  | previousPage (page totalPages : Nat)
  /-- The option of a stored item: its link and "x <amount>". -/
  | storedItem (itemEntry amount : Nat)
  /-- The option "Back to Categories". -/
  | backToCategories
  /-- The option "Deposit All Reagents" of the main menu. -/
  | depositAllReagents
  /-- The option "Withdraw All Reagents" of the main menu. -/
  | withdrawAllReagents
  /-- A category of the main menu. -/
  | category (name : String)
  /-- The line of the item submenu: link of the item and "Stored: <stored>". -/
  | itemStored (itemEntry stored : Nat)
  /-- The option "Withdraw 1". -/
  | withdraw1
  /-- The option "Withdraw Stack". -/
  | withdrawStack
  /-- The option "Withdraw All" of the item submenu. -/
  | withdrawAllOfItem
  /-- The option "Back" of the item submenu. -/
  | back
deriving DecidableEq, Repr

/-- One call `AddGossipItemFor(player, icon, text, sender, action)`. -/
structure GossipItem where
  label : Label
  sender : Nat
  action : Nat
deriving DecidableEq, Repr

/-- What the player is left with after a selection: a menu sent with
`SendGossipMenuFor`, or the menu closed with `CloseGossipMenuFor`. -/
inductive View where
  | menu (items : List GossipItem)
  | closed
deriving DecidableEq, Repr

/-- The switch "Category name" of `ShowReagentItems`. -/
def categoryName (env : Env) (item_subclass : Nat) : String :=
  if item_subclass = env.ITEM_SUBCLASS_CLOTH then "Cloth"
  else if item_subclass = env.ITEM_SUBCLASS_MEAT then "Meat"
  else if item_subclass = env.ITEM_SUBCLASS_METAL_STONE then "Metal & Stone"
  else if item_subclass = env.ITEM_SUBCLASS_ENCHANTING then "Enchanting"
  else if item_subclass = env.ITEM_SUBCLASS_ELEMENTAL then "Elemental"
  else if item_subclass = env.ITEM_SUBCLASS_PARTS then "Parts"
  else if item_subclass = env.ITEM_SUBCLASS_TRADE_GOODS_OTHER then "Other Trade Goods"
  else if item_subclass = env.ITEM_SUBCLASS_HERB then "Herb"
  else if item_subclass = env.ITEM_SUBCLASS_LEATHER then "Leather"
  else if item_subclass = env.ITEM_SUBCLASS_JEWELCRAFTING then "Jewelcrafting"
  else if item_subclass = env.ITEM_SUBCLASS_EXPLOSIVES then "Explosives"
  else if item_subclass = env.ITEM_SUBCLASS_DEVICES then "Devices"
  else if item_subclass = env.ITEM_SUBCLASS_MATERIAL then "Nether Material"
  else if item_subclass = env.ITEM_SUBCLASS_ARMOR_ENCHANTMENT then "Armor Vellum"
  else if item_subclass = env.ITEM_SUBCLASS_WEAPON_ENCHANTMENT then "Weapon Vellum"
  else "Reagents"

/-- The menu built by `OnGossipHello`. -/
def OnGossipHello (env : Env) (hdr : Header) : List GossipItem :=
  [ { label := Label.depositAllReagents, sender := hdr.DEPOSIT_ALL_REAGENTS, action := 0 },
    { label := Label.withdrawAllReagents, sender := hdr.WITHDRAW_ALL_REAGENTS, action := 0 },
    { label := Label.category "Cloth", sender := env.ITEM_SUBCLASS_CLOTH, action := 0 },
    { label := Label.category "Meat", sender := env.ITEM_SUBCLASS_MEAT, action := 0 },
    { label := Label.category "Metal & Stone", sender := env.ITEM_SUBCLASS_METAL_STONE,
      action := 0 },
    { label := Label.category "Enchanting", sender := env.ITEM_SUBCLASS_ENCHANTING,
      action := 0 },
    { label := Label.category "Elemental", sender := env.ITEM_SUBCLASS_ELEMENTAL, action := 0 },
    { label := Label.category "Parts", sender := env.ITEM_SUBCLASS_PARTS, action := 0 },
    { label := Label.category "Other Trade Goods",
      sender := env.ITEM_SUBCLASS_TRADE_GOODS_OTHER, action := 0 },
    { label := Label.category "Herb", sender := env.ITEM_SUBCLASS_HERB, action := 0 },
    { label := Label.category "Leather", sender := env.ITEM_SUBCLASS_LEATHER, action := 0 },
    { label := Label.category "Jewelcrafting", sender := env.ITEM_SUBCLASS_JEWELCRAFTING,
      action := 0 },
    { label := Label.category "Explosives", sender := env.ITEM_SUBCLASS_EXPLOSIVES,
      action := 0 },
    { label := Label.category "Devices", sender := env.ITEM_SUBCLASS_DEVICES, action := 0 },
    { label := Label.category "Nether Material", sender := env.ITEM_SUBCLASS_MATERIAL,
      action := 0 },
    { label := Label.category "Armor Vellum", sender := env.ITEM_SUBCLASS_ARMOR_ENCHANTMENT,
      action := 0 },
    { label := Label.category "Weapon Vellum", sender := env.ITEM_SUBCLASS_WEAPON_ENCHANTMENT,
      action := 0 } ]

/-- The function `ShowItemWithdrawMenu`. -/
def ShowItemWithdrawMenu (env : Env) (player : Player) (category pageIndex itemEntry : Nat)
    (db : Table) : List GossipItem :=
  let stored :=
    match db.selectAmount (GetStorageKeys env player).1 (GetStorageKeys env player).2 itemEntry
      with
    | [] => 0
    | amount :: _ => amount
  let temp := env.GetItemTemplate itemEntry
  [ { label := Label.itemStored itemEntry stored, sender := 0, action := 0 } ]
    ++ (if stored > 0 then
          [ { label := Label.withdraw1, sender := ACTION_WITHDRAW_ONE, action := itemEntry } ]
        else [])
    ++ (if stored > 1 ∧ (match temp with
            | some t => decide (t.MaxStackSize > 1)
            | none => false) = true then
          [ { label := Label.withdrawStack, sender := ACTION_WITHDRAW_STACK,
              action := itemEntry } ]
        else [])
    ++ (if stored > 0 then
          [ { label := Label.withdrawAllOfItem, sender := ACTION_WITHDRAW_ALL,
              action := itemEntry } ]
        else [])
    ++ [ { label := Label.back, sender := category, action := pageIndex } ]

/-! ## The paged listing of a category -/

/-- The loop "Build arrays first" of `ShowReagentItems` over the rows of the
query result: `(entryToAmountMap, itemEntries, totalAmount)`. -/
def buildArrays (rows : List (Nat × Nat)) : StdMap × List Nat × Nat :=
  rows.foldl
    (fun acc row => (acc.1.set row.1 row.2, acc.2.1 ++ [row.1], u32 (acc.2.2 + row.2)))
    ([], [], 0)

/-- The value of `totalPages` in `ShowReagentItems` for a page size of at
least 1 and a value of `totalItems`.  The division is by
`g_maxOptionsPerPage`; with a page size of 0 and an item in the list the
source divides by zero and there is no value, which is why `ShowReagentItems`
below has no result there and does not use this function. -/
def totalPagesOf (pageSize totalItems : Nat) : Nat :=
  if totalItems = 0 then 1 else u32 ((totalItems - 1) / pageSize + 1)

/-- The value of `clampedPageIndex` in `ShowReagentItems`. -/
def clampPage (totalPages gossipPageNumber : Nat) : Nat :=
  if gossipPageNumber ≥ totalPages then (if totalPages = 0 then 0 else totalPages - 1)
  else gossipPageNumber

/-- The value of `startValue` in `ShowReagentItems`. -/
def startValueOf (pageSize clampedPageIndex : Nat) : Nat :=
  u32 (clampedPageIndex * pageSize)

/-- The value of `endValue` in `ShowReagentItems`; the subtraction of 1 is on
a `uint32`. -/
def endValueOf (pageSize clampedPageIndex : Nat) : Nat :=
  u32 (u32 ((clampedPageIndex + 1) * pageSize) + 4294967295)

/-- The loop `for (uint32 i = startValue; i <= endValue; i++)` of
`ShowReagentItems`, from the counter value `i`: the item entries listed, in
order.  It is run for at most `fuel` iterations; `none` when the loop
condition still holds after them. -/
def listedFrom (itemEntries : List Nat) (endValue : Nat) : Nat → Nat → Option (List Nat)
  | 0, i => if i ≤ endValue then none else some []
  | fuel + 1, i =>
    if i ≤ endValue then
      if itemEntries.isEmpty ∨ i > itemEntries.length - 1 then some []
      else
        match listedFrom itemEntries endValue fuel (u32 (i + 1)) with
        | none => none
        | some rest => some (itemEntries.getD i 0 :: rest)
    else some []

/-- The item entries `ShowReagentItems` lists for the clamped page index:
the loop is given one iteration for every counter value from `startValue` to
`endValue`. -/
def listedEntries (pageSize clampedPageIndex : Nat) (itemEntries : List Nat) :
    Option (List Nat) :=
  listedFrom itemEntries (endValueOf pageSize clampedPageIndex)
    (endValueOf pageSize clampedPageIndex + 1 - startValueOf pageSize clampedPageIndex)
    (startValueOf pageSize clampedPageIndex)

/-- The condition of the "Next Page" option in `ShowReagentItems`:
`endValue < entryToAmountMap.size()`. -/
def offersNext (pageSize clampedPageIndex mapSize : Nat) : Bool :=
  decide (endValueOf pageSize clampedPageIndex < mapSize)

/-- The condition of the "Previous Page" option in `ShowReagentItems`. -/
def offersPrevious (effectivePageNumber : Nat) : Bool :=
  decide (effectivePageNumber > 0)

/-- The callback of `ShowReagentItems`, run right after the query: the menu
it sends for the category `item_subclass` and the `uint16` page
`gossipPageNumber`; `none` when `g_maxOptionsPerPage` is 0 and the category
has an item, the computation of `totalPages` being a division by zero, and
when the listing loop does not come to an end. -/
def ShowReagentItems (env : Env) (hdr : Header) (localeName : Nat → Option String)
    (player : Player) (item_subclass gossipPageNumber : Nat) (db : Table) :
    Option (List GossipItem) :=
  let result := db.selectCategory (GetStorageKeys env player).1 (GetStorageKeys env player).2
    item_subclass
  let entryToAmountMap := (buildArrays result).1
  let itemEntries := stdSort (itemLess env localeName) (buildArrays result).2.1
  let totalAmount := (buildArrays result).2.2
  let totalItems := u32 itemEntries.length
  let totalPages := totalPagesOf env.g_maxOptionsPerPage totalItems
  let clampedPageIndex := clampPage totalPages gossipPageNumber
  let currentPage := u32 (clampedPageIndex + 1)
  let effectivePageNumber := clampedPageIndex
  if totalItems ≠ 0 ∧ env.g_maxOptionsPerPage = 0 then none
  else
  match listedEntries env.g_maxOptionsPerPage clampedPageIndex itemEntries with
  | none => none
  | some listed =>
    some
      ([ { label := Label.categoryHeader (categoryName env item_subclass) totalItems totalAmount,
           sender := 0, action := 0 },
         { label := Label.depositAll, sender := hdr.DEPOSIT_ALL_REAGENTS,
           action := item_subclass },
         { label := Label.withdrawAll, sender := hdr.WITHDRAW_ALL_REAGENTS,
           action := item_subclass } ]
        ++ (if offersNext env.g_maxOptionsPerPage clampedPageIndex entryToAmountMap.length
              = true then
              [ { label := Label.nextPage (u32 (currentPage + 1)) totalPages,
                  sender := item_subclass, action := u32 (effectivePageNumber + 1) } ]
            else [])
        ++ (if offersPrevious effectivePageNumber = true then
              [ { label := Label.previousPage (currentPage - 1) totalPages,
                  sender := item_subclass, action := effectivePageNumber - 1 } ]
            else [])
        ++ listed.map (fun itemEntry =>
              { label := Label.storedItem itemEntry ((entryToAmountMap.find itemEntry).getD 0),
                sender := itemEntry, action := effectivePageNumber })
        ++ [ { label := Label.backToCategories, sender := hdr.MAIN_MENU, action := 0 } ])

/-! ## Selections -/

/-- The state a selection acts on: the world, the map `m_lastCategoryPage`
from the low guid of a player to the category and page last viewed, and the
view the player is left with. -/
structure Gossip where
  world : World
  m_lastCategoryPage : Nat → Option (Nat × Nat)
  view : View

/-- The key of `m_lastCategoryPage`: `player->GetGUID().GetCounter()`, for a
player guid the low 32 bits of the raw value. -/
def guidLow (player : Player) : Nat := u32 player.guidRaw

/-- The vector `subclasses` swept by "Withdraw All Reagents". -/
def sweptSubclasses (env : Env) : List Nat :=
  [env.ITEM_SUBCLASS_CLOTH, env.ITEM_SUBCLASS_MEAT, env.ITEM_SUBCLASS_METAL_STONE,
   env.ITEM_SUBCLASS_ENCHANTING, env.ITEM_SUBCLASS_ELEMENTAL, env.ITEM_SUBCLASS_PARTS,
   env.ITEM_SUBCLASS_TRADE_GOODS_OTHER, env.ITEM_SUBCLASS_HERB, env.ITEM_SUBCLASS_LEATHER,
   env.ITEM_SUBCLASS_JEWELCRAFTING, env.ITEM_SUBCLASS_EXPLOSIVES, env.ITEM_SUBCLASS_DEVICES,
   env.ITEM_SUBCLASS_MATERIAL, env.ITEM_SUBCLASS_ARMOR_ENCHANTMENT,
   env.ITEM_SUBCLASS_WEAPON_ENCHANTMENT]

/-- The loop `for (uint32 subclass : subclasses) WithdrawAllInCategory(...)`. -/
def withdrawAllCategories (env : Env) (player : Player) : List Nat → World → Option World
  | [], w => some w
  | subclass :: rest, w =>
    match WithdrawAllInCategory env player subclass w with
    | none => none
    | some w' => withdrawAllCategories env player rest w'

/-- The view after `ShowReagentItems` on the current table. -/
def showReagentItemsView (env : Env) (hdr : Header) (localeName : Nat → Option String)
    (player : Player) (category pageIndex : Nat) (g : Gossip) : Option Gossip :=
  match ShowReagentItems env hdr localeName player category pageIndex g.world.db with
  | none => none
  | some items => some { g with view := View.menu items }

/-- The three-way choice of `OnGossipSelect` among `WithdrawOne`,
`WithdrawStack` and `WithdrawAllOfItem` on the action code `item_subclass`. -/
def withdrawAction (env : Env) (player : Player) (item_subclass itemEntry : Nat) (w : World) :
    Option World :=
  if item_subclass = ACTION_WITHDRAW_ONE then some (WithdrawOne env player itemEntry w)
  else if item_subclass = ACTION_WITHDRAW_STACK then some (WithdrawStack env player itemEntry w)
  else if item_subclass = ACTION_WITHDRAW_ALL then WithdrawAllOfItem env player itemEntry w
  else some w

/-- The function `OnGossipSelect` with the parameters `item_subclass` and
`gossipPageNumber`, both `uint32`; asynchronous queries are answered at
once. -/
def OnGossipSelect (env : Env) (hdr : Header) (localeName : Nat → Option String)
    (player : Player) (item_subclass gossipPageNumber : Nat) (g : Gossip) : Option Gossip :=
  if item_subclass = hdr.DEPOSIT_ALL_REAGENTS then
    if gossipPageNumber = 0 then
      some { g with world := DepositAllReagents env player g.world, view := View.closed }
    else
      some { g with world := DepositAllReagentsForCategory env player gossipPageNumber g.world,
                    view := View.closed }
  else if item_subclass = hdr.WITHDRAW_ALL_REAGENTS then
    match (if gossipPageNumber = 0 then
            withdrawAllCategories env player (sweptSubclasses env) g.world
          else WithdrawAllInCategory env player gossipPageNumber g.world) with
    | none => none
    | some w =>
      some { g with world := { w with log := w.log ++ [Event.closeGossipMenu] },
                    view := View.closed }
  else if item_subclass = hdr.MAIN_MENU then
    some { g with view := View.menu (OnGossipHello env hdr) }
  else if IsCategory env item_subclass = true then
    showReagentItemsView env hdr localeName player item_subclass (u16 gossipPageNumber) g
  else if item_subclass = ACTION_WITHDRAW_ONE ∨ item_subclass = ACTION_WITHDRAW_STACK
      ∨ item_subclass = ACTION_WITHDRAW_ALL then
    let itemEntry := gossipPageNumber
    let category :=
      match g.m_lastCategoryPage (guidLow player) with
      | some last => last.1
      | none => 0
    let pageIndex :=
      match g.m_lastCategoryPage (guidLow player) with
      | some last => last.2
      | none => 0
    match withdrawAction env player item_subclass itemEntry g.world with
    | none => none
    | some w =>
      if IsCategory env category = true then
        showReagentItemsView env hdr localeName player category pageIndex { g with world := w }
      else
        some { g with world := w, view := View.menu (OnGossipHello env hdr) }
  else
    let itemEntry := item_subclass
    match env.GetItemTemplate itemEntry with
    | none => some { g with view := View.menu (OnGossipHello env hdr) }
    | some temp =>
      let cat :=
        if temp.Class = env.ITEM_CLASS_GEM then env.ITEM_SUBCLASS_JEWELCRAFTING
        else temp.SubClass
      some
        { g with
          m_lastCategoryPage := fun key =>
            if key = guidLow player then some (cat, u16 gossipPageNumber)
            else g.m_lastCategoryPage key
          view := View.menu
            (ShowItemWithdrawMenu env player cat (u16 gossipPageNumber) itemEntry g.world.db) }

/-! ## The outcome of a category withdrawal, item by item -/

/-- The maximum stack size the catalog gives for an item entry, 0 without a
definition. -/
def stackSizeOf (env : Env) (itemEntry : Nat) : Nat :=
  match env.GetItemTemplate itemEntry with
  | some temp => temp.MaxStackSize
  | none => 0

/-- The name `Name1` the catalog gives for an item entry, empty without a
definition. -/
def catalogName (env : Env) (itemEntry : Nat) : String :=
  match env.GetItemTemplate itemEntry with
  | some temp => temp.Name1
  | none => ""

/-- The events of one item in a category withdrawal: a grant and a line
"Withdrew" for each stack of `granted`; then, when stacks `rest` of the item are
left over, the error of the capacity check that failed for the first of
them and the line "Not enough bag space". -/
def itemSegment (itemEntry : Nat) (name : String) (granted rest : List Nat) : List Event :=
  granted.flatMap
      (fun c => [Event.newItem itemEntry c, Event.sysMessage (Msg.withdrew c name)])
    ++ match rest with
       | [] => []
       | toGive :: _ =>
         [Event.sendEquipError itemEntry, Event.sysMessage (Msg.notEnoughBagSpace toGive name)]

/-- The stacks `outs` granted for the stored items `rows`, one list per item
in the order of the rows, follow the rule of the specification from the
inventory `inv`: the stacks of an item are an initial part of the list
`specStacks amount stackSize` (each of `min stackSize remaining` units), every
capacity check for them succeeded, and when stacks are left over the capacity
check for the first of them failed; the next item starts from the inventory
the granted stacks were placed in, whether stacks were left over or not. -/
def followsPlan (env : Env) : Inventory → List (Nat × Nat) → List (List Nat) → Bool
  | _, [], [] => true
  | inv, (itemEntry, amount) :: rows, granted :: outs =>
    decide (granted = (specStacks amount (stackSizeOf env itemEntry)).take granted.length)
      && acceptsAll env itemEntry inv granted
      && (match (specStacks amount (stackSizeOf env itemEntry)).drop granted.length with
          | [] => true
          | toGive :: _ =>
            !env.CanStoreNewItem (invAfter env itemEntry inv granted) itemEntry toGive)
      && followsPlan env (invAfter env itemEntry inv granted) rows outs
  | _, _, _ => false

/-- The inventory after the stacks `outs` of the items `rows` were placed. -/
def invAfterRows (env : Env) : Inventory → List (Nat × Nat) → List (List Nat) → Inventory
  | inv, (itemEntry, _) :: rows, granted :: outs =>
    invAfterRows env (invAfter env itemEntry inv granted) rows outs
  | inv, _, _ => inv

/-- The events of the items `rows` with granted stacks `outs`, item after
item. -/
def rowsLog (env : Env) : List (Nat × Nat) → List (List Nat) → List Event
  | (itemEntry, amount) :: rows, granted :: outs =>
    itemSegment itemEntry (catalogName env itemEntry) granted
        ((specStacks amount (stackSizeOf env itemEntry)).drop granted.length)
      ++ rowsLog env rows outs
  | _, _ => []

/-! ## Capacity checks of the grant loops -/

/-- The number of calls of `CanStoreNewItem` made by the loop
`while (remaining > 0) { ... }` that `WithdrawAllOfItem` and
`WithdrawAllInCategory` share, from the inventory `inv` with `remaining` units
left, within `fuel` iterations: every iteration makes one call; a failed check
leaves the loop, a successful one places `min stackSize remaining` units and
goes on with the rest. -/
def grantChecks (env : Env) (entry stackSize : Nat) : Nat → Inventory → Nat → Nat
  | 0, _, _ => 0
  | fuel + 1, inv, remaining =>
    if remaining > 0 then
      if env.CanStoreNewItem inv entry (min stackSize remaining) = false then 1
      else
        1 + grantChecks env entry stackSize fuel
          (env.StoreNewItem inv entry (min stackSize remaining))
          (remaining - min stackSize remaining)
    else 0

/-- The capacity checks visible in a log: in the grant loops every check is
followed by `SendNewItem` when it succeeded and by `SendEquipError` when it
failed. -/
def checkEvents : List Event → Nat
  | [] => 0
  | Event.newItem _ _ :: l => 1 + checkEvents l
  | Event.sendEquipError _ :: l => 1 + checkEvents l
  | _ :: l => checkEvents l

/-! ## An example configuration

The enum values are those of the engine headers; the catalog has one cloth,
one gem and one item that is not a reagent; the receiving inventory is the
sixteen slots of the main pack, a granted stack taking the first free one. -/

/-- Linen Cloth: trade goods, subclass cloth, stacks of 20. -/
def linenCloth : ItemTemplate :=
  { ItemId := 2589, Class := 7, SubClass := 5, MaxStackSize := 20, Name1 := "Linen Cloth" }

/-- Tigerseye: a gem of native subclass 5, stacks of 20. -/
def tigerseye : ItemTemplate :=
  { ItemId := 818, Class := 3, SubClass := 5, MaxStackSize := 20, Name1 := "Tigerseye" }

/-- Hearthstone: not a reagent, stack size 1. -/
def hearthstone : ItemTemplate :=
  { ItemId := 6948, Class := 15, SubClass := 0, MaxStackSize := 1, Name1 := "Hearthstone" }

/-- A trade good without a stack limit: `GetMaxStackSize()` is `0x7FFFFFFE`. -/
def bulkDust : ItemTemplate :=
  { ItemId := 90001, Class := 7, SubClass := 11, MaxStackSize := 2147483646,
    Name1 := "Bulk Dust" }

/-- The catalog of the example. -/
def exampleCatalog (entry : Nat) : Option ItemTemplate :=
  if entry = 2589 then some linenCloth
  else if entry = 818 then some tigerseye
  else if entry = 6948 then some hearthstone
  else if entry = 90001 then some bulkDust
  else none

/-- The first free slot of the main pack, if any. -/
def firstFreeSlot (inv : Inventory) : Option Nat :=
  (List.range' 23 16).find? (fun i => (inv.items 255 i).isNone)

/-- The example's placement: the stack goes to the first free slot. -/
def exampleStore (inv : Inventory) (entry count : Nat) : Inventory :=
  match firstFreeSlot inv, exampleCatalog entry with
  | some i, some t =>
    { inv with items := fun b s =>
        if b = 255 ∧ s = i then some { template := t, count := count } else inv.items b s }
  | _, _ => inv

/-- The example configuration. -/
def exampleEnv : Env :=
  { g_accountWideReagentBank := false
    g_maxOptionsPerPage := 13
    ITEM_CLASS_TRADE_GOODS := 7
    ITEM_CLASS_GEM := 3
    ITEM_SUBCLASS_CLOTH := 5
    ITEM_SUBCLASS_MEAT := 8
    ITEM_SUBCLASS_METAL_STONE := 7
    ITEM_SUBCLASS_ENCHANTING := 12
    ITEM_SUBCLASS_ELEMENTAL := 10
    ITEM_SUBCLASS_PARTS := 1
    ITEM_SUBCLASS_TRADE_GOODS_OTHER := 11
    ITEM_SUBCLASS_HERB := 9
    ITEM_SUBCLASS_LEATHER := 6
    ITEM_SUBCLASS_JEWELCRAFTING := 4
    ITEM_SUBCLASS_EXPLOSIVES := 2
    ITEM_SUBCLASS_DEVICES := 3
    ITEM_SUBCLASS_MATERIAL := 13
    ITEM_SUBCLASS_ARMOR_ENCHANTMENT := 14
    ITEM_SUBCLASS_WEAPON_ENCHANTMENT := 15
    INVENTORY_SLOT_BAG_0 := 255
    INVENTORY_SLOT_ITEM_START := 23
    INVENTORY_SLOT_ITEM_END := 39
    INVENTORY_SLOT_BAG_START := 19
    INVENTORY_SLOT_BAG_END := 23
    GetItemTemplate := exampleCatalog
    CanStoreNewItem := fun inv _ _ => (firstFreeSlot inv).isSome
    StoreNewItem := exampleStore }

/-- The example player, stored under `guid = 7`. -/
def examplePlayer : Player := { accountId := 1, guidRaw := 7 }

/-- An inventory with nothing in it and no containers. -/
def emptyInventory : Inventory := { items := fun _ _ => none, bags := fun _ => none }

/-- An inventory whose main pack is full of hearthstones from slot
`23 + free` on, so that `free` slots are free. -/
def packWithFree (free : Nat) : Inventory :=
  { items := fun b s =>
      if b = 255 ∧ 23 + free ≤ s ∧ s < 39 then some { template := hearthstone, count := 1 }
      else none
    bags := fun _ => none }

/-- One stored row of the example player. -/
def clothRow (amount : Nat) : Row :=
  { account_id := 0, guid := 7, item_entry := 2589, item_subclass := 5, amount := amount }

/-- A main pack holding the stacks `cs` of `t` from slot 23 on, the other
slots empty. -/
def packOf (t : ItemTemplate) (cs : List Nat) : Inventory :=
  { items := fun b s =>
      if b = 255 ∧ 23 ≤ s then (cs.get? (s - 23)).map (fun c => { template := t, count := c })
      else none
    bags := fun _ => none }

/-- A row of the example player that files Tigerseye under subclass 5, its
native subclass, instead of jewelcrafting. -/
def gemRowNative (amount : Nat) : Row :=
  { account_id := 0, guid := 7, item_entry := 818, item_subclass := 5, amount := amount }

/-- Values for the constants of the header; the sender codes of the menu. -/
def exampleHeader : Header :=
  { DEPOSIT_ALL_REAGENTS := 16, WITHDRAW_ALL_REAGENTS := 17, MAIN_MENU := 18,
    NPC_TEXT_ID := 4259, DEFAULT_MAX_OPTIONS := 13 }

/-- The example configuration with `pageSize` options per page. -/
def pagedEnv (pageSize : Nat) : Env := { exampleEnv with g_maxOptionsPerPage := pageSize }

/-- No item has a locale string. -/
def noLocale : Nat → Option String := fun _ => none

/-- A stored row of the example player for Tigerseye, filed under cloth. -/
def tigerseyeRow (amount : Nat) : Row := gemRowNative amount

/-- A state of the menus over the table `db`: nothing carried, no event yet,
no category and page recorded, the menu closed. -/
def gossipOver (db : Table) : Gossip :=
  { world := { db := db, inv := emptyInventory, log := [] }
    m_lastCategoryPage := fun _ => none
    view := View.closed }

/-- The example configuration with an empty catalog: every item is shown as
"Unknown". -/
def namelessEnv : Env := { exampleEnv with GetItemTemplate := fun _ => none }

/-- The item entries `0, 1, ..., 2147483649`. -/
def manyEntries : List Nat := List.range 2147483650

/-- A custom cloth whose entry is the number of `ACTION_WITHDRAW_ONE`. -/
def customCloth : ItemTemplate :=
  { ItemId := 900001, Class := 7, SubClass := 5, MaxStackSize := 20, Name1 := "Custom Cloth" }

/-- The example configuration with the custom cloth added to the catalog. -/
def customEnv : Env :=
  { exampleEnv with
    GetItemTemplate := fun entry => if entry = 900001 then some customCloth
      else exampleCatalog entry }

/-- A stored row of the example player for the custom cloth. -/
def customRow (amount : Nat) : Row :=
  { account_id := 0, guid := 7, item_entry := 900001, item_subclass := 5, amount := amount }

/-- A row of the example player for the Hearthstone, which no deposit
writes. -/
def hearthstoneRow (amount : Nat) : Row :=
  { account_id := 0, guid := 7, item_entry := 6948, item_subclass := 0, amount := amount }

/-- A trade good of the general subclass 0, which is none of the fifteen
categories; stacks of 20. -/
def unsortedGoods : ItemTemplate :=
  { ItemId := 90002, Class := 7, SubClass := 0, MaxStackSize := 20, Name1 := "Unsorted Goods" }

/-- The example configuration with the unsorted goods in the catalog and a
receiving inventory that accepts every stack. -/
def roomyEnv : Env :=
  { exampleEnv with
    GetItemTemplate := fun entry => if entry = 90002 then some unsortedGoods
      else exampleCatalog entry
    CanStoreNewItem := fun _ _ _ => true }

/-- The row `DepositAllReagents` writes for the unsorted goods of the example
player. -/
def unsortedRow (amount : Nat) : Row :=
  { account_id := 0, guid := 7, item_entry := 90002, item_subclass := 0, amount := amount }

/-! ## Facts about the table -/

theorem amountOf_nil (a g e : Nat) : Table.amountOf [] a g e = none := rfl

theorem amountOf_cons (r : Row) (t : Table) (a g e : Nat) :
    Table.amountOf (r :: t) a g e
      = if r.hasKey a g e = true then some r.amount else Table.amountOf t a g e := by
  unfold Table.amountOf Table.selectAmount
  by_cases hr : r.hasKey a g e = true
  · simp [List.filter_cons, hr]
  · simp only [Bool.not_eq_true] at hr
    simp [List.filter_cons, hr]

theorem subclassOf_nil (a g e : Nat) : Table.subclassOf [] a g e = none := rfl

theorem subclassOf_cons (r : Row) (t : Table) (a g e : Nat) :
    Table.subclassOf (r :: t) a g e
      = if r.hasKey a g e = true then some r.item_subclass else Table.subclassOf t a g e := by
  unfold Table.subclassOf
  by_cases hr : r.hasKey a g e = true
  · simp [List.filter_cons, hr]
  · simp only [Bool.not_eq_true] at hr
    simp [List.filter_cons, hr]

theorem delete_nil (a g e : Nat) : Table.delete [] a g e = [] := rfl

theorem delete_cons (r : Row) (t : Table) (a g e : Nat) :
    Table.delete (r :: t) a g e
      = if r.hasKey a g e = true then Table.delete t a g e else r :: Table.delete t a g e := by
  unfold Table.delete
  by_cases hr : r.hasKey a g e = true
  · simp [List.filter_cons, hr]
  · simp only [Bool.not_eq_true] at hr
    simp [List.filter_cons, hr]

theorem update_cons (r : Row) (t : Table) (v a g e : Nat) :
    Table.update (r :: t) v a g e
      = (if r.hasKey a g e = true then { r with amount := v } else r) :: Table.update t v a g e :=
  rfl

theorem hasKey_iff (r : Row) (a g e : Nat) :
    r.hasKey a g e = true ↔ r.account_id = a ∧ r.guid = g ∧ r.item_entry = e := by
  simp [Row.hasKey, and_assoc]

theorem hasKey_other {r : Row} {a g e a' g' e' : Nat} (hr : r.hasKey a g e = true)
    (h : ¬ (a' = a ∧ g' = g ∧ e' = e)) : r.hasKey a' g' e' = false := by
  rw [hasKey_iff] at hr
  rw [← Bool.not_eq_true, hasKey_iff]
  rintro ⟨h1, h2, h3⟩
  exact h ⟨by omega, by omega, by omega⟩

theorem amountOf_delete_self (t : Table) (a g e : Nat) :
    (t.delete a g e).amountOf a g e = none := by
  induction t with
  | nil => rfl
  | cons r t ih =>
    rw [delete_cons]
    by_cases hr : r.hasKey a g e = true
    · simpa [hr] using ih
    · simp [hr, amountOf_cons, ih]

theorem amountOf_delete_other (t : Table) (a g e a' g' e' : Nat)
    (h : ¬ (a' = a ∧ g' = g ∧ e' = e)) :
    (t.delete a g e).amountOf a' g' e' = t.amountOf a' g' e' := by
  induction t with
  | nil => rfl
  | cons r t ih =>
    rw [delete_cons]
    by_cases hr : r.hasKey a g e = true
    · simp [hr, amountOf_cons, ih, hasKey_other hr h]
    · simp [hr, amountOf_cons, ih]

theorem amountOf_update_self (t : Table) (v a g e : Nat) :
    (t.update v a g e).amountOf a g e = (t.amountOf a g e).map (fun _ => v) := by
  induction t with
  | nil => rfl
  | cons r t ih =>
    rw [update_cons, amountOf_cons, amountOf_cons]
    by_cases hr : r.hasKey a g e = true
    · have : ({ r with amount := v } : Row).hasKey a g e = true := by
        simpa [Row.hasKey] using hr
      simp [hr, this]
    · simp [hr, ih]

theorem amountOf_update_other (t : Table) (v a g e a' g' e' : Nat)
    (h : ¬ (a' = a ∧ g' = g ∧ e' = e)) :
    (t.update v a g e).amountOf a' g' e' = t.amountOf a' g' e' := by
  induction t with
  | nil => rfl
  | cons r t ih =>
    rw [update_cons, amountOf_cons, amountOf_cons]
    by_cases hr : r.hasKey a g e = true
    · have h1 : r.hasKey a' g' e' = false := hasKey_other hr h
      have h2 : ({ r with amount := v } : Row).hasKey a' g' e' = false := by
        simpa [Row.hasKey] using h1
      simp [hr, h1, h2, ih]
    · simp [hr, ih]

theorem selectAmount_eq_of_amountOf {t : Table} {a g e s : Nat}
    (h : t.amountOf a g e = some s) : ∃ rest, t.selectAmount a g e = s :: rest := by
  unfold Table.amountOf at h
  cases hsel : t.selectAmount a g e with
  | nil => simp [hsel] at h
  | cons x rest =>
    simp [hsel] at h
    exact ⟨rest, by rw [h]⟩

theorem selectAmount_nil_of_amountOf {t : Table} {a g e : Nat}
    (h : t.amountOf a g e = none) : t.selectAmount a g e = [] := by
  unfold Table.amountOf at h
  cases hsel : t.selectAmount a g e with
  | nil => rfl
  | cons x rest => simp [hsel] at h

/-! ## Withdraw one unit, withdraw one stack -/

/-- C4: `WithdrawOne` on an item with a catalog definition and stored
quantity `s ≥ 1` grants exactly one unit and leaves `s - 1` stored (no row
when `s = 1`) if the inventory has room for one unit, and grants nothing and
leaves the table as it was if it has not; without a row for the item the
whole state is left as it was. -/
theorem WithdrawOne_spec (env : Env) (player : Player) (entry : Nat) (w : World) :
    (∀ temp s, env.GetItemTemplate entry = some temp → 1 ≤ s →
      w.db.amountOf (GetStorageKeys env player).1 (GetStorageKeys env player).2 entry = some s →
      (env.CanStoreNewItem w.inv entry 1 = true →
        (WithdrawOne env player entry w).log
            = w.log ++ [Event.newItem entry 1, Event.sysMessage (Msg.withdrew 1 temp.Name1)]
          ∧ (WithdrawOne env player entry w).inv = env.StoreNewItem w.inv entry 1
          ∧ (WithdrawOne env player entry w).db.amountOf
                (GetStorageKeys env player).1 (GetStorageKeys env player).2 entry
              = (if s = 1 then none else some (s - 1))
          ∧ ∀ a g e, ¬ (a = (GetStorageKeys env player).1 ∧ g = (GetStorageKeys env player).2
                ∧ e = entry) →
              (WithdrawOne env player entry w).db.amountOf a g e = w.db.amountOf a g e)
      ∧ (env.CanStoreNewItem w.inv entry 1 = false →
        (WithdrawOne env player entry w).db = w.db
          ∧ (WithdrawOne env player entry w).inv = w.inv
          ∧ (WithdrawOne env player entry w).log
              = w.log ++ [Event.sendEquipError entry,
                  Event.sysMessage (Msg.notEnoughSpace 1 temp.Name1)]))
    ∧ (w.db.amountOf (GetStorageKeys env player).1 (GetStorageKeys env player).2 entry = none →
        WithdrawOne env player entry w = w) := by
  refine ⟨?_, ?_⟩
  · intro temp s htemp hs hstored
    obtain ⟨rest, hsel⟩ := selectAmount_eq_of_amountOf hstored
    have hs0 : s ≠ 0 := by omega
    refine ⟨?_, ?_⟩
    · intro hcap
      have hrun : WithdrawOne env player entry w =
          { db := if s = 1 then
                    w.db.delete (GetStorageKeys env player).1 (GetStorageKeys env player).2 entry
                  else w.db.update (s - 1) (GetStorageKeys env player).1
                    (GetStorageKeys env player).2 entry
            inv := env.StoreNewItem w.inv entry 1
            log := w.log ++ [Event.newItem entry 1,
              Event.sysMessage (Msg.withdrew 1 temp.Name1)] } := by
        simp [WithdrawOne, hsel, hs0, htemp, hcap]
      rw [hrun]
      refine ⟨rfl, rfl, ?_, ?_⟩
      · by_cases h1 : s = 1
        · simp [h1, amountOf_delete_self]
        · simp [h1, amountOf_update_self, hstored]
      · intro a g e hne
        by_cases h1 : s = 1
        · simp [h1, amountOf_delete_other _ _ _ _ _ _ _ hne]
        · simp [h1, amountOf_update_other _ _ _ _ _ _ _ _ hne]
    · intro hcap
      simp [WithdrawOne, hsel, hs0, htemp, hcap]
  · intro hnone
    simp [WithdrawOne, selectAmount_nil_of_amountOf hnone]

/-- C5: `WithdrawStack` on an item with a catalog definition, stored quantity
`s ≥ 1` and stack size `S` (any value, so `S ≥ 1` included) checks the capacity for `g = min S s` units;
if the check succeeds it grants `g` units and leaves `s - g` stored (no row
when `g = s`), and if it fails it grants nothing and leaves the table as it
was. -/
theorem WithdrawStack_spec (env : Env) (player : Player) (entry : Nat) (w : World)
    (temp : ItemTemplate) (s : Nat)
    (htemp : env.GetItemTemplate entry = some temp) (hs : 1 ≤ s)
    (hstored : w.db.amountOf (GetStorageKeys env player).1 (GetStorageKeys env player).2 entry
      = some s) :
    (env.CanStoreNewItem w.inv entry (min temp.MaxStackSize s) = true →
      (WithdrawStack env player entry w).log
          = w.log ++ [Event.newItem entry (min temp.MaxStackSize s),
              Event.sysMessage (Msg.withdrew (min temp.MaxStackSize s) temp.Name1)]
        ∧ (WithdrawStack env player entry w).inv
            = env.StoreNewItem w.inv entry (min temp.MaxStackSize s)
        ∧ (WithdrawStack env player entry w).db.amountOf
              (GetStorageKeys env player).1 (GetStorageKeys env player).2 entry
            = (if min temp.MaxStackSize s = s then none else some (s - min temp.MaxStackSize s))
        ∧ ∀ a g e, ¬ (a = (GetStorageKeys env player).1 ∧ g = (GetStorageKeys env player).2
              ∧ e = entry) →
            (WithdrawStack env player entry w).db.amountOf a g e = w.db.amountOf a g e)
    ∧ (env.CanStoreNewItem w.inv entry (min temp.MaxStackSize s) = false →
      (WithdrawStack env player entry w).db = w.db
        ∧ (WithdrawStack env player entry w).inv = w.inv
        ∧ (WithdrawStack env player entry w).log
            = w.log ++ [Event.sendEquipError entry,
                Event.sysMessage (Msg.notEnoughSpace (min temp.MaxStackSize s) temp.Name1)]) := by
  obtain ⟨rest, hsel⟩ := selectAmount_eq_of_amountOf hstored
  have hs0 : s ≠ 0 := by omega
  refine ⟨?_, ?_⟩
  · intro hcap
    have hrun : WithdrawStack env player entry w =
        { db := if min temp.MaxStackSize s = s then
                  w.db.delete (GetStorageKeys env player).1 (GetStorageKeys env player).2 entry
                else w.db.update (s - min temp.MaxStackSize s) (GetStorageKeys env player).1
                  (GetStorageKeys env player).2 entry
          inv := env.StoreNewItem w.inv entry (min temp.MaxStackSize s)
          log := w.log ++ [Event.newItem entry (min temp.MaxStackSize s),
            Event.sysMessage (Msg.withdrew (min temp.MaxStackSize s) temp.Name1)] } := by
      simp [WithdrawStack, hsel, hs0, htemp, hcap]
    rw [hrun]
    refine ⟨rfl, rfl, ?_, ?_⟩
    · by_cases h1 : min temp.MaxStackSize s = s
      · simp [h1, amountOf_delete_self]
      · simp [h1, amountOf_update_self, hstored]
    · intro a g e hne
      by_cases h1 : min temp.MaxStackSize s = s
      · simp [h1, amountOf_delete_other _ _ _ _ _ _ _ hne]
      · simp [h1, amountOf_update_other _ _ _ _ _ _ _ _ hne]
  · intro hcap
    simp [WithdrawStack, hsel, hs0, htemp, hcap]

/-- `WithdrawOne` on the example configuration: the last stored unit is
granted and its row deleted; with a full pack the table is left alone. -/
theorem WithdrawOne_spec_witness :
    (WithdrawOne exampleEnv examplePlayer 2589
        { db := [clothRow 1], inv := emptyInventory, log := [] }).log
        = [Event.newItem 2589 1, Event.sysMessage (Msg.withdrew 1 "Linen Cloth")]
      ∧ (WithdrawOne exampleEnv examplePlayer 2589
          { db := [clothRow 1], inv := emptyInventory, log := [] }).db.amountOf 0 7 2589 = none
      ∧ (WithdrawOne exampleEnv examplePlayer 2589
          { db := [clothRow 1], inv := packWithFree 0, log := [] }).db = [clothRow 1] := by
  have h := WithdrawOne_spec exampleEnv examplePlayer 2589
    { db := [clothRow 1], inv := emptyInventory, log := [] }
  have h' := WithdrawOne_spec exampleEnv examplePlayer 2589
    { db := [clothRow 1], inv := packWithFree 0, log := [] }
  have h1 := (h.1 linenCloth 1 rfl (by decide) (by decide)).1 (by decide)
  have h2 := (h'.1 linenCloth 1 rfl (by decide) (by decide)).2 (by decide)
  exact ⟨h1.1, h1.2.2.1, h2.1⟩

/-- `WithdrawStack` on the example configuration: 20 of 45 stored units are
granted and 25 stay. -/
theorem WithdrawStack_spec_witness :
    (WithdrawStack exampleEnv examplePlayer 2589
        { db := [clothRow 45], inv := emptyInventory, log := [] }).log
        = [Event.newItem 2589 20, Event.sysMessage (Msg.withdrew 20 "Linen Cloth")]
      ∧ (WithdrawStack exampleEnv examplePlayer 2589
          { db := [clothRow 45], inv := emptyInventory, log := [] }).db.amountOf 0 7 2589
          = some 25 := by
  have h := (WithdrawStack_spec exampleEnv examplePlayer 2589
    { db := [clothRow 45], inv := emptyInventory, log := [] } linenCloth 45 rfl (by decide)
    (by decide)).1 (by decide)
  exact ⟨h.1, h.2.2.1⟩

/-! ## The grant loop of `WithdrawAllOfItem` -/

theorem u32_of_lt {n : Nat} (h : n < 4294967296) : u32 n = n := Nat.mod_eq_of_lt h

theorem grantedUnits_append (l1 l2 : List Event) (e : Nat) :
    grantedUnits (l1 ++ l2) e = grantedUnits l1 e + grantedUnits l2 e := by
  induction l1 with
  | nil => simp [grantedUnits]
  | cons ev l1 ih =>
    cases ev <;> simp [grantedUnits, ih]
    omega

theorem grantedUnits_newItems (entry : Nat) (cs : List Nat) :
    grantedUnits (cs.map (Event.newItem entry)) entry = cs.sum := by
  induction cs with
  | nil => rfl
  | cons c cs ih => simp [grantedUnits, ih]

theorem grantedUnits_newItems_other (entry e : Nat) (cs : List Nat) (h : entry ≠ e) :
    grantedUnits (cs.map (Event.newItem entry)) e = 0 := by
  induction cs with
  | nil => rfl
  | cons c cs ih => simp [grantedUnits, ih, h]

theorem invAfter_cons (env : Env) (entry : Nat) (inv : Inventory) (c : Nat) (cs : List Nat) :
    invAfter env entry inv (c :: cs) = invAfter env entry (env.StoreNewItem inv entry c) cs :=
  rfl

/-- The loop grants `k` full stacks when more than `k * S` units remain and
the `k` capacity checks succeed; it goes on from the state reached. -/
theorem grantLoop_full_stacks (env : Env) (entry S : Nat) (name : String) (k : Nat) :
    ∀ (fuel : Nat) (s : GrantState), k * S < s.remaining →
      s.givenTotal + k * S < 4294967296 →
      acceptsAll env entry s.inv (List.replicate k S) = true →
      grantLoop env entry S name (k + fuel) s
        = grantLoop env entry S name fuel
            { inv := invAfter env entry s.inv (List.replicate k S)
              log := s.log ++ (List.replicate k S).map (Event.newItem entry)
              givenTotal := s.givenTotal + k * S
              remaining := s.remaining - k * S } := by
  induction k with
  | zero =>
    intro fuel s _ _ _
    simp [invAfter]
  | succ k ih =>
    intro fuel s hrem hfit hok
    have hmul : (k + 1) * S = k * S + S := Nat.succ_mul k S
    have hpos : s.remaining > 0 := by omega
    have hmin : min S s.remaining = S := by
      apply Nat.min_eq_left
      omega
    simp only [List.replicate_succ, acceptsAll, Bool.and_eq_true] at hok
    have hstep : k + 1 + fuel = (k + fuel) + 1 := by omega
    rw [hstep, grantLoop]
    simp only [hpos, if_true, hmin, hok.1]
    rw [ih fuel _ (by simp only; omega) (by simp only; rw [u32_of_lt (by omega)]; omega)
      (by simpa using hok.2)]
    simp only [List.replicate_succ, invAfter_cons, List.map_cons, List.append_assoc,
      List.singleton_append, Bool.true_eq_false, if_false]
    rw [u32_of_lt (by omega)]
    have e1 : s.givenTotal + S + k * S = s.givenTotal + (k + 1) * S := by omega
    have e2 : s.remaining - S - k * S = s.remaining - (k + 1) * S := by omega
    rw [e1, e2]

theorem grantLoop_done (env : Env) (entry S : Nat) (name : String) (fuel : Nat)
    (s : GrantState) (h : s.remaining = 0) : grantLoop env entry S name fuel s = some s := by
  cases fuel <;> simp [grantLoop, h]

theorem acceptsAll_append (env : Env) (entry : Nat) (l1 l2 : List Nat) :
    ∀ inv : Inventory, acceptsAll env entry inv (l1 ++ l2)
      = (acceptsAll env entry inv l1 && acceptsAll env entry (invAfter env entry inv l1) l2) := by
  induction l1 with
  | nil => intro inv; simp [acceptsAll, invAfter]
  | cons c l1 ih => intro inv; simp [acceptsAll, invAfter_cons, ih, Bool.and_assoc]

theorem invAfter_append (env : Env) (entry : Nat) (inv : Inventory) (l1 l2 : List Nat) :
    invAfter env entry inv (l1 ++ l2) = invAfter env entry (invAfter env entry inv l1) l2 := by
  simp [invAfter, List.foldl_append]

/-- The number of full stacks before the last one, and the size of the last
one, in a withdrawal of `Q ≥ 1` units with stack size `S ≥ 1`. -/
theorem specStacks_arith (Q S : Nat) (hQ : 1 ≤ Q) (hS : 1 ≤ S) :
    ((Q + S - 1) / S - 1) * S + (if Q % S = 0 then S else Q % S) = Q
      ∧ 1 ≤ (Q + S - 1) / S
      ∧ 1 ≤ (if Q % S = 0 then S else Q % S)
      ∧ (if Q % S = 0 then S else Q % S) ≤ S := by
  have hdm : S * (Q / S) + Q % S = Q := Nat.div_add_mod Q S
  have hlt : Q % S < S := Nat.mod_lt Q (by omega)
  generalize Q / S = q at hdm ⊢
  generalize Q % S = r at hdm hlt ⊢
  by_cases hr : r = 0
  · subst hr
    have hq : 1 ≤ q := by
      rcases Nat.eq_zero_or_pos q with h0 | h0
      · subst h0; omega
      · exact h0
    have hceil : (Q + S - 1) / S = q := by
      have h1 : Q + S - 1 = S * q + (S - 1) := by omega
      have h2 : (S - 1) / S = 0 := Nat.div_eq_of_lt (by omega)
      rw [h1, Nat.mul_add_div (by omega), h2, Nat.add_zero]
    rw [hceil]
    simp only [if_true]
    refine ⟨?_, hq, hS, le_refl S⟩
    obtain ⟨q', rfl⟩ : ∃ q', q = q' + 1 := ⟨q - 1, by omega⟩
    rw [Nat.add_sub_cancel]
    rw [Nat.mul_add, Nat.mul_one, Nat.mul_comm] at hdm
    omega
  · have hceil : (Q + S - 1) / S = q + 1 := by
      have h1 : Q + S - 1 = S * (q + 1) + (r - 1) := by
        rw [Nat.mul_add, Nat.mul_one]
        omega
      have h2 : (r - 1) / S = 0 := Nat.div_eq_of_lt (by omega)
      rw [h1, Nat.mul_add_div (by omega), h2, Nat.add_zero]
    rw [hceil]
    simp only [hr, if_false]
    refine ⟨?_, by omega, by omega, by omega⟩
    rw [Nat.add_sub_cancel, Nat.mul_comm]
    exact hdm

theorem specStacks_sum (Q S : Nat) (hQ : 1 ≤ Q) (hS : 1 ≤ S) : (specStacks Q S).sum = Q := by
  have h := (specStacks_arith Q S hQ hS).1
  simp only [specStacks, List.sum_append, List.sum_replicate, smul_eq_mul, List.sum_cons,
    List.sum_nil, Nat.add_zero]
  exact h

theorem specStacks_length (Q S : Nat) (hQ : 1 ≤ Q) (hS : 1 ≤ S) :
    (specStacks Q S).length = (Q + S - 1) / S := by
  have h := (specStacks_arith Q S hQ hS).2.1
  simp only [specStacks, List.length_append, List.length_replicate, List.length_cons,
    List.length_nil]
  omega

/-- The loop stops at the first failed capacity check, after `k` full
stacks. -/
theorem grantLoop_stops_at_failure (env : Env) (entry S : Nat) (name : String) (k fuel : Nat)
    (s : GrantState) (hrem : k * S < s.remaining) (hfit : s.givenTotal + k * S < 4294967296)
    (hok : acceptsAll env entry s.inv (List.replicate k S) = true)
    (hfail : env.CanStoreNewItem (invAfter env entry s.inv (List.replicate k S)) entry
      (min S (s.remaining - k * S)) = false) :
    grantLoop env entry S name (k + (fuel + 1)) s
      = some
          { inv := invAfter env entry s.inv (List.replicate k S)
            log := s.log ++ (List.replicate k S).map (Event.newItem entry)
              ++ [Event.sendEquipError entry,
                  Event.sysMessage (Msg.bagFull (s.givenTotal + k * S) name
                    (s.remaining - k * S))]
            givenTotal := s.givenTotal + k * S
            remaining := s.remaining - k * S } := by
  rw [grantLoop_full_stacks env entry S name k (fuel + 1) s hrem hfit hok, grantLoop]
  have hpos : s.remaining - k * S > 0 := by omega
  simp only [hpos, if_true, hfail]

/-- The loop grants the promised stacks and stops with nothing remaining when
every capacity check succeeds. -/
theorem grantLoop_complete (env : Env) (entry S : Nat) (name : String) (fuel : Nat)
    (s : GrantState) (hS : 1 ≤ S) (hrem : 1 ≤ s.remaining)
    (hfit : s.givenTotal + s.remaining < 4294967296)
    (hok : acceptsAll env entry s.inv (specStacks s.remaining S) = true) :
    grantLoop env entry S name (((s.remaining + S - 1) / S - 1) + (fuel + 1)) s
      = some
          { inv := invAfter env entry s.inv (specStacks s.remaining S)
            log := s.log ++ (specStacks s.remaining S).map (Event.newItem entry)
            givenTotal := s.givenTotal + s.remaining
            remaining := 0 } := by
  obtain ⟨hsum, _, hlast1, hlastS⟩ := specStacks_arith s.remaining S hrem hS
  unfold specStacks at hok ⊢
  generalize (s.remaining + S - 1) / S - 1 = n at hsum hok ⊢
  generalize (if s.remaining % S = 0 then S else s.remaining % S) = last at hsum hok hlast1 hlastS ⊢
  rw [acceptsAll_append, Bool.and_eq_true] at hok
  rw [grantLoop_full_stacks env entry S name n (fuel + 1) s (by omega) (by omega) hok.1,
    grantLoop]
  have hpos : s.remaining - n * S > 0 := by omega
  have hmin : min S (s.remaining - n * S) = last := by
    rw [Nat.min_eq_right (by omega)]
    omega
  have hcheck := hok.2
  simp only [acceptsAll, Bool.and_true] at hcheck
  simp only [hpos, if_true, hmin, hcheck, Bool.true_eq_false, if_false]
  rw [grantLoop_done _ _ _ _ _ _ (by simp only; omega)]
  rw [u32_of_lt (by omega)]
  have hinv : invAfter env entry (invAfter env entry s.inv (List.replicate n S)) [last]
      = env.StoreNewItem (invAfter env entry s.inv (List.replicate n S)) entry last := rfl
  simp only [invAfter_append, List.map_append, List.map_cons, List.map_nil, List.append_assoc,
    Option.some.injEq, GrantState.mk.injEq, hinv, true_and]
  omega

/-! ## Withdraw all of one item -/

/-- The result of `WithdrawAllOfItem` when every capacity check succeeds. -/
theorem WithdrawAllOfItem_complete_run (env : Env) (player : Player) (entry : Nat) (w : World)
    (temp : ItemTemplate) (Q : Nat)
    (htemp : env.GetItemTemplate entry = some temp)
    (hQ : 1 ≤ Q) (hQ32 : Q < 4294967296) (hS : 1 ≤ temp.MaxStackSize)
    (hstored : w.db.amountOf (GetStorageKeys env player).1 (GetStorageKeys env player).2 entry
      = some Q)
    (hok : acceptsAll env entry w.inv (specStacks Q temp.MaxStackSize) = true) :
    WithdrawAllOfItem env player entry w = some
      { db := w.db.delete (GetStorageKeys env player).1 (GetStorageKeys env player).2 entry
        inv := invAfter env entry w.inv (specStacks Q temp.MaxStackSize)
        log := w.log ++ (specStacks Q temp.MaxStackSize).map (Event.newItem entry)
          ++ [Event.sysMessage (Msg.withdrew Q temp.Name1)] } := by
  obtain ⟨rest, hsel⟩ := selectAmount_eq_of_amountOf hstored
  have hQ0 : Q ≠ 0 := by omega
  obtain ⟨hsum, hceil, hlast1, hlastS⟩ := specStacks_arith Q temp.MaxStackSize hQ hS
  have hn : (Q + temp.MaxStackSize - 1) / temp.MaxStackSize - 1 < Q := by
    have h1 : (Q + temp.MaxStackSize - 1) / temp.MaxStackSize - 1
        ≤ ((Q + temp.MaxStackSize - 1) / temp.MaxStackSize - 1) * temp.MaxStackSize :=
      Nat.le_mul_of_pos_right _ hS
    omega
  have hfuel : Q = ((Q + temp.MaxStackSize - 1) / temp.MaxStackSize - 1)
      + ((Q - ((Q + temp.MaxStackSize - 1) / temp.MaxStackSize - 1) - 1) + 1) := by omega
  have hloop := grantLoop_complete env entry temp.MaxStackSize temp.Name1
    (Q - ((Q + temp.MaxStackSize - 1) / temp.MaxStackSize - 1) - 1)
    { inv := w.inv, log := w.log, givenTotal := 0, remaining := Q } hS hQ
    (by simp only; omega) hok
  simp only [Nat.zero_add] at hloop
  rw [← hfuel] at hloop
  simp only [WithdrawAllOfItem, hsel, hQ0, if_false, htemp, hloop, if_true,
    Nat.pos_of_ne_zero hQ0, gt_iff_lt]

/-- C2: `WithdrawAllOfItem` on a stored quantity `Q ≥ 1` of an item of stack
size `S ≥ 1`, every capacity check succeeding, returns; it grants the
`ceil(Q/S)` stacks of `specStacks Q S` (all of size `S` but the last, which is
`Q mod S`, or `S` when `S` divides `Q`), `Q` units in total, reports `Q`
withdrawn, and leaves no row for the item, the other rows being kept. -/
theorem WithdrawAllOfItem_unlimited (env : Env) (player : Player) (entry : Nat) (w : World)
    (temp : ItemTemplate) (Q : Nat)
    (htemp : env.GetItemTemplate entry = some temp)
    (hQ : 1 ≤ Q) (hQ32 : Q < 4294967296) (hS : 1 ≤ temp.MaxStackSize)
    (hstored : w.db.amountOf (GetStorageKeys env player).1 (GetStorageKeys env player).2 entry
      = some Q)
    (hok : acceptsAll env entry w.inv (specStacks Q temp.MaxStackSize) = true) :
    ∃ w', WithdrawAllOfItem env player entry w = some w'
      ∧ w'.log = w.log ++ (specStacks Q temp.MaxStackSize).map (Event.newItem entry)
          ++ [Event.sysMessage (Msg.withdrew Q temp.Name1)]
      ∧ (specStacks Q temp.MaxStackSize).length = (Q + temp.MaxStackSize - 1) / temp.MaxStackSize
      ∧ (specStacks Q temp.MaxStackSize).sum = Q
      ∧ grantedUnits w'.log entry = grantedUnits w.log entry + Q
      ∧ w'.inv = invAfter env entry w.inv (specStacks Q temp.MaxStackSize)
      ∧ w'.db.amountOf (GetStorageKeys env player).1 (GetStorageKeys env player).2 entry = none
      ∧ ∀ a g e, ¬ (a = (GetStorageKeys env player).1 ∧ g = (GetStorageKeys env player).2
            ∧ e = entry) → w'.db.amountOf a g e = w.db.amountOf a g e := by
  refine ⟨_, WithdrawAllOfItem_complete_run env player entry w temp Q htemp hQ hQ32 hS hstored
    hok, ?_⟩
  refine ⟨rfl, specStacks_length Q _ hQ hS, specStacks_sum Q _ hQ hS, ?_, rfl,
    amountOf_delete_self _ _ _ _, fun a g e hne => amountOf_delete_other _ _ _ _ _ _ _ hne⟩
  rw [grantedUnits_append, grantedUnits_append, grantedUnits_newItems,
    specStacks_sum Q _ hQ hS]
  simp [grantedUnits]

/-- C3: `WithdrawAllOfItem` on a stored quantity `Q` of an item of stack size
`S ≥ 1`, the capacity check succeeding for the first `k` stacks
(`k * S < Q`) and failing for the next, returns; it grants `k` stacks of `S`,
so `k * S` units, reports "bag full" with `k * S` given and `Q - k * S`
remaining, and writes `Q - k * S` as the stored quantity, the row being
kept. -/
theorem WithdrawAllOfItem_limited (env : Env) (player : Player) (entry : Nat) (w : World)
    (temp : ItemTemplate) (Q k : Nat)
    (htemp : env.GetItemTemplate entry = some temp)
    (hS : 1 ≤ temp.MaxStackSize) (hk : k * temp.MaxStackSize < Q) (hQ32 : Q < 4294967296)
    (hstored : w.db.amountOf (GetStorageKeys env player).1 (GetStorageKeys env player).2 entry
      = some Q)
    (hok : acceptsAll env entry w.inv (List.replicate k temp.MaxStackSize) = true)
    (hfail : env.CanStoreNewItem
      (invAfter env entry w.inv (List.replicate k temp.MaxStackSize)) entry
      (min temp.MaxStackSize (Q - k * temp.MaxStackSize)) = false) :
    ∃ w', WithdrawAllOfItem env player entry w = some w'
      ∧ w'.log = w.log ++ (List.replicate k temp.MaxStackSize).map (Event.newItem entry)
          ++ [Event.sendEquipError entry,
              Event.sysMessage (Msg.bagFull (k * temp.MaxStackSize) temp.Name1
                (Q - k * temp.MaxStackSize))]
          ++ (if k * temp.MaxStackSize > 0 then
                [Event.sysMessage (Msg.withdrew (k * temp.MaxStackSize) temp.Name1)]
              else [])
      ∧ grantedUnits w'.log entry = grantedUnits w.log entry + k * temp.MaxStackSize
      ∧ w'.inv = invAfter env entry w.inv (List.replicate k temp.MaxStackSize)
      ∧ w'.db.amountOf (GetStorageKeys env player).1 (GetStorageKeys env player).2 entry
          = some (Q - k * temp.MaxStackSize)
      ∧ ∀ a g e, ¬ (a = (GetStorageKeys env player).1 ∧ g = (GetStorageKeys env player).2
            ∧ e = entry) → w'.db.amountOf a g e = w.db.amountOf a g e := by
  obtain ⟨rest, hsel⟩ := selectAmount_eq_of_amountOf hstored
  have hQ0 : Q ≠ 0 := by omega
  have hkQ : k < Q := by
    have h1 : k ≤ k * temp.MaxStackSize := Nat.le_mul_of_pos_right _ hS
    omega
  have hfuel : Q = k + ((Q - k - 1) + 1) := by omega
  have hloop := grantLoop_stops_at_failure env entry temp.MaxStackSize temp.Name1 k (Q - k - 1)
    { inv := w.inv, log := w.log, givenTotal := 0, remaining := Q } hk
    (by simp only; omega) hok hfail
  simp only [Nat.zero_add] at hloop
  rw [← hfuel] at hloop
  have hne0 : Q - k * temp.MaxStackSize ≠ 0 := by omega
  have hrun : WithdrawAllOfItem env player entry w = some
      { db := w.db.update (Q - k * temp.MaxStackSize) (GetStorageKeys env player).1
          (GetStorageKeys env player).2 entry
        inv := invAfter env entry w.inv (List.replicate k temp.MaxStackSize)
        log := if k * temp.MaxStackSize > 0 then
            w.log ++ (List.replicate k temp.MaxStackSize).map (Event.newItem entry)
              ++ [Event.sendEquipError entry,
                  Event.sysMessage (Msg.bagFull (k * temp.MaxStackSize) temp.Name1
                    (Q - k * temp.MaxStackSize))]
              ++ [Event.sysMessage (Msg.withdrew (k * temp.MaxStackSize) temp.Name1)]
          else
            w.log ++ (List.replicate k temp.MaxStackSize).map (Event.newItem entry)
              ++ [Event.sendEquipError entry,
                  Event.sysMessage (Msg.bagFull (k * temp.MaxStackSize) temp.Name1
                    (Q - k * temp.MaxStackSize))] } := by
    simp only [WithdrawAllOfItem, hsel, hQ0, if_false, htemp, hloop, hne0]
  refine ⟨_, hrun, ?_⟩
  simp only
  refine ⟨?_, ?_, trivial, ?_, fun a g e hne => amountOf_update_other _ _ _ _ _ _ _ _ hne⟩
  · by_cases h0 : k * temp.MaxStackSize > 0
    · simp [h0]
    · simp [h0]
  · have hg : grantedUnits (w.log ++ (List.replicate k temp.MaxStackSize).map
          (Event.newItem entry) ++ [Event.sendEquipError entry,
            Event.sysMessage (Msg.bagFull (k * temp.MaxStackSize) temp.Name1
              (Q - k * temp.MaxStackSize))]) entry
        = grantedUnits w.log entry + k * temp.MaxStackSize := by
      rw [grantedUnits_append, grantedUnits_append, grantedUnits_newItems]
      simp [grantedUnits]
    by_cases h0 : k * temp.MaxStackSize > 0
    · simp only [h0, if_true]
      rw [grantedUnits_append, hg]
      simp [grantedUnits]
    · simp only [h0, if_false]
      exact hg
  · rw [amountOf_update_self, hstored]
    rfl

/-- `WithdrawAllOfItem` on the example configuration with an empty pack: 45
stored units leave as stacks of 20, 20 and 5. -/
theorem WithdrawAllOfItem_unlimited_witness :
    ∃ w', WithdrawAllOfItem exampleEnv examplePlayer 2589
        { db := [clothRow 45], inv := emptyInventory, log := [] } = some w'
      ∧ w'.log = [Event.newItem 2589 20, Event.newItem 2589 20, Event.newItem 2589 5,
          Event.sysMessage (Msg.withdrew 45 "Linen Cloth")]
      ∧ grantedUnits w'.log 2589 = 45
      ∧ w'.db.amountOf 0 7 2589 = none := by
  obtain ⟨w', h1, h2, _, _, h5, _, h7, _⟩ :=
    WithdrawAllOfItem_unlimited exampleEnv examplePlayer 2589
      { db := [clothRow 45], inv := emptyInventory, log := [] } linenCloth 45 rfl
      (by decide) (by decide) (by decide) (by decide) (by decide)
  exact ⟨w', h1, h2, h5, h7⟩

/-- `WithdrawAllOfItem` on the example configuration with two free slots: two
stacks of 20 are granted and 5 units stay stored. -/
theorem WithdrawAllOfItem_limited_witness :
    ∃ w', WithdrawAllOfItem exampleEnv examplePlayer 2589
        { db := [clothRow 45], inv := packWithFree 2, log := [] } = some w'
      ∧ w'.log = [Event.newItem 2589 20, Event.newItem 2589 20, Event.sendEquipError 2589,
          Event.sysMessage (Msg.bagFull 40 "Linen Cloth" 5),
          Event.sysMessage (Msg.withdrew 40 "Linen Cloth")]
      ∧ grantedUnits w'.log 2589 = 40
      ∧ w'.db.amountOf 0 7 2589 = some 5 := by
  obtain ⟨w', h1, h2, h3, _, h5, _⟩ :=
    WithdrawAllOfItem_limited exampleEnv examplePlayer 2589
      { db := [clothRow 45], inv := packWithFree 2, log := [] } linenCloth 45 2 rfl
      (by decide) (by decide) (by decide) (by decide) (by decide) (by decide)
  exact ⟨w', h1, h2, h3, h5⟩

/-! ## Facts about `std::map` -/

theorem find_set_self (m : StdMap) (k v : Nat) : (m.set k v).find k = some v := by
  induction m with
  | nil => simp [StdMap.set, StdMap.find]
  | cons p m ih =>
    obtain ⟨k', v'⟩ := p
    simp only [StdMap.set]
    by_cases h1 : k < k'
    · simp [h1, StdMap.find]
    · by_cases h2 : k = k'
      · simp [h2, StdMap.find]
      · have h3 : ¬ k' = k := fun h => h2 h.symm
        simp [h1, h2, h3, StdMap.find, ih]

theorem find_set_other (m : StdMap) (k v k2 : Nat) (h : k2 ≠ k) :
    (m.set k v).find k2 = m.find k2 := by
  induction m with
  | nil =>
    have h' : ¬ k = k2 := fun e => h e.symm
    simp [StdMap.set, StdMap.find, h']
  | cons p m ih =>
    obtain ⟨k', v'⟩ := p
    have h' : ¬ k = k2 := fun e => h e.symm
    simp only [StdMap.set]
    by_cases h1 : k < k'
    · simp [h1, StdMap.find, h']
    · by_cases h2 : k = k'
      · subst h2
        simp [StdMap.find, h']
      · simp only [h1, h2, if_false, StdMap.find, ih]

theorem find_eq_none_of_lt (m : StdMap) (k : Nat) (h : ∀ p ∈ m, k < p.1) : m.find k = none := by
  induction m with
  | nil => rfl
  | cons p m ih =>
    obtain ⟨k', v'⟩ := p
    have h1 : k < k' := h (k', v') (List.mem_cons_self _ _)
    have h2 : ¬ k' = k := by omega
    simp only [StdMap.find, h2, if_false]
    exact ih (fun q hq => h q (List.mem_cons_of_mem _ hq))

theorem find_of_mem (m : StdMap) (hm : m.Sorted) (k v : Nat) (h : (k, v) ∈ m) :
    m.find k = some v := by
  induction m with
  | nil => simp at h
  | cons p m ih =>
    obtain ⟨k', v'⟩ := p
    unfold StdMap.Sorted at hm
    rw [List.pairwise_cons] at hm
    rcases List.mem_cons.mp h with h1 | h1
    · injection h1 with hk hv
      subst hk hv
      simp [StdMap.find]
    · have hlt : k' < k := hm.1 (k, v) h1
      have hne : ¬ k' = k := by omega
      simp only [StdMap.find, hne, if_false]
      exact ih hm.2 h1

theorem mem_set (m : StdMap) (k v : Nat) (q : Nat × Nat) (h : q ∈ m.set k v) :
    q = (k, v) ∨ q ∈ m := by
  induction m with
  | nil => simpa [StdMap.set] using h
  | cons p m ih =>
    obtain ⟨k', v'⟩ := p
    simp only [StdMap.set] at h
    by_cases h1 : k < k'
    · simp only [h1, if_true, List.mem_cons] at h
      rcases h with h | h | h
      · exact Or.inl h
      · exact Or.inr (by rw [h]; exact List.mem_cons_self _ _)
      · exact Or.inr (List.mem_cons_of_mem _ h)
    · by_cases h2 : k = k'
      · subst h2
        rw [if_neg h1, if_pos rfl, List.mem_cons] at h
        rcases h with h | h
        · exact Or.inl h
        · exact Or.inr (List.mem_cons_of_mem _ h)
      · rw [if_neg h1, if_neg h2, List.mem_cons] at h
        rcases h with h | h
        · exact Or.inr (by rw [h]; exact List.mem_cons_self _ _)
        · rcases ih h with h | h
          · exact Or.inl h
          · exact Or.inr (List.mem_cons_of_mem _ h)

theorem set_sorted (m : StdMap) (hm : m.Sorted) (k v : Nat) : (m.set k v).Sorted := by
  induction m with
  | nil => simp [StdMap.set, StdMap.Sorted]
  | cons p m ih =>
    obtain ⟨k', v'⟩ := p
    unfold StdMap.Sorted at hm ih ⊢
    have hm' := List.pairwise_cons.mp hm
    simp only [StdMap.set]
    by_cases h1 : k < k'
    · simp only [h1, if_true]
      refine List.pairwise_cons.mpr ⟨?_, hm⟩
      intro q hq
      rcases List.mem_cons.mp hq with h | h
      · rw [h]; exact h1
      · have := hm'.1 q h
        simp only at this ⊢
        omega
    · by_cases h2 : k = k'
      · subst h2
        simp only [h1, if_true, if_false]
        exact List.pairwise_cons.mpr ⟨hm'.1, hm'.2⟩
      · simp only [h1, h2, if_false]
        refine List.pairwise_cons.mpr ⟨?_, ih hm'.2⟩
        intro q hq
        rcases mem_set m k v q hq with h | h
        · rw [h]
          simp only
          omega
        · exact hm'.1 q h

/-! ## Rows of the table after `DELETE` and `REPLACE INTO` -/

theorem amountOf_eq_rowOf (t : Table) (a g e : Nat) :
    t.amountOf a g e = (t.rowOf a g e).map (fun r => r.amount) := by
  unfold Table.amountOf Table.selectAmount Table.rowOf
  rw [List.head?_map, List.filter_head?]

theorem subclassOf_eq_rowOf (t : Table) (a g e : Nat) :
    t.subclassOf a g e = (t.rowOf a g e).map (fun r => r.item_subclass) := by
  unfold Table.subclassOf Table.rowOf
  rw [List.head?_map, List.filter_head?]

theorem rowOf_cons (r : Row) (t : Table) (a g e : Nat) :
    Table.rowOf (r :: t) a g e = if r.hasKey a g e = true then some r else Table.rowOf t a g e := by
  unfold Table.rowOf
  by_cases hr : r.hasKey a g e = true
  · simp [List.find?_cons, hr]
  · simp only [Bool.not_eq_true] at hr
    simp [List.find?_cons, hr]

theorem rowOf_append (t1 t2 : Table) (a g e : Nat) :
    Table.rowOf (t1 ++ t2) a g e = (Table.rowOf t1 a g e).or (Table.rowOf t2 a g e) := by
  unfold Table.rowOf
  exact List.find?_append

theorem rowOf_delete_self (t : Table) (a g e : Nat) : (t.delete a g e).rowOf a g e = none := by
  induction t with
  | nil => rfl
  | cons r t ih =>
    rw [delete_cons]
    by_cases hr : r.hasKey a g e = true
    · simpa [hr] using ih
    · simp [hr, rowOf_cons, ih]

theorem rowOf_delete_other (t : Table) (a g e a' g' e' : Nat)
    (h : ¬ (a' = a ∧ g' = g ∧ e' = e)) :
    (t.delete a g e).rowOf a' g' e' = t.rowOf a' g' e' := by
  induction t with
  | nil => rfl
  | cons r t ih =>
    rw [delete_cons]
    by_cases hr : r.hasKey a g e = true
    · simp [hr, rowOf_cons, ih, hasKey_other hr h]
    · simp [hr, rowOf_cons, ih]

theorem rowOf_replaceInto_self (t : Table) (a g e c v : Nat) :
    (t.replaceInto a g e c v).rowOf a g e
      = some { account_id := a, guid := g, item_entry := e, item_subclass := c, amount := v } := by
  unfold Table.replaceInto
  rw [rowOf_append, rowOf_delete_self, Option.none_or, rowOf_cons]
  simp [Row.hasKey]

theorem rowOf_replaceInto_other (t : Table) (a g e c v a' g' e' : Nat)
    (h : ¬ (a' = a ∧ g' = g ∧ e' = e)) :
    (t.replaceInto a g e c v).rowOf a' g' e' = t.rowOf a' g' e' := by
  unfold Table.replaceInto
  rw [rowOf_append, rowOf_delete_other _ _ _ _ _ _ _ h, rowOf_cons]
  have hk : Row.hasKey
      { account_id := a, guid := g, item_entry := e, item_subclass := c, amount := v }
      a' g' e' = false := by
    rw [← Bool.not_eq_true, hasKey_iff]
    rintro ⟨h1, h2, h3⟩
    exact h ⟨h1.symm, h2.symm, h3.symm⟩
  simp only [hk, Bool.false_eq_true, if_false]
  cases Table.rowOf t a' g' e' <;> rfl

theorem rowOf_none_of_unique (r : Row) (t : Table) (a g e : Nat)
    (hu : Table.UniqueKeys (r :: t)) (hr : r.hasKey a g e = true) : Table.rowOf t a g e = none := by
  unfold Table.rowOf
  rw [List.find?_eq_none]
  intro r' hr' hk
  rw [hasKey_iff] at hr hk
  unfold Table.UniqueKeys at hu
  have := (List.pairwise_cons.mp hu).1 r' hr'
  exact this ⟨by omega, by omega, by omega⟩

/-! ## Loading the stored rows into the maps -/

theorem selectOwner_cons (r : Row) (t : Table) (a g : Nat) :
    Table.selectOwner (r :: t) a g
      = if r.hasOwner a g = true then
          (r.item_entry, r.item_subclass, r.amount) :: Table.selectOwner t a g
        else Table.selectOwner t a g := by
  unfold Table.selectOwner
  by_cases hr : r.hasOwner a g = true
  · simp [List.filter_cons, hr]
  · simp only [Bool.not_eq_true] at hr
    simp [List.filter_cons, hr]

theorem hasKey_eq (r : Row) (a g e : Nat) :
    r.hasKey a g e = (r.hasOwner a g && decide (r.item_entry = e)) := by
  unfold Row.hasKey Row.hasOwner
  by_cases h : r.item_entry = e <;> simp [h]

/-- The map filled from the stored rows of the owner by a projection `val`
of the row holds, for every item, the projection of its row. -/
theorem load_find (val : Row → Nat) (a g e : Nat) :
    ∀ (t : Table) (m : StdMap), t.UniqueKeys →
      (((t.filter (fun r => r.hasOwner a g)).map (fun r => (r.item_entry, val r))).foldl
          (fun m p => m.set p.1 p.2) m).find e
        = ((t.rowOf a g e).map val).or (m.find e) := by
  intro t
  induction t with
  | nil => intro m _; rfl
  | cons r t ih =>
    intro m hu
    have hu' : Table.UniqueKeys t := (List.pairwise_cons.mp hu).2
    rw [rowOf_cons]
    by_cases ho : r.hasOwner a g = true
    · simp only [List.filter_cons, ho, if_true, List.map_cons, List.foldl_cons]
      rw [ih _ hu']
      by_cases he : r.item_entry = e
      · have hk : r.hasKey a g e = true := by rw [hasKey_eq]; simp [ho, he]
        rw [rowOf_none_of_unique r t a g e hu hk]
        simp [hk, he, find_set_self]
      · have hk : r.hasKey a g e = false := by rw [hasKey_eq]; simp [he]
        have he' : e ≠ r.item_entry := fun h => he h.symm
        simp only [hk, Bool.false_eq_true, if_false, find_set_other _ _ _ _ he']
    · have hk : r.hasKey a g e = false := by
        rw [hasKey_eq]
        simp only [Bool.not_eq_true] at ho
        simp [ho]
      simp only [Bool.not_eq_true] at ho
      simp only [List.filter_cons, ho, Bool.false_eq_true, if_false, hk]
      exact ih m hu'

theorem foldl_set_sorted (l : List (Nat × Nat)) :
    ∀ m : StdMap, m.Sorted → (l.foldl (fun m p => m.set p.1 p.2) m).Sorted := by
  induction l with
  | nil => intro m hm; exact hm
  | cons p l ih => intro m hm; exact ih _ (set_sorted m hm p.1 p.2)

theorem mem_foldl_set (l : List (Nat × Nat)) :
    ∀ (m : StdMap) (q : Nat × Nat), q ∈ l.foldl (fun m p => m.set p.1 p.2) m → q ∈ l ∨ q ∈ m := by
  induction l with
  | nil => intro m q h; exact Or.inr h
  | cons p l ih =>
    intro m q h
    rcases ih _ q h with h1 | h1
    · exact Or.inl (List.mem_cons_of_mem _ h1)
    · rcases mem_set m p.1 p.2 q h1 with h2 | h2
      · exact Or.inl (by rw [h2]; exact List.mem_cons_self _ _)
      · exact Or.inr h2

/-! ## Writing the totals back -/

theorem write_rowOf_other (a g : Nat) (f : Nat → Nat) (a' g' e : Nat) :
    ∀ (m : StdMap) (db : Table), (¬ (a' = a ∧ g' = g) ∨ m.find e = none) →
      (m.foldl (fun t p => t.replaceInto a g p.1 (f p.1) p.2) db).rowOf a' g' e
        = db.rowOf a' g' e := by
  intro m
  induction m with
  | nil => intro db _; rfl
  | cons p m ih =>
    intro db h
    obtain ⟨k, v⟩ := p
    simp only [List.foldl_cons]
    have h' : ¬ (a' = a ∧ g' = g) ∨ StdMap.find m e = none := by
      rcases h with h | h
      · exact Or.inl h
      · right
        simp only [StdMap.find] at h
        by_cases hk : k = e
        · simp [hk] at h
        · simpa [hk] using h
    rw [ih _ h']
    apply rowOf_replaceInto_other
    rintro ⟨h1, h2, h3⟩
    rcases h with h | h
    · exact h ⟨h1, h2⟩
    · simp [StdMap.find, h3] at h

theorem write_rowOf_mem (a g : Nat) (f : Nat → Nat) (e v : Nat) :
    ∀ (m : StdMap) (db : Table), m.Sorted → m.find e = some v →
      (m.foldl (fun t p => t.replaceInto a g p.1 (f p.1) p.2) db).rowOf a g e
        = some { account_id := a, guid := g, item_entry := e, item_subclass := f e,
                 amount := v } := by
  intro m
  induction m with
  | nil => intro db _ h; simp [StdMap.find] at h
  | cons p m ih =>
    intro db hm h
    obtain ⟨k, v0⟩ := p
    unfold StdMap.Sorted at hm
    have hm' := List.pairwise_cons.mp hm
    simp only [List.foldl_cons]
    by_cases hk : k = e
    · subst hk
      simp only [StdMap.find, if_true, Option.some.injEq] at h
      subst h
      rw [write_rowOf_other a g f a g k m _ (Or.inr (find_eq_none_of_lt m k hm'.1))]
      exact rowOf_replaceInto_self _ _ _ _ _ _
    · simp only [StdMap.find, hk, if_false] at h
      exact ih _ hm'.2 h

theorem noZero_delete (t : Table) (a g e : Nat) (h : t.NoZero) : (t.delete a g e).NoZero := by
  intro r hr
  exact h r (List.mem_of_mem_filter hr)

theorem noZero_update (t : Table) (v a g e : Nat) (h : t.NoZero) (hv : v ≠ 0) :
    (t.update v a g e).NoZero := by
  intro r hr
  unfold Table.update at hr
  rw [List.mem_map] at hr
  obtain ⟨r0, hr0, rfl⟩ := hr
  by_cases hk : r0.hasKey a g e = true
  · simpa [hk] using hv
  · simpa [hk] using h r0 hr0

theorem noZero_replaceInto (t : Table) (a g e c v : Nat) (h : t.NoZero) (hv : v ≠ 0) :
    (t.replaceInto a g e c v).NoZero := by
  intro r hr
  unfold Table.replaceInto at hr
  rcases List.mem_append.mp hr with h1 | h1
  · exact noZero_delete t a g e h r h1
  · simp only [List.mem_singleton] at h1
    rw [h1]
    exact hv

theorem write_noZero (a g : Nat) (f : Nat → Nat) :
    ∀ (m : StdMap) (db : Table), db.NoZero → (∀ p ∈ m, p.2 ≠ 0) →
      (m.foldl (fun t p => t.replaceInto a g p.1 (f p.1) p.2) db).NoZero := by
  intro m
  induction m with
  | nil => intro db h _; exact h
  | cons p m ih =>
    intro db h hm
    simp only [List.foldl_cons]
    exact ih _ (noZero_replaceInto db a g p.1 (f p.1) p.2 h (hm p (List.mem_cons_self _ _)))
      (fun q hq => hm q (List.mem_cons_of_mem _ hq))

theorem writeDeposit_eq (a g : Nat) (s : DepositState) (db : Table) :
    writeDeposit a g s db
      = s.entryToAmountMap.foldl
          (fun t p => t.replaceInto a g p.1 ((s.entryToSubclassMap.find p.1).getD 0) p.2) db := by
  unfold writeDeposit
  cases hm : s.entryToAmountMap with
  | nil => simp
  | cons p m => simp

/-! ## One step of a scan -/

theorem UpdateItemCount_not_eligible (env : Env) (s : DepositState) (it : Item) (b sl : Nat)
    (h : eligible env it.template = false) : UpdateItemCount env s it b sl = s := by
  unfold eligible at h
  simp only [decide_eq_false_iff_not, not_and_or, not_not] at h
  unfold UpdateItemCount
  simp only
  rw [if_pos]
  rcases h with h | h
  · left
    simpa using h
  · exact Or.inr h

theorem UpdateItemCount_eligible (env : Env) (s : DepositState) (it : Item) (b sl : Nat)
    (h : eligible env it.template = true) :
    UpdateItemCount env s it b sl
      = { entryToAmountMap :=
            match s.entryToAmountMap.find it.template.ItemId with
            | none => s.entryToAmountMap.set it.template.ItemId it.count
            | some existingCount =>
              s.entryToAmountMap.set it.template.ItemId (u32 (existingCount + it.count))
          entryToSubclassMap :=
            match s.entryToAmountMap.find it.template.ItemId with
            | none => s.entryToSubclassMap.set it.template.ItemId (categoryOf env it.template)
            | some _ => s.entryToSubclassMap
          itemsAddedMap :=
            match s.itemsAddedMap.find it.template.ItemId with
            | none => s.itemsAddedMap.set it.template.ItemId it.count
            | some existingCount =>
              s.itemsAddedMap.set it.template.ItemId (u32 (existingCount + it.count))
          inv := s.inv.DestroyItem b sl
          log := s.log ++ [Event.destroyItem b sl it.template.ItemId it.count] } := by
  unfold eligible at h
  simp only [decide_eq_true_eq] at h
  unfold UpdateItemCount categoryOf
  simp only
  rw [if_neg]
  rintro (h1 | h1)
  · simp [h.1] at h1
  · exact h.2 h1

theorem depositStep_skip (env : Env) (P : ItemTemplate → Bool) (s : DepositState)
    (p : Nat × Nat)
    (h : ∀ it, s.inv.items p.1 p.2 = some it → counted env P it.template = false) :
    depositStep env P s p = s := by
  unfold depositStep
  cases hit : s.inv.items p.1 p.2 with
  | none => rfl
  | some it =>
    have hc := h it hit
    unfold counted at hc
    simp only
    by_cases hP : P it.template = true
    · rw [if_pos hP]
      apply UpdateItemCount_not_eligible
      simpa [hP] using hc
    · rw [if_neg hP]

theorem depositStep_count (env : Env) (P : ItemTemplate → Bool) (s : DepositState)
    (p : Nat × Nat) (it : Item) (hit : s.inv.items p.1 p.2 = some it)
    (hc : counted env P it.template = true) :
    depositStep env P s p = UpdateItemCount env s it p.1 p.2
      ∧ eligible env it.template = true := by
  unfold counted at hc
  rw [Bool.and_eq_true] at hc
  unfold depositStep
  simp only [hit, hc.1, if_true]
  exact ⟨trivial, hc.2⟩

theorem depositStep_items_other (env : Env) (P : ItemTemplate → Bool) (s : DepositState)
    (p q : Nat × Nat) (h : q ≠ p) :
    (depositStep env P s p).inv.items q.1 q.2 = s.inv.items q.1 q.2 := by
  have hq : ¬ (q.1 = p.1 ∧ q.2 = p.2) := fun hh => h (Prod.ext hh.1 hh.2)
  unfold depositStep
  cases hit : s.inv.items p.1 p.2 with
  | none => rfl
  | some it =>
    simp only
    by_cases hP : P it.template = true
    · rw [if_pos hP]
      by_cases he : eligible env it.template = true
      · rw [UpdateItemCount_eligible env s it _ _ he]
        simp only [Inventory.DestroyItem, hq, if_false]
      · simp only [Bool.not_eq_true] at he
        rw [UpdateItemCount_not_eligible env s it _ _ he]
    · rw [if_neg hP]

theorem depositStep_bags (env : Env) (P : ItemTemplate → Bool) (s : DepositState)
    (p : Nat × Nat) : (depositStep env P s p).inv.bags = s.inv.bags := by
  unfold depositStep
  cases hit : s.inv.items p.1 p.2 with
  | none => rfl
  | some it =>
    simp only
    by_cases hP : P it.template = true
    · rw [if_pos hP]
      by_cases he : eligible env it.template = true
      · rw [UpdateItemCount_eligible env s it _ _ he]
        rfl
      · simp only [Bool.not_eq_true] at he
        rw [UpdateItemCount_not_eligible env s it _ _ he]
    · rw [if_neg hP]

theorem foldl_depositStep_bags (env : Env) (P : ItemTemplate → Bool) (ps : List (Nat × Nat)) :
    ∀ s : DepositState, (ps.foldl (depositStep env P) s).inv.bags = s.inv.bags := by
  induction ps with
  | nil => intro s; rfl
  | cons p ps ih => intro s; rw [List.foldl_cons, ih, depositStep_bags]

/-! ## The scan as one pass over the scanned positions -/

theorem depositAt_eq (env : Env) :
    depositAt env = fun st b sl => depositStep env (fun _ => true) st (b, sl) := by
  funext st b sl
  unfold depositAt depositStep
  cases st.inv.items b sl <;> simp

theorem depositCategoryAt_eq (env : Env) (c : Nat) :
    depositCategoryAt env c = fun st b sl => depositStep env (eligibleIn env c) st (b, sl) := by
  funext st b sl
  unfold depositCategoryAt depositStep
  cases st.inv.items b sl with
  | none => rfl
  | some it =>
    simp only [eligibleIn, categoryOf, decide_eq_true_eq]

theorem scanInventory_eq_foldl (env : Env) (P : ItemTemplate → Bool) (s : DepositState) :
    scanInventory env (fun st b sl => depositStep env P st (b, sl)) s
      = (scanPositions env s.inv).foldl (depositStep env P) s := by
  unfold scanInventory scanPositions
  rw [List.foldl_append, List.foldl_map]
  simp only
  generalize hs1 : (List.range' env.INVENTORY_SLOT_ITEM_START
      (env.INVENTORY_SLOT_ITEM_END - env.INVENTORY_SLOT_ITEM_START)).foldl
    (fun st i => depositStep env P st (env.INVENTORY_SLOT_BAG_0, i)) s = s1
  have hb : s1.inv.bags = s.inv.bags := by
    rw [← hs1, ← List.foldl_map (fun i => (env.INVENTORY_SLOT_BAG_0, i)) (depositStep env P)]
    exact foldl_depositStep_bags env P _ s
  generalize List.range' env.INVENTORY_SLOT_BAG_START
      (env.INVENTORY_SLOT_BAG_END - env.INVENTORY_SLOT_BAG_START) = l
  clear hs1
  induction l generalizing s1 with
  | nil => rfl
  | cons i l ih =>
    rw [List.foldl_cons, List.flatMap_cons, List.foldl_append, hb]
    cases hbag : s.inv.bags i with
    | none => exact ih s1 hb
    | some size =>
      simp only
      rw [List.foldl_map]
      apply ih
      rw [← List.foldl_map (fun j => (i, j)) (depositStep env P), foldl_depositStep_bags, hb]

theorem scanPositions_nodup (env : Env) (inv : Inventory) (h : env.slotsDisjoint) :
    (scanPositions env inv).Nodup := by
  unfold scanPositions
  rw [List.nodup_append]
  refine ⟨?_, ?_, ?_⟩
  · apply List.Nodup.map
    · intro i j hij
      simpa using hij
    · exact List.nodup_range' _ _
  · rw [List.nodup_flatMap]
    constructor
    · intro i _
      cases inv.bags i with
      | none => exact List.nodup_nil
      | some size =>
        apply List.Nodup.map
        · intro j k hjk
          simpa using hjk
        · exact List.nodup_range _
    · apply List.Pairwise.imp_of_mem _ (List.nodup_range' env.INVENTORY_SLOT_BAG_START
        (env.INVENTORY_SLOT_BAG_END - env.INVENTORY_SLOT_BAG_START))
      intro i j _ _ hij q hq1 hq2
      have h1 : q.1 = i := by
        cases hbi : inv.bags i with
        | none => simp [hbi] at hq1
        | some size =>
          simp only [hbi, List.mem_map] at hq1
          obtain ⟨_, _, rfl⟩ := hq1
          rfl
      have h2 : q.1 = j := by
        cases hbj : inv.bags j with
        | none => simp [hbj] at hq2
        | some size =>
          simp only [hbj, List.mem_map] at hq2
          obtain ⟨_, _, rfl⟩ := hq2
          rfl
      exact hij (h1.symm.trans h2)
  · intro q hq1 hq2
    rw [List.mem_map] at hq1
    obtain ⟨i, _, rfl⟩ := hq1
    rw [List.mem_flatMap] at hq2
    obtain ⟨b, hb, hq⟩ := hq2
    rw [List.mem_range'_1] at hb
    have : b = env.INVENTORY_SLOT_BAG_0 := by
      cases hbb : inv.bags b with
      | none => simp [hbb] at hq
      | some size =>
        simp only [hbb, List.mem_map, Prod.mk.injEq] at hq
        obtain ⟨_, _, h1, _⟩ := hq
        exact h1
    unfold Env.slotsDisjoint at h
    omega

/-! ## What a scan accumulates for one item -/

theorem hasStack_cons (P : ItemTemplate → Bool) (inv : Inventory) (X : Nat) (p : Nat × Nat)
    (ps : List (Nat × Nat)) :
    hasStack P inv X (p :: ps)
      = ((match inv.items p.1 p.2 with
          | some it => P it.template && decide (it.template.ItemId = X)
          | none => false) || hasStack P inv X ps) := by
  simp [hasStack]

theorem stackUnits_sum_of_no_stack (P : ItemTemplate → Bool) (inv : Inventory) (X : Nat)
    (ps : List (Nat × Nat)) (h : hasStack P inv X ps = false) :
    (ps.map (stackUnits P inv X)).sum = 0 := by
  induction ps with
  | nil => rfl
  | cons p ps ih =>
    rw [hasStack_cons, Bool.or_eq_false_iff] at h
    rw [List.map_cons, List.sum_cons, ih h.2]
    unfold stackUnits
    cases hit : inv.items p.1 p.2 with
    | none => rfl
    | some it =>
      have h1 := h.1
      simp only [hit, Bool.and_eq_false_imp, decide_eq_false_iff_not] at h1
      simp only [Nat.add_zero]
      rw [if_neg]
      rintro ⟨hP, hX⟩
      exact h1 hP hX

/-- The three ways a step can go for an item `X`: the position is skipped,
a stack of another item is counted, or a stack of `X` is counted. -/
theorem depositStep_cases (env : Env) (P : ItemTemplate → Bool) (inv0 : Inventory) (X : Nat)
    (s : DepositState) (p : Nat × Nat) (hag : s.inv.items p.1 p.2 = inv0.items p.1 p.2) :
    (depositStep env P s p = s
        ∧ stackUnits (counted env P) inv0 X p = 0
        ∧ ∀ ps, hasStack (counted env P) inv0 X (p :: ps) = hasStack (counted env P) inv0 X ps)
    ∨ (∃ it, inv0.items p.1 p.2 = some it ∧ counted env P it.template = true
        ∧ it.template.ItemId ≠ X
        ∧ depositStep env P s p = UpdateItemCount env s it p.1 p.2
        ∧ eligible env it.template = true
        ∧ stackUnits (counted env P) inv0 X p = 0
        ∧ ∀ ps, hasStack (counted env P) inv0 X (p :: ps) = hasStack (counted env P) inv0 X ps)
    ∨ (∃ it, inv0.items p.1 p.2 = some it ∧ counted env P it.template = true
        ∧ it.template.ItemId = X
        ∧ depositStep env P s p = UpdateItemCount env s it p.1 p.2
        ∧ eligible env it.template = true
        ∧ stackUnits (counted env P) inv0 X p = it.count
        ∧ ∀ ps, hasStack (counted env P) inv0 X (p :: ps) = true) := by
  cases hit : inv0.items p.1 p.2 with
  | none =>
    left
    refine ⟨depositStep_skip env P s p ?_, ?_, ?_⟩
    · intro it h
      rw [hag, hit] at h
      cases h
    · simp [stackUnits, hit]
    · intro ps
      simp [hasStack_cons, hit]
  | some it =>
    by_cases hc : counted env P it.template = true
    · obtain ⟨hstep, hel⟩ := depositStep_count env P s p it (by rw [hag, hit]) hc
      by_cases hX : it.template.ItemId = X
      · right; right
        refine ⟨it, rfl, hc, hX, hstep, hel, ?_, ?_⟩
        · simp [stackUnits, hit, hc, hX]
        · intro ps
          simp [hasStack_cons, hit, hc, hX]
      · right; left
        refine ⟨it, rfl, hc, hX, hstep, hel, ?_, ?_⟩
        · simp [stackUnits, hit, hX]
        · intro ps
          simp [hasStack_cons, hit, hX]
    · left
      simp only [Bool.not_eq_true] at hc
      refine ⟨depositStep_skip env P s p ?_, ?_, ?_⟩
      · intro it' h
        rw [hag, hit] at h
        injection h with h
        rw [← h]
        exact hc
      · simp [stackUnits, hit, hc]
      · intro ps
        simp [hasStack_cons, hit, hc]

theorem scan_amount (env : Env) (P : ItemTemplate → Bool) (inv0 : Inventory) (X : Nat) :
    ∀ (ps : List (Nat × Nat)) (s : DepositState), ps.Nodup →
      (∀ q ∈ ps, s.inv.items q.1 q.2 = inv0.items q.1 q.2) →
      (s.entryToAmountMap.find X).getD 0 + (ps.map (stackUnits (counted env P) inv0 X)).sum
        < 4294967296 →
      (ps.foldl (depositStep env P) s).entryToAmountMap.find X
        = if hasStack (counted env P) inv0 X ps = true then
            some ((s.entryToAmountMap.find X).getD 0
              + (ps.map (stackUnits (counted env P) inv0 X)).sum)
          else s.entryToAmountMap.find X := by
  intro ps
  induction ps with
  | nil => intro s _ _ _; simp [hasStack]
  | cons p ps ih =>
    intro s hnd hag hfit
    have hnd' := List.nodup_cons.mp hnd
    have hag1 : ∀ q ∈ ps, (depositStep env P s p).inv.items q.1 q.2 = inv0.items q.1 q.2 := by
      intro q hq
      rw [depositStep_items_other env P s p q (fun h => hnd'.1 (h ▸ hq))]
      exact hag q (List.mem_cons_of_mem _ hq)
    rw [List.foldl_cons, List.map_cons, List.sum_cons] at *
    rcases depositStep_cases env P inv0 X s p (hag p (List.mem_cons_self _ _)) with
      ⟨hstep, hu, hh⟩ | ⟨it, _, _, hX, hstep, hel, hu, hh⟩ | ⟨it, _, _, hX, hstep, hel, hu, hh⟩
    · rw [hu, Nat.zero_add] at hfit ⊢
      rw [hh, hstep]
      exact ih s hnd'.2 (fun q hq => hag q (List.mem_cons_of_mem _ hq)) hfit
    · have hfind1 : (depositStep env P s p).entryToAmountMap.find X
          = s.entryToAmountMap.find X := by
        rw [hstep, UpdateItemCount_eligible env s it _ _ hel]
        simp only
        cases s.entryToAmountMap.find it.template.ItemId <;>
          exact find_set_other _ _ _ _ (fun h => hX h.symm)
      rw [hu, Nat.zero_add] at hfit ⊢
      rw [hh, ih _ hnd'.2 hag1 (by rw [hfind1]; exact hfit), hfind1]
    · have hfind1 : (depositStep env P s p).entryToAmountMap.find X
          = some ((s.entryToAmountMap.find X).getD 0 + it.count) := by
        rw [hstep, UpdateItemCount_eligible env s it _ _ hel]
        simp only
        rw [hX]
        cases hf : s.entryToAmountMap.find X with
        | none => simp [find_set_self]
        | some ex =>
          rw [hf, hu] at hfit
          simp only [Option.getD_some] at hfit ⊢
          rw [find_set_self, u32_of_lt (by omega)]
      rw [hu] at hfit ⊢
      rw [hh, ih _ hnd'.2 hag1 (by rw [hfind1]; simp only [Option.getD_some]; omega), hfind1]
      simp only [Option.getD_some, if_true]
      by_cases hh' : hasStack (counted env P) inv0 X ps = true
      · simp [hh', Nat.add_assoc]
      · simp only [Bool.not_eq_true] at hh'
        simp [hh', stackUnits_sum_of_no_stack _ _ _ _ hh']

theorem scan_amount_isSome (env : Env) (P : ItemTemplate → Bool) (X : Nat) :
    ∀ (ps : List (Nat × Nat)) (s : DepositState), s.entryToAmountMap.find X ≠ none →
      (ps.foldl (depositStep env P) s).entryToAmountMap.find X ≠ none := by
  intro ps
  induction ps with
  | nil => intro s h; exact h
  | cons p ps ih =>
    intro s h
    rw [List.foldl_cons]
    apply ih
    unfold depositStep
    cases s.inv.items p.1 p.2 with
    | none => exact h
    | some it =>
      simp only
      by_cases hP : P it.template = true
      · rw [if_pos hP]
        by_cases he : eligible env it.template = true
        · rw [UpdateItemCount_eligible env s it _ _ he]
          simp only
          by_cases hX : it.template.ItemId = X
          · rw [hX]
            cases s.entryToAmountMap.find X <;> simp [find_set_self]
          · cases s.entryToAmountMap.find it.template.ItemId <;>
              (simp only; rw [find_set_other _ _ _ _ (fun h => hX h.symm)]; exact h)
        · simp only [Bool.not_eq_true] at he
          rw [UpdateItemCount_not_eligible env s it _ _ he]
          exact h
      · rw [if_neg hP]
        exact h

/-- The category recorded for an item is left alone by a scan when the item
is already in the amount map, or when no counted stack of it is carried. -/
theorem scan_subclass_kept (env : Env) (P : ItemTemplate → Bool) (inv0 : Inventory) (X : Nat) :
    ∀ (ps : List (Nat × Nat)) (s : DepositState), ps.Nodup →
      (∀ q ∈ ps, s.inv.items q.1 q.2 = inv0.items q.1 q.2) →
      (s.entryToAmountMap.find X ≠ none ∨ hasStack (counted env P) inv0 X ps = false) →
      (ps.foldl (depositStep env P) s).entryToSubclassMap.find X
        = s.entryToSubclassMap.find X := by
  intro ps
  induction ps with
  | nil => intro s _ _ _; rfl
  | cons p ps ih =>
    intro s hnd hag hor
    have hnd' := List.nodup_cons.mp hnd
    have hag1 : ∀ q ∈ ps, (depositStep env P s p).inv.items q.1 q.2 = inv0.items q.1 q.2 := by
      intro q hq
      rw [depositStep_items_other env P s p q (fun h => hnd'.1 (h ▸ hq))]
      exact hag q (List.mem_cons_of_mem _ hq)
    rw [List.foldl_cons]
    rcases depositStep_cases env P inv0 X s p (hag p (List.mem_cons_self _ _)) with
      ⟨hstep, _, hh⟩ | ⟨it, _, _, hX, hstep, hel, _, hh⟩ | ⟨it, _, _, hX, hstep, hel, _, hh⟩
    · rw [hh] at hor
      rw [hstep]
      exact ih s hnd'.2 (fun q hq => hag q (List.mem_cons_of_mem _ hq)) hor
    · have hamt : (depositStep env P s p).entryToAmountMap.find X
          = s.entryToAmountMap.find X := by
        rw [hstep, UpdateItemCount_eligible env s it _ _ hel]
        simp only
        cases s.entryToAmountMap.find it.template.ItemId <;>
          exact find_set_other _ _ _ _ (fun h => hX h.symm)
      have hsub : (depositStep env P s p).entryToSubclassMap.find X
          = s.entryToSubclassMap.find X := by
        rw [hstep, UpdateItemCount_eligible env s it _ _ hel]
        simp only
        cases s.entryToAmountMap.find it.template.ItemId
        · exact find_set_other _ _ _ _ (fun h => hX h.symm)
        · rfl
      rw [hh] at hor
      rw [ih _ hnd'.2 hag1 (by rw [hamt]; exact hor), hsub]
    · rw [hh] at hor
      have hsome : s.entryToAmountMap.find X ≠ none := by
        rcases hor with h | h
        · exact h
        · cases h
      have hamt : (depositStep env P s p).entryToAmountMap.find X ≠ none := by
        have := scan_amount_isSome env P X [p] s hsome
        simpa using this
      have hsub : (depositStep env P s p).entryToSubclassMap.find X
          = s.entryToSubclassMap.find X := by
        rw [hstep, UpdateItemCount_eligible env s it _ _ hel]
        simp only
        rw [hX]
        cases hf : s.entryToAmountMap.find X with
        | none => exact absurd hf hsome
        | some _ => rfl
      rw [ih _ hnd'.2 hag1 (Or.inl hamt), hsub]

/-- The category recorded for an item that was not in the amount map is the
category of its counted stacks. -/
theorem scan_subclass_new (env : Env) (P : ItemTemplate → Bool) (inv0 : Inventory) (X c : Nat) :
    ∀ (ps : List (Nat × Nat)) (s : DepositState), ps.Nodup →
      (∀ q ∈ ps, s.inv.items q.1 q.2 = inv0.items q.1 q.2) →
      s.entryToAmountMap.find X = none →
      hasStack (counted env P) inv0 X ps = true →
      (∀ q ∈ ps, ∀ it, inv0.items q.1 q.2 = some it → counted env P it.template = true →
        it.template.ItemId = X → categoryOf env it.template = c) →
      (ps.foldl (depositStep env P) s).entryToSubclassMap.find X = some c := by
  intro ps
  induction ps with
  | nil => intro s _ _ _ h _; simp [hasStack] at h
  | cons p ps ih =>
    intro s hnd hag hnone hhas hcat
    have hnd' := List.nodup_cons.mp hnd
    have hag1 : ∀ q ∈ ps, (depositStep env P s p).inv.items q.1 q.2 = inv0.items q.1 q.2 := by
      intro q hq
      rw [depositStep_items_other env P s p q (fun h => hnd'.1 (h ▸ hq))]
      exact hag q (List.mem_cons_of_mem _ hq)
    have hcat1 : ∀ q ∈ ps, ∀ it, inv0.items q.1 q.2 = some it →
        counted env P it.template = true → it.template.ItemId = X →
        categoryOf env it.template = c :=
      fun q hq => hcat q (List.mem_cons_of_mem _ hq)
    rw [List.foldl_cons]
    rcases depositStep_cases env P inv0 X s p (hag p (List.mem_cons_self _ _)) with
      ⟨hstep, _, hh⟩ | ⟨it, _, _, hX, hstep, hel, _, hh⟩ | ⟨it, hit, hc, hX, hstep, hel, _, hh⟩
    · rw [hh] at hhas
      rw [hstep]
      exact ih s hnd'.2 (fun q hq => hag q (List.mem_cons_of_mem _ hq)) hnone hhas hcat1
    · have hamt : (depositStep env P s p).entryToAmountMap.find X = none := by
        rw [hstep, UpdateItemCount_eligible env s it _ _ hel]
        simp only
        cases s.entryToAmountMap.find it.template.ItemId <;>
          (simp only; rw [find_set_other _ _ _ _ (fun h => hX h.symm)]; exact hnone)
      rw [hh] at hhas
      exact ih _ hnd'.2 hag1 hamt hhas hcat1
    · have hamt : (depositStep env P s p).entryToAmountMap.find X ≠ none := by
        rw [hstep, UpdateItemCount_eligible env s it _ _ hel]
        simp only
        rw [hX, hnone]
        simp [find_set_self]
      have hsub : (depositStep env P s p).entryToSubclassMap.find X = some c := by
        rw [hstep, UpdateItemCount_eligible env s it _ _ hel]
        simp only
        rw [hX, hnone]
        simp only
        rw [find_set_self, hcat p (List.mem_cons_self _ _) it hit hc hX]
      rw [scan_subclass_kept env P inv0 X ps _ hnd'.2 hag1 (Or.inl hamt), hsub]

theorem foldl_depositStep_items_not_mem (env : Env) (P : ItemTemplate → Bool) (q : Nat × Nat) :
    ∀ (ps : List (Nat × Nat)) (s : DepositState), q ∉ ps →
      (ps.foldl (depositStep env P) s).inv.items q.1 q.2 = s.inv.items q.1 q.2 := by
  intro ps
  induction ps with
  | nil => intro s _; rfl
  | cons p ps ih =>
    intro s hq
    rw [List.foldl_cons, ih _ (fun h => hq (List.mem_cons_of_mem _ h))]
    exact depositStep_items_other env P s p q (fun h => hq (h ▸ List.mem_cons_self _ _))

/-- Every counted stack is gone from the inventory after the scan. -/
theorem scan_removes (env : Env) (P : ItemTemplate → Bool) (q : Nat × Nat) (it : Item) :
    ∀ (ps : List (Nat × Nat)) (s : DepositState), ps.Nodup → q ∈ ps →
      s.inv.items q.1 q.2 = some it → counted env P it.template = true →
      (ps.foldl (depositStep env P) s).inv.items q.1 q.2 = none := by
  intro ps
  induction ps with
  | nil => intro s _ h; simp at h
  | cons p ps ih =>
    intro s hnd hq hit hc
    have hnd' := List.nodup_cons.mp hnd
    rw [List.foldl_cons]
    rcases List.mem_cons.mp hq with h | h
    · subst h
      rw [foldl_depositStep_items_not_mem env P q ps _ hnd'.1]
      obtain ⟨hstep, hel⟩ := depositStep_count env P s q it hit hc
      rw [hstep, UpdateItemCount_eligible env s it _ _ hel]
      simp [Inventory.DestroyItem]
    · have hne : q ≠ p := fun e => hnd'.1 (e ▸ h)
      exact ih _ hnd'.2 h (by rw [depositStep_items_other env P s p q hne]; exact hit) hc

/-! ## The two deposits as load, scan and write -/

theorem DepositAllReagents_eq (env : Env) (player : Player) (w : World) :
    DepositAllReagents env player w
      = { db := writeDeposit (GetStorageKeys env player).1 (GetStorageKeys env player).2
            ((scanPositions env w.inv).foldl (depositStep env (fun _ => true))
              (depositAllStart env player w)) w.db
          inv := ((scanPositions env w.inv).foldl (depositStep env (fun _ => true))
              (depositAllStart env player w)).inv
          log := ((scanPositions env w.inv).foldl (depositStep env (fun _ => true))
              (depositAllStart env player w)).log
            ++ depositFeedback env Msg.noReagentsToDeposit
              ((scanPositions env w.inv).foldl (depositStep env (fun _ => true))
                (depositAllStart env player w)) } := by
  unfold DepositAllReagents
  simp only [depositAt_eq]
  rw [scanInventory_eq_foldl]
  rfl

theorem DepositAllReagentsForCategory_eq (env : Env) (player : Player) (c : Nat) (w : World) :
    DepositAllReagentsForCategory env player c w
      = { db := writeDeposit (GetStorageKeys env player).1 (GetStorageKeys env player).2
            ((scanPositions env w.inv).foldl (depositStep env (eligibleIn env c))
              (depositCategoryStart w)) w.db
          inv := ((scanPositions env w.inv).foldl (depositStep env (eligibleIn env c))
              (depositCategoryStart w)).inv
          log := ((scanPositions env w.inv).foldl (depositStep env (eligibleIn env c))
              (depositCategoryStart w)).log
            ++ depositFeedback env Msg.noReagentsToDepositInCategory
              ((scanPositions env w.inv).foldl (depositStep env (eligibleIn env c))
                (depositCategoryStart w))
            ++ [Event.closeGossipMenu] } := by
  unfold DepositAllReagentsForCategory
  simp only [depositCategoryAt_eq]
  rw [scanInventory_eq_foldl]
  rfl

theorem counted_true (env : Env) : counted env (fun _ => true) = eligible env := by
  funext t
  simp [counted]

theorem counted_eligibleIn (env : Env) (c : Nat) :
    counted env (eligibleIn env c) = eligibleIn env c := by
  funext t
  unfold counted eligibleIn eligible
  by_cases h : (t.Class = env.ITEM_CLASS_TRADE_GOODS ∨ t.Class = env.ITEM_CLASS_GEM)
      ∧ t.MaxStackSize > 1 ∧ categoryOf env t = c
  · have h2 : (t.Class = env.ITEM_CLASS_TRADE_GOODS ∨ t.Class = env.ITEM_CLASS_GEM)
        ∧ t.MaxStackSize ≠ 1 := ⟨h.1, by omega⟩
    simp [h, h2]
  · simp [h]

theorem depositAllStart_amount (env : Env) (player : Player) (w : World) (X : Nat)
    (hu : w.db.UniqueKeys) :
    (depositAllStart env player w).entryToAmountMap.find X
      = w.db.amountOf (GetStorageKeys env player).1 (GetStorageKeys env player).2 X := by
  have h := load_find (fun r => r.amount) (GetStorageKeys env player).1
    (GetStorageKeys env player).2 X w.db [] hu
  rw [amountOf_eq_rowOf]
  unfold depositAllStart Table.selectOwner
  simp only [List.foldl_map] at h ⊢
  rw [h]
  cases Table.rowOf w.db (GetStorageKeys env player).1 (GetStorageKeys env player).2 X <;> rfl

theorem depositAllStart_subclass (env : Env) (player : Player) (w : World) (X : Nat)
    (hu : w.db.UniqueKeys) :
    (depositAllStart env player w).entryToSubclassMap.find X
      = w.db.subclassOf (GetStorageKeys env player).1 (GetStorageKeys env player).2 X := by
  have h := load_find (fun r => r.item_subclass) (GetStorageKeys env player).1
    (GetStorageKeys env player).2 X w.db [] hu
  rw [subclassOf_eq_rowOf]
  unfold depositAllStart Table.selectOwner
  simp only [List.foldl_map] at h ⊢
  rw [h]
  cases Table.rowOf w.db (GetStorageKeys env player).1 (GetStorageKeys env player).2 X <;> rfl

theorem depositAllStart_sorted (env : Env) (player : Player) (w : World) :
    (depositAllStart env player w).entryToAmountMap.Sorted := by
  unfold depositAllStart Table.selectOwner
  simp only [List.foldl_map]
  rw [← List.foldl_map (fun r : Row => (r.item_entry, r.amount)) (fun m p => StdMap.set m p.1 p.2)]
  exact foldl_set_sorted _ [] List.Pairwise.nil

theorem depositStep_sorted (env : Env) (P : ItemTemplate → Bool) (s : DepositState)
    (p : Nat × Nat) (h : s.entryToAmountMap.Sorted) :
    (depositStep env P s p).entryToAmountMap.Sorted := by
  unfold depositStep
  cases s.inv.items p.1 p.2 with
  | none => exact h
  | some it =>
    simp only
    by_cases hP : P it.template = true
    · rw [if_pos hP]
      by_cases he : eligible env it.template = true
      · rw [UpdateItemCount_eligible env s it _ _ he]
        simp only
        cases s.entryToAmountMap.find it.template.ItemId <;> exact set_sorted _ h _ _
      · simp only [Bool.not_eq_true] at he
        rw [UpdateItemCount_not_eligible env s it _ _ he]
        exact h
    · rw [if_neg hP]
      exact h

theorem foldl_depositStep_sorted (env : Env) (P : ItemTemplate → Bool) (ps : List (Nat × Nat)) :
    ∀ s : DepositState, s.entryToAmountMap.Sorted →
      (ps.foldl (depositStep env P) s).entryToAmountMap.Sorted := by
  induction ps with
  | nil => intro s h; exact h
  | cons p ps ih => intro s h; exact ih _ (depositStep_sorted env P s p h)

/-- The row of item `X` after the totals of a scanned state are written
back. -/
theorem writeDeposit_rowOf (a g : Nat) (s : DepositState) (db : Table) (X : Nat)
    (hs : s.entryToAmountMap.Sorted) :
    (writeDeposit a g s db).rowOf a g X
      = match s.entryToAmountMap.find X with
        | some v => some { account_id := a, guid := g, item_entry := X,
                           item_subclass := (s.entryToSubclassMap.find X).getD 0, amount := v }
        | none => db.rowOf a g X := by
  rw [writeDeposit_eq]
  cases hf : s.entryToAmountMap.find X with
  | none =>
    exact write_rowOf_other a g (fun e => (s.entryToSubclassMap.find e).getD 0) a g X _ db
      (Or.inr hf)
  | some v =>
    exact write_rowOf_mem a g (fun e => (s.entryToSubclassMap.find e).getD 0) X v _ db hs hf

theorem writeDeposit_rowOf_other_owner (a g : Nat) (s : DepositState) (db : Table)
    (a' g' X : Nat) (h : ¬ (a' = a ∧ g' = g)) :
    (writeDeposit a g s db).rowOf a' g' X = db.rowOf a' g' X := by
  rw [writeDeposit_eq]
  exact write_rowOf_other a g (fun e => (s.entryToSubclassMap.find e).getD 0) a' g' X _ db
    (Or.inl h)

/-! ## The stored quantity and category after a deposit -/

/-- The stored quantity of `X` after load or start state `s0` is scanned and
written back. -/
theorem deposit_amountOf (env : Env) (P : ItemTemplate → Bool) (a g : Nat) (s0 : DepositState)
    (db : Table) (X : Nat) (hs : s0.entryToAmountMap.Sorted)
    (hnd : (scanPositions env s0.inv).Nodup)
    (hfit : (s0.entryToAmountMap.find X).getD 0 + carriedUnits env (counted env P) s0.inv X
      < 4294967296) :
    (writeDeposit a g ((scanPositions env s0.inv).foldl (depositStep env P) s0) db).amountOf a g X
      = if hasStack (counted env P) s0.inv X (scanPositions env s0.inv) = true then
          some ((s0.entryToAmountMap.find X).getD 0 + carriedUnits env (counted env P) s0.inv X)
        else (s0.entryToAmountMap.find X).or (db.amountOf a g X) := by
  have hscan := scan_amount env P s0.inv X (scanPositions env s0.inv) s0 hnd
    (fun _ _ => rfl) hfit
  rw [amountOf_eq_rowOf, writeDeposit_rowOf a g _ db X
    (foldl_depositStep_sorted env P _ s0 hs), hscan]
  unfold carriedUnits
  by_cases hh : hasStack (counted env P) s0.inv X (scanPositions env s0.inv) = true
  · simp only [hh, if_true, Option.map_some']
  · simp only [hh, Bool.false_eq_true, if_false]
    cases hf : s0.entryToAmountMap.find X with
    | none => simp only [Option.none_or, amountOf_eq_rowOf]
    | some v => simp only [Option.map_some', Option.or_some]

/-- The category of `X` after a deposit, when the item was already in the
amount map or has no counted stack. -/
theorem deposit_subclassOf_kept (env : Env) (P : ItemTemplate → Bool) (a g : Nat)
    (s0 : DepositState) (db : Table) (X : Nat) (hs : s0.entryToAmountMap.Sorted)
    (hnd : (scanPositions env s0.inv).Nodup)
    (hor : s0.entryToAmountMap.find X ≠ none
      ∨ hasStack (counted env P) s0.inv X (scanPositions env s0.inv) = false) :
    (writeDeposit a g ((scanPositions env s0.inv).foldl (depositStep env P) s0) db).subclassOf
        a g X
      = match ((scanPositions env s0.inv).foldl (depositStep env P) s0).entryToAmountMap.find X
          with
        | some _ => some ((s0.entryToSubclassMap.find X).getD 0)
        | none => db.subclassOf a g X := by
  rw [subclassOf_eq_rowOf, writeDeposit_rowOf a g _ db X
    (foldl_depositStep_sorted env P _ s0 hs),
    scan_subclass_kept env P s0.inv X _ s0 hnd (fun _ _ => rfl) hor]
  cases ((scanPositions env s0.inv).foldl (depositStep env P) s0).entryToAmountMap.find X <;>
    simp only [Option.map_some', subclassOf_eq_rowOf]

/-- The category of `X` after a deposit, when the item was not in the amount
map and has a counted stack. -/
theorem deposit_subclassOf_new (env : Env) (P : ItemTemplate → Bool) (a g : Nat)
    (s0 : DepositState) (db : Table) (X c : Nat) (hs : s0.entryToAmountMap.Sorted)
    (hnd : (scanPositions env s0.inv).Nodup)
    (hnone : s0.entryToAmountMap.find X = none)
    (hhas : hasStack (counted env P) s0.inv X (scanPositions env s0.inv) = true)
    (hcat : ∀ q ∈ scanPositions env s0.inv, ∀ it, s0.inv.items q.1 q.2 = some it →
      counted env P it.template = true → it.template.ItemId = X →
      categoryOf env it.template = c) :
    (writeDeposit a g ((scanPositions env s0.inv).foldl (depositStep env P) s0) db).subclassOf
        a g X = some c := by
  have hne : ((scanPositions env s0.inv).foldl (depositStep env P) s0).entryToAmountMap.find X
      ≠ none := by
    have hall : ∀ ps : List (Nat × Nat), ps.Nodup →
        hasStack (counted env P) s0.inv X ps = true →
        (ps.foldl (depositStep env P) s0).entryToAmountMap.find X ≠ none := by
      intro ps
      generalize hgen : s0.inv = inv0
      have hag0 : ∀ q ∈ ps, s0.inv.items q.1 q.2 = inv0.items q.1 q.2 := by
        intro q _; rw [hgen]
      clear hgen hnone hs hnd hhas hcat
      induction ps generalizing s0 with
      | nil => intro _ h; simp [hasStack] at h
      | cons p ps ih =>
        intro hnd1 hh1
        have hnd' := List.nodup_cons.mp hnd1
        rw [List.foldl_cons]
        rcases depositStep_cases env P inv0 X s0 p (hag0 p (List.mem_cons_self _ _)) with
          ⟨hstep, _, hh⟩ | ⟨it, _, _, hX, hstep, hel, _, hh⟩ | ⟨it, _, _, hX, hstep, hel, _, hh⟩
        · rw [hstep]
          rw [hh] at hh1
          exact ih s0 (fun q hq => hag0 q (List.mem_cons_of_mem _ hq)) hnd'.2 hh1
        · rw [hh] at hh1
          apply ih _ _ hnd'.2 hh1
          intro q hq
          rw [depositStep_items_other env P s0 p q (fun h => hnd'.1 (h ▸ hq))]
          exact hag0 q (List.mem_cons_of_mem _ hq)
        · apply scan_amount_isSome
          rw [hstep, UpdateItemCount_eligible env s0 it _ _ hel]
          simp only
          rw [hX]
          cases s0.entryToAmountMap.find X <;> simp [find_set_self]
    exact hall _ hnd hhas
  rw [subclassOf_eq_rowOf, writeDeposit_rowOf a g _ db X
    (foldl_depositStep_sorted env P _ s0 hs),
    scan_subclass_new env P s0.inv X c _ s0 hnd (fun _ _ => rfl) hnone hhas hcat]
  cases hf : ((scanPositions env s0.inv).foldl (depositStep env P) s0).entryToAmountMap.find X
    with
  | none => exact absurd hf hne
  | some v => rfl

/-! ## Deposit of all categories -/

/-- C6: after `DepositAllReagents`, on a table with unique keys, the stored
quantity of an item `X` is its prior quantity (0 without a row) plus the
counts of all carried stacks of `X` that pass the guard of `UpdateItemCount`,
provided that sum fits in 32 bits; every such stack of any item is gone from
the inventory; and an item without such a stack keeps its quantity and its
category. -/
theorem DepositAllReagents_spec (env : Env) (player : Player) (w : World) (X : Nat)
    (hu : w.db.UniqueKeys) (hslots : env.slotsDisjoint)
    (hfit : (w.db.amountOf (GetStorageKeys env player).1 (GetStorageKeys env player).2 X).getD 0
      + carriedUnits env (eligible env) w.inv X < 4294967296) :
    ((DepositAllReagents env player w).db.amountOf
          (GetStorageKeys env player).1 (GetStorageKeys env player).2 X).getD 0
        = (w.db.amountOf (GetStorageKeys env player).1 (GetStorageKeys env player).2 X).getD 0
          + carriedUnits env (eligible env) w.inv X
      ∧ (hasStack (eligible env) w.inv X (scanPositions env w.inv) = true →
          (DepositAllReagents env player w).db.amountOf
              (GetStorageKeys env player).1 (GetStorageKeys env player).2 X
            = some ((w.db.amountOf (GetStorageKeys env player).1
                  (GetStorageKeys env player).2 X).getD 0
                + carriedUnits env (eligible env) w.inv X))
      ∧ (∀ p ∈ scanPositions env w.inv, ∀ it, w.inv.items p.1 p.2 = some it →
          eligible env it.template = true →
          (DepositAllReagents env player w).inv.items p.1 p.2 = none)
      ∧ (hasStack (eligible env) w.inv X (scanPositions env w.inv) = false →
          (DepositAllReagents env player w).db.amountOf
              (GetStorageKeys env player).1 (GetStorageKeys env player).2 X
            = w.db.amountOf (GetStorageKeys env player).1 (GetStorageKeys env player).2 X
          ∧ (DepositAllReagents env player w).db.subclassOf
              (GetStorageKeys env player).1 (GetStorageKeys env player).2 X
            = w.db.subclassOf (GetStorageKeys env player).1 (GetStorageKeys env player).2 X) := by
  have hnd : (scanPositions env (depositAllStart env player w).inv).Nodup :=
    scanPositions_nodup env w.inv hslots
  have hstart := depositAllStart_amount env player w X hu
  have hamt := deposit_amountOf env (fun _ => true) (GetStorageKeys env player).1
    (GetStorageKeys env player).2 (depositAllStart env player w) w.db X
    (depositAllStart_sorted env player w) hnd
    (by rw [hstart, counted_true]; exact hfit)
  rw [hstart, counted_true] at hamt
  have hinv : (depositAllStart env player w).inv = w.inv := rfl
  rw [hinv] at hamt hnd
  have hor : ∀ o : Option Nat, o.or o = o := by
    intro o; cases o <;> rfl
  rw [hor] at hamt
  rw [DepositAllReagents_eq]
  simp only
  refine ⟨?_, ?_, ?_, ?_⟩
  · rw [hamt]
    by_cases hh : hasStack (eligible env) w.inv X (scanPositions env w.inv) = true
    · simp only [hh, if_true, Option.getD_some]
    · simp only [Bool.not_eq_true] at hh
      have h0 := stackUnits_sum_of_no_stack _ _ _ _ hh
      unfold carriedUnits
      simp only [hh, Bool.false_eq_true, if_false, h0, Nat.add_zero]
  · intro hh
    rw [hamt]
    simp only [hh, if_true]
  · intro p hp it hit hel
    exact scan_removes env (fun _ => true) p it _ _ hnd hp hit
      (by rw [counted_true]; exact hel)
  · intro hh
    refine ⟨by rw [hamt]; simp only [hh, Bool.false_eq_true, if_false], ?_⟩
    have hkept := deposit_subclassOf_kept env (fun _ => true) (GetStorageKeys env player).1
      (GetStorageKeys env player).2 (depositAllStart env player w) w.db X
      (depositAllStart_sorted env player w) hnd (Or.inr (by rw [counted_true]; exact hh))
    rw [hinv] at hkept
    rw [hkept]
    have hscan := scan_amount env (fun _ => true) w.inv X (scanPositions env w.inv)
      (depositAllStart env player w) hnd (fun _ _ => rfl)
      (by rw [hstart, counted_true]; exact hfit)
    rw [hscan, counted_true, hstart]
    simp only [hh, Bool.false_eq_true, if_false]
    rw [depositAllStart_subclass env player w X hu]
    rw [amountOf_eq_rowOf, subclassOf_eq_rowOf]
    cases Table.rowOf w.db (GetStorageKeys env player).1 (GetStorageKeys env player).2 X <;> rfl

/-- `DepositAllReagents` on the example configuration: 5 stored units and
carried stacks of 20 and 3 make 28, and the stacks are gone. -/
theorem DepositAllReagents_spec_witness :
    ((DepositAllReagents exampleEnv examplePlayer
        { db := [clothRow 5], inv := packOf linenCloth [20, 3], log := [] }).db.amountOf
          0 7 2589).getD 0 = 28
      ∧ (DepositAllReagents exampleEnv examplePlayer
          { db := [clothRow 5], inv := packOf linenCloth [20, 3], log := [] }).inv.items 255 24
          = none := by
  have h := DepositAllReagents_spec exampleEnv examplePlayer
    { db := [clothRow 5], inv := packOf linenCloth [20, 3], log := [] } 2589
    (by decide) (by decide) (by decide)
  exact ⟨h.1, h.2.2.1 (255, 24) (by decide) { template := linenCloth, count := 3 } rfl rfl⟩

/-! ## Deposits grant nothing -/

theorem grantedUnits_sysMessages (f : Nat × Nat → Msg) (l : List (Nat × Nat)) (e : Nat) :
    grantedUnits (l.map (fun q => Event.sysMessage (f q))) e = 0 := by
  induction l with
  | nil => rfl
  | cons q l ih => simpa [grantedUnits] using ih

theorem grantedUnits_depositFeedback (env : Env) (m : Msg) (s : DepositState) (e : Nat) :
    grantedUnits (depositFeedback env m s) e = 0 := by
  unfold depositFeedback
  by_cases h : s.itemsAddedMap.length ≠ 0
  · rw [if_pos h]
    simp only [grantedUnits]
    exact grantedUnits_sysMessages
      (fun q => Msg.depositedLine q.2 (depositName env q.1)) s.itemsAddedMap e
  · rw [if_neg h]
    rfl

theorem depositStep_granted (env : Env) (P : ItemTemplate → Bool) (s : DepositState)
    (p : Nat × Nat) (e : Nat) :
    grantedUnits (depositStep env P s p).log e = grantedUnits s.log e := by
  unfold depositStep
  cases s.inv.items p.1 p.2 with
  | none => rfl
  | some it =>
    simp only
    by_cases hP : P it.template = true
    · rw [if_pos hP]
      by_cases he : eligible env it.template = true
      · rw [UpdateItemCount_eligible env s it _ _ he]
        simp only
        rw [grantedUnits_append]
        simp [grantedUnits]
      · simp only [Bool.not_eq_true] at he
        rw [UpdateItemCount_not_eligible env s it _ _ he]
    · rw [if_neg hP]

theorem foldl_depositStep_granted (env : Env) (P : ItemTemplate → Bool) (e : Nat)
    (ps : List (Nat × Nat)) :
    ∀ s : DepositState, grantedUnits (ps.foldl (depositStep env P) s).log e
      = grantedUnits s.log e := by
  induction ps with
  | nil => intro s; rfl
  | cons p ps ih => intro s; rw [List.foldl_cons, ih, depositStep_granted]

theorem DepositAllReagents_granted (env : Env) (player : Player) (w : World) (e : Nat) :
    grantedUnits (DepositAllReagents env player w).log e = grantedUnits w.log e := by
  rw [DepositAllReagents_eq]
  simp only
  rw [grantedUnits_append, grantedUnits_depositFeedback, foldl_depositStep_granted]
  unfold depositAllStart
  simp only
  rw [grantedUnits_append]
  simp [grantedUnits]

theorem DepositAllReagentsForCategory_granted (env : Env) (player : Player) (c : Nat)
    (w : World) (e : Nat) :
    grantedUnits (DepositAllReagentsForCategory env player c w).log e = grantedUnits w.log e := by
  rw [DepositAllReagentsForCategory_eq]
  simp only
  rw [grantedUnits_append, grantedUnits_append, grantedUnits_depositFeedback,
    foldl_depositStep_granted]
  unfold depositCategoryStart
  simp [grantedUnits]

theorem hasStack_of_units_pos (P : ItemTemplate → Bool) (inv : Inventory) (X : Nat)
    (ps : List (Nat × Nat)) (h : 0 < (ps.map (stackUnits P inv X)).sum) :
    hasStack P inv X ps = true := by
  by_contra hc
  simp only [Bool.not_eq_true] at hc
  rw [stackUnits_sum_of_no_stack P inv X ps hc] at h
  exact Nat.lt_irrefl 0 h

/-- The stored quantity of `X` after `DepositAllReagentsForCategory`: the
counts of its carried stacks of that category alone when there are any, the
prior quantity when there are none. -/
theorem DepositAllReagentsForCategory_amountOf (env : Env) (player : Player) (c : Nat)
    (w : World) (X : Nat) (hslots : env.slotsDisjoint)
    (hfit : carriedUnits env (eligibleIn env c) w.inv X < 4294967296) :
    (DepositAllReagentsForCategory env player c w).db.amountOf
        (GetStorageKeys env player).1 (GetStorageKeys env player).2 X
      = if hasStack (eligibleIn env c) w.inv X (scanPositions env w.inv) = true then
          some (carriedUnits env (eligibleIn env c) w.inv X)
        else w.db.amountOf (GetStorageKeys env player).1 (GetStorageKeys env player).2 X := by
  have hamt := deposit_amountOf env (eligibleIn env c) (GetStorageKeys env player).1
    (GetStorageKeys env player).2 (depositCategoryStart w) w.db X List.Pairwise.nil
    (scanPositions_nodup env w.inv hslots)
    (by
      rw [counted_eligibleIn]
      simpa [depositCategoryStart, StdMap.find] using hfit)
  rw [counted_eligibleIn] at hamt
  have hinv : (depositCategoryStart w).inv = w.inv := rfl
  have hfind : (depositCategoryStart w).entryToAmountMap.find X = none := rfl
  rw [hinv, hfind] at hamt
  rw [DepositAllReagentsForCategory_eq]
  simp only
  rw [hamt]
  simp

/-- The stored quantity of `X` after `DepositAllReagents`. -/
theorem DepositAllReagents_amountOf (env : Env) (player : Player) (w : World) (X : Nat)
    (hu : w.db.UniqueKeys) (hslots : env.slotsDisjoint)
    (hfit : (w.db.amountOf (GetStorageKeys env player).1 (GetStorageKeys env player).2 X).getD 0
      + carriedUnits env (eligible env) w.inv X < 4294967296) :
    (DepositAllReagents env player w).db.amountOf
        (GetStorageKeys env player).1 (GetStorageKeys env player).2 X
      = if hasStack (eligible env) w.inv X (scanPositions env w.inv) = true then
          some ((w.db.amountOf (GetStorageKeys env player).1
              (GetStorageKeys env player).2 X).getD 0
            + carriedUnits env (eligible env) w.inv X)
        else w.db.amountOf (GetStorageKeys env player).1 (GetStorageKeys env player).2 X := by
  have hstart := depositAllStart_amount env player w X hu
  have hamt := deposit_amountOf env (fun _ => true) (GetStorageKeys env player).1
    (GetStorageKeys env player).2 (depositAllStart env player w) w.db X
    (depositAllStart_sorted env player w) (scanPositions_nodup env w.inv hslots)
    (by rw [hstart, counted_true]; exact hfit)
  rw [hstart, counted_true] at hamt
  have hinv : (depositAllStart env player w).inv = w.inv := rfl
  rw [hinv] at hamt
  have hor : ∀ o : Option Nat, o.or o = o := by
    intro o; cases o <;> rfl
  rw [hor] at hamt
  rw [DepositAllReagents_eq]
  exact hamt

/-! ## Deposit of a single category -/

/-- C7, the code at the failing input: with 5 Linen Cloth stored and one
carried stack of 3, `DepositAllReagentsForCategory` on the cloth category
removes the stack and leaves 3 stored, not 8; `DepositAllReagents` on the same
input leaves 8. -/
theorem DepositAllReagentsForCategory_overwrites :
    (DepositAllReagentsForCategory exampleEnv examplePlayer 5
        { db := [clothRow 5], inv := packOf linenCloth [3], log := [] }).db.amountOf 0 7 2589
        = some 3
      ∧ (DepositAllReagentsForCategory exampleEnv examplePlayer 5
          { db := [clothRow 5], inv := packOf linenCloth [3], log := [] }).inv.items 255 23
          = none
      ∧ (DepositAllReagents exampleEnv examplePlayer
          { db := [clothRow 5], inv := packOf linenCloth [3], log := [] }).db.amountOf 0 7 2589
          = some 8 := by
  refine ⟨?_, ?_, ?_⟩ <;> rfl

/-! ## Round trip -/

/-- C8 as stated fails: three carried stacks of Bulk Dust (stack size
`0x7FFFFFFE`) total `N = 4294967296` units; `DepositAllReagents` adds them in
32 bits and stores the row with quantity 0, and `WithdrawAllOfItem`, with
room for everything, then grants nothing and leaves that row in the table. -/
theorem roundTrip_overflow_counterexample :
    carriedUnits exampleEnv (eligible exampleEnv)
        (packOf bulkDust [2147483646, 2147483646, 4]) 90001 = 4294967296
      ∧ Table.amountOf ([] : Table) 0 7 90001 = none
      ∧ (firstFreeSlot (DepositAllReagents exampleEnv examplePlayer
          { db := [], inv := packOf bulkDust [2147483646, 2147483646, 4], log := [] }).inv)
          = some 23
      ∧ (WithdrawAllOfItem exampleEnv examplePlayer 90001
          (DepositAllReagents exampleEnv examplePlayer
            { db := [], inv := packOf bulkDust [2147483646, 2147483646, 4], log := [] })).map
          (fun w2 => (grantedUnits w2.log 90001, w2.db.amountOf 0 7 90001))
          = some (0, some 0) := by
  refine ⟨by decide, rfl, by decide, by decide⟩

/-- C8, amended: starting without a row for `X`, a deposit of carried stacks
of `X` totalling `N` units with `1 ≤ N < 2^32` (by `DepositAllReagents`, or by
`DepositAllReagentsForCategory` on the category `c` of those stacks), followed
by `WithdrawAllOfItem` on `X` with every capacity check succeeding, grants
exactly `N` units of `X` and leaves no row for `X`. -/
theorem deposit_then_withdrawAll (env : Env) (player : Player) (w : World) (X : Nat)
    (temp : ItemTemplate) (N c : Nat)
    (hu : w.db.UniqueKeys) (hslots : env.slotsDisjoint)
    (htemp : env.GetItemTemplate X = some temp) (hS : 1 ≤ temp.MaxStackSize)
    (hnone : w.db.amountOf (GetStorageKeys env player).1 (GetStorageKeys env player).2 X = none)
    (hN : 1 ≤ N) (hN32 : N < 4294967296) :
    (carriedUnits env (eligible env) w.inv X = N →
      acceptsAll env X (DepositAllReagents env player w).inv (specStacks N temp.MaxStackSize)
        = true →
      ∃ w2, WithdrawAllOfItem env player X (DepositAllReagents env player w) = some w2
        ∧ w2.log = (DepositAllReagents env player w).log
            ++ (specStacks N temp.MaxStackSize).map (Event.newItem X)
            ++ [Event.sysMessage (Msg.withdrew N temp.Name1)]
        ∧ grantedUnits w2.log X = grantedUnits w.log X + N
        ∧ w2.db.amountOf (GetStorageKeys env player).1 (GetStorageKeys env player).2 X = none)
    ∧ (carriedUnits env (eligibleIn env c) w.inv X = N →
      acceptsAll env X (DepositAllReagentsForCategory env player c w).inv
        (specStacks N temp.MaxStackSize) = true →
      ∃ w2, WithdrawAllOfItem env player X (DepositAllReagentsForCategory env player c w)
          = some w2
        ∧ w2.log = (DepositAllReagentsForCategory env player c w).log
            ++ (specStacks N temp.MaxStackSize).map (Event.newItem X)
            ++ [Event.sysMessage (Msg.withdrew N temp.Name1)]
        ∧ grantedUnits w2.log X = grantedUnits w.log X + N
        ∧ w2.db.amountOf (GetStorageKeys env player).1 (GetStorageKeys env player).2 X
            = none) := by
  constructor
  · intro hunits hok
    have hhas : hasStack (eligible env) w.inv X (scanPositions env w.inv) = true :=
      hasStack_of_units_pos _ _ _ _ (by
        have : carriedUnits env (eligible env) w.inv X
            = ((scanPositions env w.inv).map (stackUnits (eligible env) w.inv X)).sum := rfl
        omega)
    have hstored : (DepositAllReagents env player w).db.amountOf
        (GetStorageKeys env player).1 (GetStorageKeys env player).2 X = some N := by
      rw [DepositAllReagents_amountOf env player w X hu hslots
        (by rw [hnone, hunits]; simpa using hN32)]
      simp [hhas, hnone, hunits]
    have hrun := WithdrawAllOfItem_complete_run env player X (DepositAllReagents env player w)
      temp N htemp hN hN32 hS hstored hok
    refine ⟨_, hrun, rfl, ?_, amountOf_delete_self _ _ _ _⟩
    simp only
    rw [grantedUnits_append, grantedUnits_append, grantedUnits_newItems,
      specStacks_sum N _ hN hS, DepositAllReagents_granted]
    simp [grantedUnits]
  · intro hunits hok
    have hhas : hasStack (eligibleIn env c) w.inv X (scanPositions env w.inv) = true :=
      hasStack_of_units_pos _ _ _ _ (by
        have : carriedUnits env (eligibleIn env c) w.inv X
            = ((scanPositions env w.inv).map (stackUnits (eligibleIn env c) w.inv X)).sum := rfl
        omega)
    have hstored : (DepositAllReagentsForCategory env player c w).db.amountOf
        (GetStorageKeys env player).1 (GetStorageKeys env player).2 X = some N := by
      rw [DepositAllReagentsForCategory_amountOf env player c w X hslots
        (by rw [hunits]; exact hN32)]
      simp [hhas, hunits]
    have hrun := WithdrawAllOfItem_complete_run env player X
      (DepositAllReagentsForCategory env player c w) temp N htemp hN hN32 hS hstored hok
    refine ⟨_, hrun, rfl, ?_, amountOf_delete_self _ _ _ _⟩
    simp only
    rw [grantedUnits_append, grantedUnits_append, grantedUnits_newItems,
      specStacks_sum N _ hN hS, DepositAllReagentsForCategory_granted]
    simp [grantedUnits]

/-- The round trip on the example configuration, by both deposits: 45 units
in, 45 units out, no row left. -/
theorem deposit_then_withdrawAll_witness :
    (∃ w2, WithdrawAllOfItem exampleEnv examplePlayer 2589
        (DepositAllReagents exampleEnv examplePlayer
          { db := [], inv := packOf linenCloth [20, 20, 5], log := [] }) = some w2
      ∧ grantedUnits w2.log 2589 = 45 ∧ w2.db.amountOf 0 7 2589 = none)
    ∧ (∃ w2, WithdrawAllOfItem exampleEnv examplePlayer 2589
        (DepositAllReagentsForCategory exampleEnv examplePlayer 5
          { db := [], inv := packOf linenCloth [20, 20, 5], log := [] }) = some w2
      ∧ grantedUnits w2.log 2589 = 45 ∧ w2.db.amountOf 0 7 2589 = none) := by
  have h := deposit_then_withdrawAll exampleEnv examplePlayer
    { db := [], inv := packOf linenCloth [20, 20, 5], log := [] } 2589 linenCloth 45 5
    List.Pairwise.nil (by decide) rfl (by decide) rfl (by decide) (by decide)
  obtain ⟨w2, h1, _, h3, h4⟩ := h.1 (by decide) (by decide)
  obtain ⟨w3, k1, _, k3, k4⟩ := h.2 (by decide) (by decide)
  exact ⟨⟨w2, h1, h3, h4⟩, ⟨w3, k1, k3, k4⟩⟩

/-! ## Gems -/

/-- C10 as stated fails: with a stored row that files Tigerseye (a gem with
stacks of 20) under subclass 5, a carried stack of 3 Tigerseye is deposited
by `DepositAllReagents` into that row, whose category stays 5 and is not
`ITEM_SUBCLASS_JEWELCRAFTING`. -/
theorem gem_category_counterexample :
    tigerseye.Class = exampleEnv.ITEM_CLASS_GEM
      ∧ tigerseye.MaxStackSize > 1
      ∧ (packOf tigerseye [3]).items 255 23 = some { template := tigerseye, count := 3 }
      ∧ (DepositAllReagents exampleEnv examplePlayer
          { db := [gemRowNative 2], inv := packOf tigerseye [3], log := [] }).db.rowOf 0 7 818
          = some { account_id := 0, guid := 7, item_entry := 818, item_subclass := 5,
                   amount := 5 }
      ∧ (DepositAllReagents exampleEnv examplePlayer
          { db := [gemRowNative 2], inv := packOf tigerseye [3], log := [] }).db.subclassOf
            0 7 818 ≠ some exampleEnv.ITEM_SUBCLASS_JEWELCRAFTING := by
  refine ⟨rfl, by decide, rfl, rfl, by decide⟩

/-- C10, amended: for a carried gem-class stack with maximum stack size above
1, the carried stacks of its item id sharing its template, if the table
(with unique keys) has no row for the item, or has one already filed under
`ITEM_SUBCLASS_JEWELCRAFTING`, then after `DepositAllReagents` there is a row
for the item and its category is `ITEM_SUBCLASS_JEWELCRAFTING`, whatever the
gem's own subclass. -/
theorem gem_lands_under_jewelcrafting (env : Env) (player : Player) (w : World)
    (p : Nat × Nat) (it : Item)
    (hu : w.db.UniqueKeys) (hslots : env.slotsDisjoint)
    (hp : p ∈ scanPositions env w.inv) (hit : w.inv.items p.1 p.2 = some it)
    (hgem : it.template.Class = env.ITEM_CLASS_GEM) (hstack : it.template.MaxStackSize > 1)
    (hsame : ∀ q ∈ scanPositions env w.inv, ∀ it', w.inv.items q.1 q.2 = some it' →
      it'.template.ItemId = it.template.ItemId → it'.template = it.template)
    (hprior : w.db.subclassOf (GetStorageKeys env player).1 (GetStorageKeys env player).2
        it.template.ItemId = none
      ∨ w.db.subclassOf (GetStorageKeys env player).1 (GetStorageKeys env player).2
        it.template.ItemId = some env.ITEM_SUBCLASS_JEWELCRAFTING) :
    (DepositAllReagents env player w).db.subclassOf
        (GetStorageKeys env player).1 (GetStorageKeys env player).2 it.template.ItemId
      = some env.ITEM_SUBCLASS_JEWELCRAFTING := by
  have hnd : (scanPositions env (depositAllStart env player w).inv).Nodup :=
    scanPositions_nodup env w.inv hslots
  have hinv : (depositAllStart env player w).inv = w.inv := rfl
  have hel : eligible env it.template = true := by
    unfold eligible
    simp only [decide_eq_true_eq]
    exact ⟨Or.inr hgem, by omega⟩
  have hcat : categoryOf env it.template = env.ITEM_SUBCLASS_JEWELCRAFTING := by
    unfold categoryOf
    rw [if_pos hgem]
  have hhas : hasStack (counted env (fun _ => true)) w.inv it.template.ItemId
      (scanPositions env w.inv) = true := by
    unfold hasStack
    rw [List.any_eq_true]
    refine ⟨p, hp, ?_⟩
    rw [hit, counted_true]
    simp [hel]
  rw [DepositAllReagents_eq]
  simp only
  rcases hprior with hnone | hjc
  · have hamt0 : (depositAllStart env player w).entryToAmountMap.find it.template.ItemId
        = none := by
      rw [depositAllStart_amount env player w _ hu, amountOf_eq_rowOf]
      rw [subclassOf_eq_rowOf] at hnone
      cases hrow : Table.rowOf w.db (GetStorageKeys env player).1 (GetStorageKeys env player).2
          it.template.ItemId with
      | none => rfl
      | some r => rw [hrow] at hnone; cases hnone
    exact deposit_subclassOf_new env (fun _ => true) _ _ (depositAllStart env player w) w.db
      it.template.ItemId env.ITEM_SUBCLASS_JEWELCRAFTING (depositAllStart_sorted env player w)
      hnd hamt0 hhas
      (fun q hq it' hit' _ hid => by rw [hsame q hq it' hit' hid]; exact hcat)
  · have hamt0 : (depositAllStart env player w).entryToAmountMap.find it.template.ItemId
        ≠ none := by
      rw [depositAllStart_amount env player w _ hu, amountOf_eq_rowOf]
      rw [subclassOf_eq_rowOf] at hjc
      cases hrow : Table.rowOf w.db (GetStorageKeys env player).1 (GetStorageKeys env player).2
          it.template.ItemId with
      | none => rw [hrow] at hjc; cases hjc
      | some r => simp
    have hkept := deposit_subclassOf_kept env (fun _ => true) (GetStorageKeys env player).1
      (GetStorageKeys env player).2 (depositAllStart env player w) w.db it.template.ItemId
      (depositAllStart_sorted env player w) hnd (Or.inl hamt0)
    rw [hinv] at hkept
    rw [hkept, depositAllStart_subclass env player w _ hu, hjc]
    have hsome := scan_amount_isSome env (fun _ => true) it.template.ItemId
      (scanPositions env w.inv) (depositAllStart env player w) hamt0
    cases hf : ((scanPositions env w.inv).foldl (depositStep env (fun _ => true))
        (depositAllStart env player w)).entryToAmountMap.find it.template.ItemId with
    | none => exact absurd hf hsome
    | some v => rfl

/-- A carried Tigerseye stack, deposited without a prior row, is filed under
jewelcrafting (4), not under its own subclass (5). -/
theorem gem_lands_under_jewelcrafting_witness :
    (DepositAllReagents exampleEnv examplePlayer
        { db := [clothRow 5], inv := packOf tigerseye [3], log := [] }).db.subclassOf 0 7 818
      = some 4 :=
  gem_lands_under_jewelcrafting exampleEnv examplePlayer
    { db := [clothRow 5], inv := packOf tigerseye [3], log := [] } (255, 23)
    { template := tigerseye, count := 3 } (by decide) (by decide)
    (by decide) rfl rfl (by decide)
    (by
      intro q _ it' hit' _
      have hq : (packOf tigerseye [3]).items q.1 q.2 = some it' := hit'
      unfold packOf at hq
      simp only at hq
      by_cases hc : q.1 = 255 ∧ 23 ≤ q.2
      · rw [if_pos hc] at hq
        cases hg : [3].get? (q.2 - 23) with
        | none => rw [hg] at hq; cases hq
        | some c =>
          rw [hg] at hq
          simp only [Option.map_some', Option.some.injEq] at hq
          rw [← hq]
      · rw [if_neg hc] at hq
        cases hq)
    (Or.inl (by decide))

/-! ## No row with quantity 0 -/

theorem WithdrawOne_noZero (env : Env) (player : Player) (entry : Nat) (w : World)
    (h : w.db.NoZero) : (WithdrawOne env player entry w).db.NoZero := by
  unfold WithdrawOne
  simp only
  cases w.db.selectAmount (GetStorageKeys env player).1 (GetStorageKeys env player).2 entry with
  | nil => exact h
  | cons stored rest =>
    simp only
    by_cases h0 : stored = 0
    · rw [if_pos h0]; exact h
    · rw [if_neg h0]
      cases env.GetItemTemplate entry with
      | none => exact h
      | some temp =>
        simp only
        by_cases hc : env.CanStoreNewItem w.inv entry 1 = false
        · rw [if_pos hc]; exact h
        · rw [if_neg hc]
          simp only
          by_cases h1 : stored = 1
          · rw [if_pos h1]; exact noZero_delete _ _ _ _ h
          · rw [if_neg h1]; exact noZero_update _ _ _ _ _ h (by omega)

theorem WithdrawStack_noZero (env : Env) (player : Player) (entry : Nat) (w : World)
    (h : w.db.NoZero) : (WithdrawStack env player entry w).db.NoZero := by
  unfold WithdrawStack
  simp only
  cases w.db.selectAmount (GetStorageKeys env player).1 (GetStorageKeys env player).2 entry with
  | nil => exact h
  | cons stored rest =>
    simp only
    by_cases h0 : stored = 0
    · rw [if_pos h0]; exact h
    · rw [if_neg h0]
      cases env.GetItemTemplate entry with
      | none => exact h
      | some temp =>
        simp only
        by_cases hc : env.CanStoreNewItem w.inv entry (min temp.MaxStackSize stored) = false
        · rw [if_pos hc]; exact h
        · rw [if_neg hc]
          simp only
          by_cases h1 : min temp.MaxStackSize stored = stored
          · rw [if_pos h1]; exact noZero_delete _ _ _ _ h
          · rw [if_neg h1]
            apply noZero_update _ _ _ _ _ h
            have := Nat.min_le_right temp.MaxStackSize stored
            omega

theorem WithdrawAllOfItem_noZero (env : Env) (player : Player) (entry : Nat) (w w' : World)
    (h : w.db.NoZero) (hrun : WithdrawAllOfItem env player entry w = some w') :
    w'.db.NoZero := by
  unfold WithdrawAllOfItem at hrun
  simp only at hrun
  cases hsel : w.db.selectAmount (GetStorageKeys env player).1 (GetStorageKeys env player).2
      entry with
  | nil =>
    rw [hsel] at hrun
    injection hrun with hrun
    rw [← hrun]; exact h
  | cons stored rest =>
    rw [hsel] at hrun
    simp only at hrun
    by_cases h0 : stored = 0
    · rw [if_pos h0] at hrun
      injection hrun with hrun
      rw [← hrun]; exact h
    · rw [if_neg h0] at hrun
      cases htemp : env.GetItemTemplate entry with
      | none =>
        rw [htemp] at hrun
        injection hrun with hrun
        rw [← hrun]; exact h
      | some temp =>
        rw [htemp] at hrun
        simp only at hrun
        cases hloop : grantLoop env entry temp.MaxStackSize temp.Name1 stored
            { inv := w.inv, log := w.log, givenTotal := 0, remaining := stored } with
        | none => rw [hloop] at hrun; cases hrun
        | some s =>
          rw [hloop] at hrun
          injection hrun with hrun
          rw [← hrun]
          simp only
          by_cases hr : s.remaining = 0
          · rw [if_pos hr]; exact noZero_delete _ _ _ _ h
          · rw [if_neg hr]; exact noZero_update _ _ _ _ _ h hr

theorem categoryGrantLoop_noZero (env : Env) (a g itemEntry stackSize : Nat) (name : String) :
    ∀ (fuel remaining : Nat) (s s' : CategoryState), s.db.NoZero →
      categoryGrantLoop env a g itemEntry stackSize name fuel remaining s = some s' →
      s'.db.NoZero := by
  intro fuel
  induction fuel with
  | zero =>
    intro remaining s s' h hrun
    unfold categoryGrantLoop at hrun
    by_cases hr : remaining > 0
    · rw [if_pos hr] at hrun; cases hrun
    · rw [if_neg hr] at hrun
      injection hrun with hrun
      rw [← hrun]; exact h
  | succ fuel ih =>
    intro remaining s s' h hrun
    unfold categoryGrantLoop at hrun
    by_cases hr : remaining > 0
    · rw [if_pos hr] at hrun
      simp only at hrun
      by_cases hc : env.CanStoreNewItem s.inv itemEntry (min stackSize remaining) = true
      · rw [if_pos hc] at hrun
        refine ih _ _ s' ?_ hrun
        simp only
        by_cases h1 : min stackSize remaining = remaining
        · rw [if_pos h1]; exact noZero_delete _ _ _ _ h
        · rw [if_neg h1]
          apply noZero_update _ _ _ _ _ h
          have := Nat.min_le_right stackSize remaining
          omega
      · rw [if_neg hc] at hrun
        injection hrun with hrun
        rw [← hrun]; exact h
    · rw [if_neg hr] at hrun
      injection hrun with hrun
      rw [← hrun]; exact h

theorem categoryRows_noZero (env : Env) (a g : Nat) :
    ∀ (rows : List (Nat × Nat)) (s s' : CategoryState), s.db.NoZero →
      categoryRows env a g rows s = some s' → s'.db.NoZero := by
  intro rows
  induction rows with
  | nil =>
    intro s s' h hrun
    unfold categoryRows at hrun
    injection hrun with hrun
    rw [← hrun]; exact h
  | cons row rows ih =>
    intro s s' h hrun
    obtain ⟨itemEntry, amount⟩ := row
    unfold categoryRows at hrun
    cases htemp : env.GetItemTemplate itemEntry with
    | none =>
      rw [htemp] at hrun
      exact ih s s' h hrun
    | some temp =>
      rw [htemp] at hrun
      simp only at hrun
      cases hloop : categoryGrantLoop env a g itemEntry temp.MaxStackSize temp.Name1
          amount amount s with
      | none => rw [hloop] at hrun; cases hrun
      | some s1 =>
        rw [hloop] at hrun
        exact ih s1 s' (categoryGrantLoop_noZero env a g itemEntry _ _ _ _ s s1 h hloop) hrun

theorem WithdrawAllInCategory_noZero (env : Env) (player : Player) (c : Nat) (w w' : World)
    (h : w.db.NoZero) (hrun : WithdrawAllInCategory env player c w = some w') :
    w'.db.NoZero := by
  unfold WithdrawAllInCategory at hrun
  simp only at hrun
  cases hsel : w.db.selectCategory (GetStorageKeys env player).1 (GetStorageKeys env player).2 c
    with
  | nil =>
    rw [hsel] at hrun
    injection hrun with hrun
    rw [← hrun]; exact h
  | cons row rows =>
    rw [hsel] at hrun
    simp only at hrun
    cases hrows : categoryRows env (GetStorageKeys env player).1 (GetStorageKeys env player).2
        (row :: rows) { db := w.db, inv := w.inv, log := w.log, anyWithdrawn := false } with
    | none => rw [hrows] at hrun; cases hrun
    | some s =>
      rw [hrows] at hrun
      injection hrun with hrun
      rw [← hrun]
      exact categoryRows_noZero env _ _ _ _ s h hrows

theorem mem_of_find (m : StdMap) (k v : Nat) (h : m.find k = some v) : (k, v) ∈ m := by
  induction m with
  | nil => simp [StdMap.find] at h
  | cons q m ih =>
    obtain ⟨k', v'⟩ := q
    simp only [StdMap.find] at h
    by_cases hk : k' = k
    · rw [if_pos hk] at h
      injection h with h
      rw [hk, h]
      exact List.mem_cons_self _ _
    · rw [if_neg hk] at h
      exact List.mem_cons_of_mem _ (ih h)

theorem units_pos_of_hasStack (P : ItemTemplate → Bool) (inv : Inventory) (X : Nat)
    (ps : List (Nat × Nat)) (h : hasStack P inv X ps = true)
    (hcount : ∀ p ∈ ps, ∀ it, inv.items p.1 p.2 = some it → 1 ≤ it.count) :
    1 ≤ (ps.map (stackUnits P inv X)).sum := by
  induction ps with
  | nil => simp [hasStack] at h
  | cons p ps ih =>
    rw [hasStack_cons, Bool.or_eq_true] at h
    rw [List.map_cons, List.sum_cons]
    rcases h with h | h
    · cases hit : inv.items p.1 p.2 with
      | none => rw [hit] at h; cases h
      | some it =>
        rw [hit] at h
        simp only [Bool.and_eq_true, decide_eq_true_eq] at h
        have hc := hcount p (List.mem_cons_self _ _) it hit
        have : stackUnits P inv X p = it.count := by
          unfold stackUnits
          rw [hit]
          simp only
          rw [if_pos h]
        omega
    · have := ih h (fun q hq => hcount q (List.mem_cons_of_mem _ hq))
      omega

theorem sum_map_le (ps : List (Nat × Nat)) (f g : Nat × Nat → Nat) (h : ∀ p ∈ ps, f p ≤ g p) :
    (ps.map f).sum ≤ (ps.map g).sum := by
  induction ps with
  | nil => exact Nat.le_refl _
  | cons p ps ih =>
    rw [List.map_cons, List.map_cons, List.sum_cons, List.sum_cons]
    have h1 := h p (List.mem_cons_self _ _)
    have h2 := ih (fun q hq => h q (List.mem_cons_of_mem _ hq))
    omega

theorem carriedUnits_eligibleIn_le (env : Env) (c : Nat) (inv : Inventory) (X : Nat) :
    carriedUnits env (eligibleIn env c) inv X ≤ carriedUnits env (eligible env) inv X := by
  unfold carriedUnits
  apply sum_map_le
  intro p _
  unfold stackUnits
  cases inv.items p.1 p.2 with
  | none => exact Nat.le_refl _
  | some it =>
    simp only
    by_cases h : eligibleIn env c it.template = true ∧ it.template.ItemId = X
    · have h2 : eligible env it.template = true ∧ it.template.ItemId = X := by
        refine ⟨?_, h.2⟩
        have := congrFun (counted_eligibleIn env c) it.template
        unfold counted at this
        rw [h.1] at this
        simpa using this
      rw [if_pos h, if_pos h2]
    · rw [if_neg h]
      exact Nat.zero_le _

/-- No total written back by a deposit is 0, when the stacks counted have at
least one unit and the running totals fit in 32 bits. -/
theorem deposit_noZero (env : Env) (P : ItemTemplate → Bool) (a g : Nat) (s0 : DepositState)
    (db : Table) (hs : s0.entryToAmountMap.Sorted) (hnd : (scanPositions env s0.inv).Nodup)
    (hdb : db.NoZero)
    (hcount : ∀ p ∈ scanPositions env s0.inv, ∀ it, s0.inv.items p.1 p.2 = some it →
      1 ≤ it.count)
    (hfit : ∀ X, (s0.entryToAmountMap.find X).getD 0
      + carriedUnits env (counted env P) s0.inv X < 4294967296)
    (hvals : ∀ q ∈ s0.entryToAmountMap, q.2 ≠ 0) :
    (writeDeposit a g ((scanPositions env s0.inv).foldl (depositStep env P) s0) db).NoZero := by
  rw [writeDeposit_eq]
  apply write_noZero a g
    (fun e => (((scanPositions env s0.inv).foldl (depositStep env P) s0).entryToSubclassMap.find
      e).getD 0) _ db hdb
  intro q hq
  obtain ⟨k, v⟩ := q
  have hfind := find_of_mem _ (foldl_depositStep_sorted env P _ s0 hs) k v hq
  rw [scan_amount env P s0.inv k (scanPositions env s0.inv) s0 hnd (fun _ _ => rfl) (hfit k)]
    at hfind
  by_cases hh : hasStack (counted env P) s0.inv k (scanPositions env s0.inv) = true
  · rw [if_pos hh] at hfind
    injection hfind with hfind
    have := units_pos_of_hasStack _ _ _ _ hh hcount
    simp only
    omega
  · rw [if_neg hh] at hfind
    exact hvals (k, v) (mem_of_find _ k v hfind)

theorem depositAllStart_values (env : Env) (player : Player) (w : World) (h : w.db.NoZero) :
    ∀ q ∈ (depositAllStart env player w).entryToAmountMap, q.2 ≠ 0 := by
  intro q hq
  unfold depositAllStart Table.selectOwner at hq
  simp only [List.foldl_map] at hq
  rw [← List.foldl_map (fun r : Row => (r.item_entry, r.amount))
    (fun m p => StdMap.set m p.1 p.2)] at hq
  rcases mem_foldl_set _ [] q hq with h1 | h1
  · rw [List.mem_map] at h1
    obtain ⟨r, hr, rfl⟩ := h1
    exact h r (List.mem_of_mem_filter hr)
  · cases h1

theorem DepositAllReagents_noZero (env : Env) (player : Player) (w : World)
    (hnz : w.db.NoZero) (hu : w.db.UniqueKeys) (hslots : env.slotsDisjoint)
    (hcount : ∀ p ∈ scanPositions env w.inv, ∀ it, w.inv.items p.1 p.2 = some it →
      1 ≤ it.count)
    (hfit : ∀ X, (w.db.amountOf (GetStorageKeys env player).1
        (GetStorageKeys env player).2 X).getD 0
      + carriedUnits env (eligible env) w.inv X < 4294967296) :
    (DepositAllReagents env player w).db.NoZero := by
  rw [DepositAllReagents_eq]
  exact deposit_noZero env (fun _ => true) _ _ (depositAllStart env player w) w.db
    (depositAllStart_sorted env player w) (scanPositions_nodup env w.inv hslots) hnz hcount
    (fun X => by rw [depositAllStart_amount env player w X hu, counted_true]; exact hfit X)
    (depositAllStart_values env player w hnz)

theorem DepositAllReagentsForCategory_noZero (env : Env) (player : Player) (c : Nat)
    (w : World) (hnz : w.db.NoZero) (hslots : env.slotsDisjoint)
    (hcount : ∀ p ∈ scanPositions env w.inv, ∀ it, w.inv.items p.1 p.2 = some it →
      1 ≤ it.count)
    (hfit : ∀ X, (w.db.amountOf (GetStorageKeys env player).1
        (GetStorageKeys env player).2 X).getD 0
      + carriedUnits env (eligible env) w.inv X < 4294967296) :
    (DepositAllReagentsForCategory env player c w).db.NoZero := by
  rw [DepositAllReagentsForCategory_eq]
  refine deposit_noZero env (eligibleIn env c) _ _ (depositCategoryStart w) w.db
    List.Pairwise.nil (scanPositions_nodup env w.inv hslots) hnz hcount ?_ ?_
  · intro X
    rw [counted_eligibleIn]
    have h1 := carriedUnits_eligibleIn_le env c w.inv X
    have h2 := hfit X
    have h3 : ((depositCategoryStart w).entryToAmountMap.find X).getD 0 = 0 := rfl
    have h4 : (depositCategoryStart w).inv = w.inv := rfl
    rw [h3, h4]
    omega
  · intro q hq
    cases hq

/-! ## The grant loops come to an end -/

theorem grantLoop_isSome (env : Env) (entry S : Nat) (name : String) (hS : 1 ≤ S) :
    ∀ (fuel : Nat) (s : GrantState), s.remaining ≤ fuel →
      ∃ s', grantLoop env entry S name fuel s = some s' := by
  intro fuel
  induction fuel with
  | zero =>
    intro s h
    have h0 : ¬ s.remaining > 0 := by omega
    exact ⟨s, by unfold grantLoop; rw [if_neg h0]⟩
  | succ fuel ih =>
    intro s h
    unfold grantLoop
    by_cases hr : s.remaining > 0
    · rw [if_pos hr]
      simp only
      by_cases hc : env.CanStoreNewItem s.inv entry (min S s.remaining) = false
      · rw [if_pos hc]
        exact ⟨_, rfl⟩
      · rw [if_neg hc]
        apply ih
        simp only
        have : 1 ≤ min S s.remaining := Nat.le_min.mpr ⟨hS, hr⟩
        omega
    · rw [if_neg hr]
      exact ⟨s, rfl⟩

theorem categoryGrantLoop_isSome (env : Env) (a g itemEntry S : Nat) (name : String)
    (hS : 1 ≤ S) :
    ∀ (fuel remaining : Nat) (s : CategoryState), remaining ≤ fuel →
      ∃ s', categoryGrantLoop env a g itemEntry S name fuel remaining s = some s' := by
  intro fuel
  induction fuel with
  | zero =>
    intro remaining s h
    have h0 : ¬ remaining > 0 := by omega
    exact ⟨s, by unfold categoryGrantLoop; rw [if_neg h0]⟩
  | succ fuel ih =>
    intro remaining s h
    unfold categoryGrantLoop
    by_cases hr : remaining > 0
    · rw [if_pos hr]
      simp only
      by_cases hc : env.CanStoreNewItem s.inv itemEntry (min S remaining) = true
      · rw [if_pos hc]
        apply ih
        have : 1 ≤ min S remaining := Nat.le_min.mpr ⟨hS, hr⟩
        omega
      · rw [if_neg hc]
        exact ⟨_, rfl⟩
    · rw [if_neg hr]
      exact ⟨s, rfl⟩

theorem categoryRows_isSome (env : Env) (a g : Nat)
    (hS : ∀ e t, env.GetItemTemplate e = some t → 1 ≤ t.MaxStackSize) :
    ∀ (rows : List (Nat × Nat)) (s : CategoryState),
      ∃ s', categoryRows env a g rows s = some s' := by
  intro rows
  induction rows with
  | nil => intro s; exact ⟨s, rfl⟩
  | cons row rows ih =>
    intro s
    obtain ⟨itemEntry, amount⟩ := row
    unfold categoryRows
    cases htemp : env.GetItemTemplate itemEntry with
    | none => exact ih s
    | some temp =>
      simp only
      obtain ⟨s1, hs1⟩ := categoryGrantLoop_isSome env a g itemEntry temp.MaxStackSize
        temp.Name1 (hS itemEntry temp htemp) amount amount s (Nat.le_refl _)
      rw [hs1]
      exact ih s1

theorem WithdrawAllOfItem_isSome (env : Env) (player : Player) (entry : Nat) (w : World)
    (hS : ∀ e t, env.GetItemTemplate e = some t → 1 ≤ t.MaxStackSize) :
    ∃ w', WithdrawAllOfItem env player entry w = some w' := by
  unfold WithdrawAllOfItem
  simp only
  cases w.db.selectAmount (GetStorageKeys env player).1 (GetStorageKeys env player).2 entry with
  | nil => exact ⟨w, rfl⟩
  | cons stored rest =>
    simp only
    by_cases h0 : stored = 0
    · rw [if_pos h0]; exact ⟨w, rfl⟩
    · rw [if_neg h0]
      cases htemp : env.GetItemTemplate entry with
      | none => exact ⟨w, rfl⟩
      | some temp =>
        simp only
        obtain ⟨s, hs⟩ := grantLoop_isSome env entry temp.MaxStackSize temp.Name1
          (hS entry temp htemp) stored
          { inv := w.inv, log := w.log, givenTotal := 0, remaining := stored } (Nat.le_refl _)
        rw [hs]
        exact ⟨_, rfl⟩

theorem WithdrawAllInCategory_isSome (env : Env) (player : Player) (c : Nat) (w : World)
    (hS : ∀ e t, env.GetItemTemplate e = some t → 1 ≤ t.MaxStackSize) :
    ∃ w', WithdrawAllInCategory env player c w = some w' := by
  unfold WithdrawAllInCategory
  simp only
  cases w.db.selectCategory (GetStorageKeys env player).1 (GetStorageKeys env player).2 c with
  | nil => exact ⟨_, rfl⟩
  | cons row rows =>
    simp only
    obtain ⟨s, hs⟩ := categoryRows_isSome env (GetStorageKeys env player).1
      (GetStorageKeys env player).2 hS (row :: rows)
      { db := w.db, inv := w.inv, log := w.log, anyWithdrawn := false }
    rw [hs]
    exact ⟨_, rfl⟩

/-! ## Facts about the example inventories -/

theorem packOf_item (t : ItemTemplate) (cs : List Nat) (b sl : Nat) (it : Item)
    (h : (packOf t cs).items b sl = some it) : it.template = t ∧ it.count ∈ cs := by
  unfold packOf at h
  simp only at h
  by_cases hc : b = 255 ∧ 23 ≤ sl
  · rw [if_pos hc] at h
    cases hg : cs.get? (sl - 23) with
    | none => rw [hg] at h; cases h
    | some c =>
      rw [hg] at h
      simp only [Option.map_some', Option.some.injEq] at h
      rw [← h]
      exact ⟨rfl, List.get?_mem hg⟩
  · rw [if_neg hc] at h
    cases h

theorem carriedUnits_eq_zero (env : Env) (P : ItemTemplate → Bool) (inv : Inventory) (X : Nat)
    (h : ∀ b sl it, inv.items b sl = some it → it.template.ItemId ≠ X) :
    carriedUnits env P inv X = 0 := by
  unfold carriedUnits
  apply List.sum_eq_zero
  intro n hn
  rw [List.mem_map] at hn
  obtain ⟨p, _, rfl⟩ := hn
  unfold stackUnits
  cases hit : inv.items p.1 p.2 with
  | none => rfl
  | some it =>
    simp only
    rw [if_neg]
    rintro ⟨_, hX⟩
    exact h p.1 p.2 it hit hX

/-! ## No row with quantity 0, all six operations -/

/-- C9 as stated fails: with 4294967295 Linen Cloth stored (no row has
quantity 0) and one carried stack of 1 unit, `DepositAllReagents` adds the
two in 32 bits and writes the row back with quantity 0. -/
theorem noZero_counterexample :
    Table.NoZero [clothRow 4294967295]
      ∧ (packOf linenCloth [1]).items 255 23 = some { template := linenCloth, count := 1 }
      ∧ (DepositAllReagents exampleEnv examplePlayer
          { db := [clothRow 4294967295], inv := packOf linenCloth [1], log := [] }).db
          = [clothRow 0]
      ∧ ¬ Table.NoZero (DepositAllReagents exampleEnv examplePlayer
          { db := [clothRow 4294967295], inv := packOf linenCloth [1], log := [] }).db := by
  have hdb : (DepositAllReagents exampleEnv examplePlayer
      { db := [clothRow 4294967295], inv := packOf linenCloth [1], log := [] }).db
      = [clothRow 0] := by decide
  refine ⟨by decide, rfl, hdb, ?_⟩
  rw [hdb]
  decide

/-- C9, amended: on a table with unique keys and no row of quantity 0, when
every carried stack has at least one unit and, for every item, the stored
quantity plus the carried units that pass the guard of `UpdateItemCount` fit
in 32 bits, each of the six operations that returns leaves a table with no
row of quantity 0; and each of them returns when every catalog item has a
stack size of at least 1. -/
theorem noZero_preserved (env : Env) (player : Player) (op : Op) (w : World)
    (hnz : w.db.NoZero) (hu : w.db.UniqueKeys) (hslots : env.slotsDisjoint)
    (hcount : ∀ p ∈ scanPositions env w.inv, ∀ it, w.inv.items p.1 p.2 = some it →
      1 ≤ it.count)
    (hfit : ∀ X, (w.db.amountOf (GetStorageKeys env player).1
        (GetStorageKeys env player).2 X).getD 0
      + carriedUnits env (eligible env) w.inv X < 4294967296) :
    (∀ w', runOp env player op w = some w' → w'.db.NoZero)
      ∧ ((∀ e t, env.GetItemTemplate e = some t → 1 ≤ t.MaxStackSize) →
          ∃ w', runOp env player op w = some w') := by
  cases op with
  | depositAll =>
    refine ⟨?_, fun _ => ⟨_, rfl⟩⟩
    intro w' hrun
    injection hrun with hrun
    rw [← hrun]
    exact DepositAllReagents_noZero env player w hnz hu hslots hcount hfit
  | depositCategory c =>
    refine ⟨?_, fun _ => ⟨_, rfl⟩⟩
    intro w' hrun
    injection hrun with hrun
    rw [← hrun]
    exact DepositAllReagentsForCategory_noZero env player c w hnz hslots hcount hfit
  | withdrawOne e =>
    refine ⟨?_, fun _ => ⟨_, rfl⟩⟩
    intro w' hrun
    injection hrun with hrun
    rw [← hrun]
    exact WithdrawOne_noZero env player e w hnz
  | withdrawStack e =>
    refine ⟨?_, fun _ => ⟨_, rfl⟩⟩
    intro w' hrun
    injection hrun with hrun
    rw [← hrun]
    exact WithdrawStack_noZero env player e w hnz
  | withdrawAllOfItem e =>
    exact ⟨fun w' hrun => WithdrawAllOfItem_noZero env player e w w' hnz hrun,
      fun hS => WithdrawAllOfItem_isSome env player e w hS⟩
  | withdrawAllInCategory c =>
    exact ⟨fun w' hrun => WithdrawAllInCategory_noZero env player c w w' hnz hrun,
      fun hS => WithdrawAllInCategory_isSome env player c w hS⟩

/-- On the example configuration a deposit leaves no row of quantity 0, and
`WithdrawAllOfItem` returns. -/
theorem noZero_preserved_witness :
    Table.NoZero (DepositAllReagents exampleEnv examplePlayer
        { db := [clothRow 5], inv := packOf linenCloth [3], log := [] }).db
      ∧ ∃ w', runOp exampleEnv examplePlayer (Op.withdrawAllOfItem 2589)
          { db := [clothRow 5], inv := packOf linenCloth [3], log := [] } = some w' := by
  have hnz : Table.NoZero [clothRow 5] := by decide
  have hcount : ∀ p ∈ scanPositions exampleEnv (packOf linenCloth [3]), ∀ it,
      (packOf linenCloth [3]).items p.1 p.2 = some it → 1 ≤ it.count := by
    intro p _ it hit
    have := (packOf_item linenCloth [3] p.1 p.2 it hit).2
    rw [List.mem_singleton] at this
    omega
  have hfit : ∀ X, (Table.amountOf [clothRow 5] (GetStorageKeys exampleEnv examplePlayer).1
        (GetStorageKeys exampleEnv examplePlayer).2 X).getD 0
      + carriedUnits exampleEnv (eligible exampleEnv) (packOf linenCloth [3]) X
        < 4294967296 := by
    intro X
    by_cases hX : X = 2589
    · subst hX
      decide
    · have h0 : carriedUnits exampleEnv (eligible exampleEnv) (packOf linenCloth [3]) X = 0 := by
        apply carriedUnits_eq_zero
        intro b sl it hit
        rw [(packOf_item linenCloth [3] b sl it hit).1]
        exact fun h => hX h.symm
      have h1 : Table.amountOf [clothRow 5] (GetStorageKeys exampleEnv examplePlayer).1
          (GetStorageKeys exampleEnv examplePlayer).2 X = none := by
        rw [amountOf_cons, if_neg, amountOf_nil]
        rw [hasKey_iff]
        rintro ⟨_, _, h⟩
        exact hX h.symm
      rw [h0, h1]
      decide
  have hdep := (noZero_preserved exampleEnv examplePlayer Op.depositAll
    { db := [clothRow 5], inv := packOf linenCloth [3], log := [] } hnz
    (by decide) (by decide) hcount hfit).1 _ rfl
  have hwd := (noZero_preserved exampleEnv examplePlayer (Op.withdrawAllOfItem 2589)
    { db := [clothRow 5], inv := packOf linenCloth [3], log := [] } hnz
    (by decide) (by decide) hcount hfit).2
    (by
      intro e t ht
      have ht' : exampleCatalog e = some t := ht
      unfold exampleCatalog at ht'
      by_cases h1 : e = 2589
      · rw [if_pos h1] at ht'; injection ht' with ht'; rw [← ht']; decide
      · rw [if_neg h1] at ht'
        by_cases h2 : e = 818
        · rw [if_pos h2] at ht'; injection ht' with ht'; rw [← ht']; decide
        · rw [if_neg h2] at ht'
          by_cases h3 : e = 6948
          · rw [if_pos h3] at ht'; injection ht' with ht'; rw [← ht']; decide
          · rw [if_neg h3] at ht'
            by_cases h4 : e = 90001
            · rw [if_pos h4] at ht'; injection ht' with ht'; rw [← ht']; decide
            · rw [if_neg h4] at ht'; cases ht')
  exact ⟨hdep, hwd⟩

/-! ## Adequacy of the bounded loops and of the category lookup -/

/-- A result of the grant loop does not depend on the bound: with one more
iteration allowed the loop returns the same state. -/
theorem grantLoop_fuel_succ (env : Env) (entry S : Nat) (name : String) :
    ∀ (fuel : Nat) (s r : GrantState), grantLoop env entry S name fuel s = some r →
      grantLoop env entry S name (fuel + 1) s = some r := by
  intro fuel
  induction fuel with
  | zero =>
    intro s r h
    unfold grantLoop at h
    by_cases hr : s.remaining > 0
    · rw [if_pos hr] at h; cases h
    · rw [if_neg hr] at h
      unfold grantLoop
      rw [if_neg hr]
      exact h
  | succ fuel ih =>
    intro s r h
    rw [grantLoop] at h
    rw [grantLoop]
    by_cases hr : s.remaining > 0
    · rw [if_pos hr] at h ⊢
      simp only at h ⊢
      by_cases hc : env.CanStoreNewItem s.inv entry (min S s.remaining) = false
      · rw [if_pos hc] at h ⊢
        exact h
      · rw [if_neg hc] at h ⊢
        exact ih _ r h
    · rw [if_neg hr] at h ⊢
      exact h

/-- A result of the per-item loop of `WithdrawAllInCategory` does not depend
on the bound. -/
theorem categoryGrantLoop_fuel_succ (env : Env) (a g itemEntry S : Nat) (name : String) :
    ∀ (fuel remaining : Nat) (s r : CategoryState),
      categoryGrantLoop env a g itemEntry S name fuel remaining s = some r →
      categoryGrantLoop env a g itemEntry S name (fuel + 1) remaining s = some r := by
  intro fuel
  induction fuel with
  | zero =>
    intro remaining s r h
    unfold categoryGrantLoop at h
    by_cases hr : remaining > 0
    · rw [if_pos hr] at h; cases h
    · rw [if_neg hr] at h
      unfold categoryGrantLoop
      rw [if_neg hr]
      exact h
  | succ fuel ih =>
    intro remaining s r h
    rw [categoryGrantLoop] at h
    rw [categoryGrantLoop]
    by_cases hr : remaining > 0
    · rw [if_pos hr] at h ⊢
      simp only at h ⊢
      by_cases hc : env.CanStoreNewItem s.inv itemEntry (min S remaining) = true
      · rw [if_pos hc] at h ⊢
        exact ih _ _ r h
      · rw [if_neg hc] at h ⊢
        exact h
    · rw [if_neg hr] at h ⊢
      exact h

theorem foldl_set_find_ne_none (l : List (Nat × Nat)) (k : Nat) :
    ∀ m : StdMap, (l.foldl (fun m p => m.set p.1 p.2) m).find k ≠ none
      ↔ ((∃ p ∈ l, p.1 = k) ∨ m.find k ≠ none) := by
  induction l with
  | nil => intro m; simp
  | cons q l ih =>
    intro m
    rw [List.foldl_cons, ih]
    by_cases hk : q.1 = k
    · rw [← hk]
      simp [find_set_self]
    · have hk' : k ≠ q.1 := fun h => hk h.symm
      rw [find_set_other m q.1 q.2 k hk']
      simp [hk]

/-- Every key of the amount map is a key of the category map, before and
after a scan that starts from the stored rows or from empty maps. -/
theorem scan_keys_covered (env : Env) (P : ItemTemplate → Bool) (ps : List (Nat × Nat)) :
    ∀ s : DepositState,
      (∀ k, s.entryToAmountMap.find k ≠ none → s.entryToSubclassMap.find k ≠ none) →
      ∀ k, (ps.foldl (depositStep env P) s).entryToAmountMap.find k ≠ none →
        (ps.foldl (depositStep env P) s).entryToSubclassMap.find k ≠ none := by
  induction ps with
  | nil => intro s h; exact h
  | cons p ps ih =>
    intro s h
    rw [List.foldl_cons]
    apply ih
    unfold depositStep
    cases s.inv.items p.1 p.2 with
    | none => exact h
    | some it =>
      simp only
      by_cases hP : P it.template = true
      · rw [if_pos hP]
        by_cases he : eligible env it.template = true
        · rw [UpdateItemCount_eligible env s it _ _ he]
          simp only
          intro k hk
          by_cases hX : k = it.template.ItemId
          · subst hX
            cases hf : s.entryToAmountMap.find it.template.ItemId with
            | none => simp [find_set_self]
            | some v => exact h _ (by rw [hf]; simp)
          · have hamt : s.entryToAmountMap.find k ≠ none := by
              cases hf : s.entryToAmountMap.find it.template.ItemId <;>
                (rw [hf] at hk; simp only at hk; rw [find_set_other _ _ _ _ hX] at hk; exact hk)
            cases hf : s.entryToAmountMap.find it.template.ItemId with
            | none =>
              simp only
              rw [find_set_other _ _ _ _ hX]
              exact h k hamt
            | some v => exact h k hamt
        · simp only [Bool.not_eq_true] at he
          rw [UpdateItemCount_not_eligible env s it _ _ he]
          exact h
      · rw [if_neg hP]
        exact h

theorem depositAllStart_keys_covered (env : Env) (player : Player) (w : World) (k : Nat)
    (h : (depositAllStart env player w).entryToAmountMap.find k ≠ none) :
    (depositAllStart env player w).entryToSubclassMap.find k ≠ none := by
  unfold depositAllStart Table.selectOwner at h ⊢
  simp only [List.foldl_map] at h ⊢
  rw [← List.foldl_map (fun r : Row => (r.item_entry, r.amount))
    (fun m p => StdMap.set m p.1 p.2), foldl_set_find_ne_none] at h
  rw [← List.foldl_map (fun r : Row => (r.item_entry, r.item_subclass))
    (fun m p => StdMap.set m p.1 p.2), foldl_set_find_ne_none]
  rcases h with ⟨q, hq, hk⟩ | h
  · left
    rw [List.mem_map] at hq
    obtain ⟨r, hr, rfl⟩ := hq
    exact ⟨(r.item_entry, r.item_subclass), List.mem_map.mpr ⟨r, hr, rfl⟩, hk⟩
  · exact absurd rfl h

/-! ## Conservation, operation by operation -/

theorem removedUnits_append (l1 l2 : List Event) (e : Nat) :
    removedUnits (l1 ++ l2) e = removedUnits l1 e + removedUnits l2 e := by
  induction l1 with
  | nil => simp [removedUnits]
  | cons ev l1 ih =>
    cases ev <;> simp [removedUnits, ih]
    omega

theorem uniqueKeys_delete (t : Table) (a g e : Nat) (h : t.UniqueKeys) :
    (t.delete a g e).UniqueKeys :=
  List.Pairwise.sublist (List.filter_sublist t) h

theorem uniqueKeys_update (t : Table) (v a g e : Nat) (h : t.UniqueKeys) :
    (t.update v a g e).UniqueKeys := by
  unfold Table.update Table.UniqueKeys
  rw [List.pairwise_map]
  apply List.Pairwise.imp _ h
  intro r r' hrr
  by_cases h1 : r.hasKey a g e = true <;> by_cases h2 : r'.hasKey a g e = true <;>
    simpa [h1, h2] using hrr

theorem uniqueKeys_replaceInto (t : Table) (a g e c v : Nat) (h : t.UniqueKeys) :
    (t.replaceInto a g e c v).UniqueKeys := by
  unfold Table.replaceInto Table.UniqueKeys
  rw [List.pairwise_append]
  refine ⟨uniqueKeys_delete t a g e h, List.pairwise_singleton _ _, ?_⟩
  intro r hr r' hr'
  rw [List.mem_singleton] at hr'
  subst hr'
  unfold Table.delete at hr
  rw [List.mem_filter] at hr
  have hk := hr.2
  simp only [Bool.not_eq_true', ← Bool.not_eq_true, hasKey_iff] at hk
  exact hk

theorem uniqueKeys_writeDeposit (a g : Nat) (s : DepositState) (db : Table)
    (h : db.UniqueKeys) : (writeDeposit a g s db).UniqueKeys := by
  rw [writeDeposit_eq]
  generalize s.entryToAmountMap = m
  induction m generalizing db with
  | nil => exact h
  | cons q m ih =>
    rw [List.foldl_cons]
    exact ih _ (uniqueKeys_replaceInto db a g q.1 _ q.2 h)

/-- In a table with unique keys, the stored quantity of a key is the amount
of any row with that key. -/
theorem amountOf_of_mem (t : Table) (h : t.UniqueKeys) (r : Row) (hr : r ∈ t) :
    t.amountOf r.account_id r.guid r.item_entry = some r.amount := by
  induction t with
  | nil => cases hr
  | cons r0 t ih =>
    rw [amountOf_cons]
    unfold Table.UniqueKeys at h
    have h' := List.pairwise_cons.mp h
    rcases List.mem_cons.mp hr with h1 | h1
    · subst h1
      rw [if_pos ((hasKey_iff _ _ _ _).mpr ⟨rfl, rfl, rfl⟩)]
    · have hne : ¬ r0.hasKey r.account_id r.guid r.item_entry = true := by
        rw [hasKey_iff]
        exact h'.1 r h1
      rw [if_neg hne]
      exact ih h'.2 h1

theorem amountOf_of_selectAmount {t : Table} {a g e stored : Nat} {rest : List Nat}
    (h : t.selectAmount a g e = stored :: rest) : t.amountOf a g e = some stored := by
  unfold Table.amountOf
  rw [h]
  rfl

theorem conserved_refl (env : Env) (player : Player) (X : Nat) (w : World) :
    conserved env player X w w := rfl

theorem conserved_trans (env : Env) (player : Player) (X : Nat) (w1 w2 w3 : World)
    (h12 : conserved env player X w1 w2) (h23 : conserved env player X w2 w3) :
    conserved env player X w1 w3 := by
  unfold conserved at *
  omega

/-- A step that changes the stored quantity of `X` from `q` to `q'` and
appends `l` to the log is conservative when `q' + granted(l) = q + removed(l)`. -/
theorem conserved_of_step (env : Env) (player : Player) (X : Nat) (w w' : World)
    (l : List Event) (hlog : w'.log = w.log ++ l)
    (h : (w'.db.amountOf (GetStorageKeys env player).1 (GetStorageKeys env player).2 X).getD 0
        + grantedUnits l X
      = (w.db.amountOf (GetStorageKeys env player).1 (GetStorageKeys env player).2 X).getD 0
        + removedUnits l X) :
    conserved env player X w w' := by
  unfold conserved balance
  rw [hlog, grantedUnits_append, removedUnits_append]
  omega

theorem WithdrawOne_conserved (env : Env) (player : Player) (entry X : Nat) (w : World) :
    conserved env player X w (WithdrawOne env player entry w) := by
  unfold WithdrawOne
  simp only
  cases hsel : w.db.selectAmount (GetStorageKeys env player).1 (GetStorageKeys env player).2
      entry with
  | nil => exact conserved_refl env player X w
  | cons stored rest =>
    have hstored := amountOf_of_selectAmount hsel
    simp only
    by_cases h0 : stored = 0
    · rw [if_pos h0]; exact conserved_refl env player X w
    · rw [if_neg h0]
      cases env.GetItemTemplate entry with
      | none => exact conserved_refl env player X w
      | some temp =>
        simp only
        by_cases hc : env.CanStoreNewItem w.inv entry 1 = false
        · rw [if_pos hc]
          exact conserved_of_step env player X w _ _ rfl (by simp [grantedUnits, removedUnits])
        · rw [if_neg hc]
          apply conserved_of_step env player X w _ _ rfl
          simp only [grantedUnits, removedUnits, Nat.add_zero]
          by_cases hX : entry = X
          · subst hX
            rw [hstored]
            by_cases h1 : stored = 1
            · simp [h1, amountOf_delete_self]
            · simp only [h1, if_false, amountOf_update_self, hstored, Option.map_some',
                Option.getD_some, if_true]
              omega
          · have hne : ¬ ((GetStorageKeys env player).1 = (GetStorageKeys env player).1
                ∧ (GetStorageKeys env player).2 = (GetStorageKeys env player).2
                ∧ X = entry) := fun h => hX h.2.2.symm
            by_cases h1 : stored = 1
            · simp [h1, hX, amountOf_delete_other _ _ _ _ _ _ _ hne]
            · simp [h1, hX, amountOf_update_other _ _ _ _ _ _ _ _ hne]

theorem WithdrawStack_conserved (env : Env) (player : Player) (entry X : Nat) (w : World) :
    conserved env player X w (WithdrawStack env player entry w) := by
  unfold WithdrawStack
  simp only
  cases hsel : w.db.selectAmount (GetStorageKeys env player).1 (GetStorageKeys env player).2
      entry with
  | nil => exact conserved_refl env player X w
  | cons stored rest =>
    have hstored := amountOf_of_selectAmount hsel
    simp only
    by_cases h0 : stored = 0
    · rw [if_pos h0]; exact conserved_refl env player X w
    · rw [if_neg h0]
      cases env.GetItemTemplate entry with
      | none => exact conserved_refl env player X w
      | some temp =>
        simp only
        by_cases hc : env.CanStoreNewItem w.inv entry (min temp.MaxStackSize stored) = false
        · rw [if_pos hc]
          exact conserved_of_step env player X w _ _ rfl (by simp [grantedUnits, removedUnits])
        · rw [if_neg hc]
          apply conserved_of_step env player X w _ _ rfl
          simp only [grantedUnits, removedUnits, Nat.add_zero]
          have hle := Nat.min_le_right temp.MaxStackSize stored
          by_cases hX : entry = X
          · subst hX
            rw [hstored]
            by_cases h1 : min temp.MaxStackSize stored = stored
            · simp [h1, amountOf_delete_self]
            · simp only [h1, if_false, amountOf_update_self, hstored, Option.map_some',
                Option.getD_some, if_true]
              omega
          · have hne : ¬ ((GetStorageKeys env player).1 = (GetStorageKeys env player).1
                ∧ (GetStorageKeys env player).2 = (GetStorageKeys env player).2
                ∧ X = entry) := fun h => hX h.2.2.symm
            by_cases h1 : min temp.MaxStackSize stored = stored
            · simp [h1, hX, amountOf_delete_other _ _ _ _ _ _ _ hne]
            · simp [h1, hX, amountOf_update_other _ _ _ _ _ _ _ _ hne]

/-- The grant loop of `WithdrawAllOfItem` moves units from `remaining` to the
log and touches nothing else. -/
theorem grantLoop_conserves (env : Env) (entry S : Nat) (name : String) :
    ∀ (fuel : Nat) (s s' : GrantState), grantLoop env entry S name fuel s = some s' →
      ∃ l, s'.log = s.log ++ l
        ∧ grantedUnits l entry + s'.remaining = s.remaining
        ∧ (∀ X, X ≠ entry → grantedUnits l X = 0)
        ∧ ∀ X, removedUnits l X = 0 := by
  intro fuel
  induction fuel with
  | zero =>
    intro s s' h
    unfold grantLoop at h
    by_cases hr : s.remaining > 0
    · rw [if_pos hr] at h; cases h
    · rw [if_neg hr] at h
      injection h with h
      subst h
      exact ⟨[], by simp, by simp [grantedUnits], fun _ _ => rfl, fun _ => rfl⟩
  | succ fuel ih =>
    intro s s' h
    rw [grantLoop] at h
    by_cases hr : s.remaining > 0
    · rw [if_pos hr] at h
      simp only at h
      by_cases hc : env.CanStoreNewItem s.inv entry (min S s.remaining) = false
      · rw [if_pos hc] at h
        injection h with h
        subst h
        exact ⟨_, rfl, by simp [grantedUnits], fun _ _ => by simp [grantedUnits],
          fun _ => by simp [removedUnits]⟩
      · rw [if_neg hc] at h
        obtain ⟨l, hl, h1, h2, h3⟩ := ih _ s' h
        simp only at hl h1
        have hle := Nat.min_le_right S s.remaining
        refine ⟨Event.newItem entry (min S s.remaining) :: l, ?_, ?_, ?_, ?_⟩
        · rw [hl]; simp
        · simp only [grantedUnits, if_true]
          omega
        · intro X hX
          have hX' : ¬ entry = X := fun h => hX h.symm
          simp only [grantedUnits, if_neg hX', h2 X hX]
        · intro X
          simp [removedUnits, h3 X]
    · rw [if_neg hr] at h
      injection h with h
      subst h
      exact ⟨[], by simp, by simp [grantedUnits], fun _ _ => rfl, fun _ => rfl⟩

theorem WithdrawAllOfItem_conserved (env : Env) (player : Player) (entry X : Nat)
    (w w' : World) (hrun : WithdrawAllOfItem env player entry w = some w') :
    conserved env player X w w' := by
  unfold WithdrawAllOfItem at hrun
  simp only at hrun
  cases hsel : w.db.selectAmount (GetStorageKeys env player).1 (GetStorageKeys env player).2
      entry with
  | nil =>
    rw [hsel] at hrun
    injection hrun with hrun
    subst hrun
    exact conserved_refl env player X w
  | cons stored rest =>
    have hstored := amountOf_of_selectAmount hsel
    rw [hsel] at hrun
    simp only at hrun
    by_cases h0 : stored = 0
    · rw [if_pos h0] at hrun
      injection hrun with hrun
      subst hrun
      exact conserved_refl env player X w
    · rw [if_neg h0] at hrun
      cases htemp : env.GetItemTemplate entry with
      | none =>
        rw [htemp] at hrun
        injection hrun with hrun
        subst hrun
        exact conserved_refl env player X w
      | some temp =>
        rw [htemp] at hrun
        simp only at hrun
        cases hloop : grantLoop env entry temp.MaxStackSize temp.Name1 stored
            { inv := w.inv, log := w.log, givenTotal := 0, remaining := stored } with
        | none => rw [hloop] at hrun; cases hrun
        | some s =>
          rw [hloop] at hrun
          injection hrun with hrun
          subst hrun
          obtain ⟨l, hl, h1, h2, h3⟩ := grantLoop_conserves env entry _ _ _ _ s hloop
          simp only at hl h1
          have hne : X ≠ entry → ¬ ((GetStorageKeys env player).1 = (GetStorageKeys env player).1
              ∧ (GetStorageKeys env player).2 = (GetStorageKeys env player).2
              ∧ X = entry) := fun hX h => hX h.2.2
          apply conserved_of_step env player X w _
            (l ++ if s.givenTotal > 0 then
              [Event.sysMessage (Msg.withdrew s.givenTotal temp.Name1)] else [])
          · simp only
            by_cases hg : s.givenTotal > 0
            · simp [hg, hl]
            · simp [hg, hl]
          · have hmsg : ∀ Y, grantedUnits (if s.givenTotal > 0 then
                  [Event.sysMessage (Msg.withdrew s.givenTotal temp.Name1)] else []) Y = 0
                ∧ removedUnits (if s.givenTotal > 0 then
                  [Event.sysMessage (Msg.withdrew s.givenTotal temp.Name1)] else []) Y = 0 := by
              intro Y
              by_cases hg : s.givenTotal > 0 <;> simp [hg, grantedUnits, removedUnits]
            rw [grantedUnits_append, removedUnits_append, (hmsg X).1, (hmsg X).2, h3 X]
            simp only [Nat.add_zero]
            by_cases hX : X = entry
            · subst hX
              rw [hstored]
              by_cases hr : s.remaining = 0
              · simp only [hr, if_true, amountOf_delete_self, Option.getD_none,
                  Option.getD_some]
                omega
              · simp only [hr, if_false, amountOf_update_self, hstored, Option.map_some',
                  Option.getD_some]
                omega
            · rw [h2 X hX]
              by_cases hr : s.remaining = 0
              · simp [hr, amountOf_delete_other _ _ _ _ _ _ _ (hne hX)]
              · simp [hr, amountOf_update_other _ _ _ _ _ _ _ _ (hne hX)]

theorem categoryGrantLoop_zero (env : Env) (a g e S : Nat) (name : String) (fuel : Nat)
    (s : CategoryState) : categoryGrantLoop env a g e S name fuel 0 s = some s := by
  cases fuel <;> simp [categoryGrantLoop]

/-- The per-item loop of `WithdrawAllInCategory`, started with the stored
quantity of the item, moves units from the row of the item to the log and
touches no other row. -/
theorem categoryGrantLoop_conserves (env : Env) (a g e S : Nat) (name : String) :
    ∀ (fuel r : Nat) (s s' : CategoryState), s.db.amountOf a g e = some r →
      categoryGrantLoop env a g e S name fuel r s = some s' →
      ∃ l, s'.log = s.log ++ l
        ∧ (s'.db.amountOf a g e).getD 0 + grantedUnits l e = r
        ∧ (∀ X, X ≠ e → grantedUnits l X = 0)
        ∧ (∀ X, removedUnits l X = 0)
        ∧ (∀ a' g' e', ¬ (a' = a ∧ g' = g ∧ e' = e) →
            s'.db.amountOf a' g' e' = s.db.amountOf a' g' e')
        ∧ (s.db.UniqueKeys → s'.db.UniqueKeys) := by
  intro fuel
  induction fuel with
  | zero =>
    intro r s s' hamt h
    unfold categoryGrantLoop at h
    by_cases hr : r > 0
    · rw [if_pos hr] at h; cases h
    · rw [if_neg hr] at h
      injection h with h
      subst h
      refine ⟨[], by simp, ?_, fun _ _ => rfl, fun _ => rfl, fun _ _ _ _ => rfl, id⟩
      rw [hamt]
      simp [grantedUnits]
  | succ fuel ih =>
    intro r s s' hamt h
    rw [categoryGrantLoop] at h
    by_cases hr : r > 0
    · rw [if_pos hr] at h
      simp only at h
      have hle := Nat.min_le_right S r
      by_cases hc : env.CanStoreNewItem s.inv e (min S r) = true
      · rw [if_pos hc] at h
        by_cases hall : min S r = r
        · rw [hall, Nat.sub_self, categoryGrantLoop_zero] at h
          injection h with h
          subst h
          simp only [if_true]
          refine ⟨_, rfl, ?_, ?_, ?_, ?_, ?_⟩
          · rw [amountOf_delete_self]
            simp [grantedUnits]
          · intro X hX
            have hX' : ¬ e = X := fun h => hX h.symm
            simp [grantedUnits, hX']
          · intro X
            simp [removedUnits]
          · intro a' g' e' hne
            exact amountOf_delete_other _ _ _ _ _ _ _ hne
          · exact uniqueKeys_delete _ _ _ _
        · rw [if_neg hall] at h
          obtain ⟨l, hl, h1, h2, h3, h4, h5⟩ := ih _ _ s' (by
            simp only
            rw [amountOf_update_self, hamt]
            rfl) h
          simp only at hl h4 h5
          refine ⟨[Event.newItem e (min S r), Event.sysMessage (Msg.withdrew (min S r) name)]
            ++ l, ?_, ?_, ?_, ?_, ?_, ?_⟩
          · rw [hl]; simp
          · rw [grantedUnits_append]
            simp only [grantedUnits, if_true, Nat.add_zero]
            omega
          · intro X hX
            have hX' : ¬ e = X := fun h => hX h.symm
            rw [grantedUnits_append, h2 X hX]
            simp [grantedUnits, hX']
          · intro X
            rw [removedUnits_append, h3 X]
            simp [removedUnits]
          · intro a' g' e' hne
            rw [h4 a' g' e' hne]
            exact amountOf_update_other _ _ _ _ _ _ _ _ hne
          · intro hu
            exact h5 (uniqueKeys_update _ _ _ _ _ hu)
      · rw [if_neg hc] at h
        injection h with h
        subst h
        refine ⟨_, rfl, ?_, fun _ _ => by simp [grantedUnits], fun _ => by simp [removedUnits],
          fun _ _ _ _ => rfl, id⟩
        rw [hamt]
        simp [grantedUnits]
    · rw [if_neg hr] at h
      injection h with h
      subst h
      refine ⟨[], by simp, ?_, fun _ _ => rfl, fun _ => rfl, fun _ _ _ _ => rfl, id⟩
      rw [hamt]
      simp [grantedUnits]

/-- The row loop of `WithdrawAllInCategory` over rows with distinct items,
each listed with its stored quantity, creates and destroys nothing. -/
theorem categoryRows_conserves (env : Env) (a g : Nat) :
    ∀ (rows : List (Nat × Nat)) (s s' : CategoryState), (rows.map Prod.fst).Nodup →
      (∀ q ∈ rows, s.db.amountOf a g q.1 = some q.2) →
      categoryRows env a g rows s = some s' →
      ∃ l, s'.log = s.log ++ l
        ∧ (∀ X, (s'.db.amountOf a g X).getD 0 + grantedUnits l X
            = (s.db.amountOf a g X).getD 0)
        ∧ (∀ X, removedUnits l X = 0)
        ∧ (s.db.UniqueKeys → s'.db.UniqueKeys) := by
  intro rows
  induction rows with
  | nil =>
    intro s s' _ _ h
    unfold categoryRows at h
    injection h with h
    subst h
    exact ⟨[], by simp, fun _ => by simp [grantedUnits], fun _ => rfl, id⟩
  | cons row rows ih =>
    intro s s' hnd hrows h
    obtain ⟨e, amt⟩ := row
    rw [List.map_cons, List.nodup_cons] at hnd
    unfold categoryRows at h
    cases htemp : env.GetItemTemplate e with
    | none =>
      rw [htemp] at h
      exact ih s s' hnd.2 (fun q hq => hrows q (List.mem_cons_of_mem _ hq)) h
    | some temp =>
      rw [htemp] at h
      simp only at h
      cases hloop : categoryGrantLoop env a g e temp.MaxStackSize temp.Name1 amt amt s with
      | none => rw [hloop] at h; cases h
      | some s1 =>
        rw [hloop] at h
        obtain ⟨l1, hl1, h11, h12, h13, h14, h15⟩ :=
          categoryGrantLoop_conserves env a g e _ _ _ _ s s1
            (hrows (e, amt) (List.mem_cons_self _ _)) hloop
        have hrows1 : ∀ q ∈ rows, s1.db.amountOf a g q.1 = some q.2 := by
          intro q hq
          have hne : q.1 ≠ e := by
            intro heq
            exact hnd.1 (List.mem_map.mpr ⟨q, hq, heq⟩)
          rw [h14 a g q.1 (fun hh => hne hh.2.2)]
          exact hrows q (List.mem_cons_of_mem _ hq)
        obtain ⟨l2, hl2, h21, h22, h23⟩ := ih s1 s' hnd.2 hrows1 h
        refine ⟨l1 ++ l2, by rw [hl2, hl1, List.append_assoc], ?_, ?_, fun hu => h23 (h15 hu)⟩
        · intro X
          rw [grantedUnits_append]
          have hx := h21 X
          by_cases hX : X = e
          · subst hX
            rw [hrows (X, amt) (List.mem_cons_self _ _)]
            simp only [Option.getD_some]
            omega
          · rw [h12 X hX]
            rw [h14 a g X (fun hh => hX hh.2.2)] at hx
            omega
        · intro X
          rw [removedUnits_append, h13 X, h22 X]

theorem selectCategory_mem (t : Table) (hu : t.UniqueKeys) (a g c : Nat) (q : Nat × Nat)
    (hq : q ∈ t.selectCategory a g c) : t.amountOf a g q.1 = some q.2 := by
  unfold Table.selectCategory at hq
  rw [List.mem_map] at hq
  obtain ⟨r, hr, rfl⟩ := hq
  rw [List.mem_filter] at hr
  have ho := hr.2
  simp only [Row.hasOwner, Bool.and_eq_true, beq_iff_eq] at ho
  have := amountOf_of_mem t hu r hr.1
  rw [ho.1.1, ho.1.2] at this
  exact this

theorem selectCategory_nodup (t : Table) (hu : t.UniqueKeys) (a g c : Nat) :
    ((t.selectCategory a g c).map Prod.fst).Nodup := by
  unfold Table.selectCategory
  rw [List.map_map]
  unfold List.Nodup
  rw [List.pairwise_map]
  have hf : (t.filter (fun r => r.hasOwner a g && r.item_subclass == c)).Pairwise
      (fun r r' => ¬ (r.account_id = r'.account_id ∧ r.guid = r'.guid
        ∧ r.item_entry = r'.item_entry)) :=
    List.Pairwise.sublist (List.filter_sublist t) hu
  apply List.Pairwise.imp_of_mem _ hf
  intro r r' hr hr' hne heq
  rw [List.mem_filter] at hr hr'
  have ho := hr.2
  have ho' := hr'.2
  simp only [Row.hasOwner, Bool.and_eq_true, beq_iff_eq] at ho ho'
  apply hne
  refine ⟨by rw [ho.1.1, ho'.1.1], by rw [ho.1.2, ho'.1.2], ?_⟩
  simpa using heq

theorem WithdrawAllInCategory_conserved (env : Env) (player : Player) (c X : Nat)
    (w w' : World) (hu : w.db.UniqueKeys)
    (hrun : WithdrawAllInCategory env player c w = some w') :
    conserved env player X w w' ∧ w'.db.UniqueKeys := by
  unfold WithdrawAllInCategory at hrun
  simp only at hrun
  cases hsel : w.db.selectCategory (GetStorageKeys env player).1 (GetStorageKeys env player).2 c
    with
  | nil =>
    rw [hsel] at hrun
    injection hrun with hrun
    subst hrun
    exact ⟨conserved_of_step env player X w _ _ rfl (by simp [grantedUnits, removedUnits]), hu⟩
  | cons row rows =>
    rw [hsel] at hrun
    simp only at hrun
    cases hrows : categoryRows env (GetStorageKeys env player).1 (GetStorageKeys env player).2
        (row :: rows) { db := w.db, inv := w.inv, log := w.log, anyWithdrawn := false } with
    | none => rw [hrows] at hrun; cases hrun
    | some s =>
      rw [hrows] at hrun
      injection hrun with hrun
      subst hrun
      obtain ⟨l, hl, h1, h2, h3⟩ := categoryRows_conserves env _ _ (row :: rows) _ s
        (by rw [← hsel]; exact selectCategory_nodup w.db hu _ _ c)
        (by
          intro q hq
          rw [← hsel] at hq
          exact selectCategory_mem w.db hu _ _ c q hq) hrows
      simp only at hl h1 h3
      refine ⟨?_, h3 hu⟩
      apply conserved_of_step env player X w _
        (l ++ if s.anyWithdrawn = false then [Event.sysMessage Msg.noReagentsWithdrawn] else [])
      · simp only
        by_cases ha : s.anyWithdrawn = false
        · simp [ha, hl]
        · simp [ha, hl]
      · simp only
        rw [grantedUnits_append, removedUnits_append, h2 X]
        have := h1 X
        by_cases ha : s.anyWithdrawn = false
        · simp only [ha, if_true, grantedUnits, removedUnits]
          omega
        · simp only [ha, if_false, grantedUnits, removedUnits]
          omega

theorem removedUnits_sysMessages (f : Nat × Nat → Msg) (l : List (Nat × Nat)) (e : Nat) :
    removedUnits (l.map (fun q => Event.sysMessage (f q))) e = 0 := by
  induction l with
  | nil => rfl
  | cons q l ih => simpa [removedUnits] using ih

theorem removedUnits_depositFeedback (env : Env) (m : Msg) (s : DepositState) (e : Nat) :
    removedUnits (depositFeedback env m s) e = 0 := by
  unfold depositFeedback
  by_cases h : s.itemsAddedMap.length ≠ 0
  · rw [if_pos h]
    simp only [removedUnits]
    exact removedUnits_sysMessages
      (fun q => Msg.depositedLine q.2 (depositName env q.1)) s.itemsAddedMap e
  · rw [if_neg h]
    rfl

/-- The units of `X` a scan removes from the inventory are the counts of its
counted stacks. -/
theorem scan_removed (env : Env) (P : ItemTemplate → Bool) (inv0 : Inventory) (X : Nat) :
    ∀ (ps : List (Nat × Nat)) (s : DepositState), ps.Nodup →
      (∀ q ∈ ps, s.inv.items q.1 q.2 = inv0.items q.1 q.2) →
      removedUnits (ps.foldl (depositStep env P) s).log X
        = removedUnits s.log X + (ps.map (stackUnits (counted env P) inv0 X)).sum := by
  intro ps
  induction ps with
  | nil => intro s _ _; simp
  | cons p ps ih =>
    intro s hnd hag
    have hnd' := List.nodup_cons.mp hnd
    have hag1 : ∀ q ∈ ps, (depositStep env P s p).inv.items q.1 q.2 = inv0.items q.1 q.2 := by
      intro q hq
      rw [depositStep_items_other env P s p q (fun h => hnd'.1 (h ▸ hq))]
      exact hag q (List.mem_cons_of_mem _ hq)
    rw [List.foldl_cons, List.map_cons, List.sum_cons, ih _ hnd'.2 hag1]
    rcases depositStep_cases env P inv0 X s p (hag p (List.mem_cons_self _ _)) with
      ⟨hstep, hu, _⟩ | ⟨it, _, _, hX, hstep, hel, hu, _⟩ | ⟨it, _, _, hX, hstep, hel, hu, _⟩
    · rw [hstep, hu]
      omega
    · rw [hstep, UpdateItemCount_eligible env s it _ _ hel, hu]
      simp only
      rw [removedUnits_append]
      simp [removedUnits, hX]
    · rw [hstep, UpdateItemCount_eligible env s it _ _ hel, hu]
      simp only
      rw [removedUnits_append]
      simp only [removedUnits, hX, if_true]
      omega

theorem DepositAllReagents_conserved (env : Env) (player : Player) (X : Nat) (w : World)
    (hu : w.db.UniqueKeys) (hslots : env.slotsDisjoint)
    (hfit : (w.db.amountOf (GetStorageKeys env player).1 (GetStorageKeys env player).2 X).getD 0
      + carriedUnits env (eligible env) w.inv X < 4294967296) :
    conserved env player X w (DepositAllReagents env player w)
      ∧ (DepositAllReagents env player w).db.UniqueKeys := by
  have hamt := DepositAllReagents_amountOf env player w X hu hslots hfit
  have hgr := DepositAllReagents_granted env player w X
  have hrem : removedUnits (DepositAllReagents env player w).log X
      = removedUnits w.log X + carriedUnits env (eligible env) w.inv X := by
    rw [DepositAllReagents_eq]
    simp only
    rw [removedUnits_append, removedUnits_depositFeedback,
      scan_removed env (fun _ => true) w.inv X _ _ (scanPositions_nodup env w.inv hslots)
        (fun _ _ => rfl), counted_true]
    unfold depositAllStart carriedUnits
    simp only
    rw [removedUnits_append]
    simp [removedUnits]
  constructor
  · unfold conserved balance
    rw [hgr, hrem, hamt]
    by_cases hh : hasStack (eligible env) w.inv X (scanPositions env w.inv) = true
    · simp only [hh, if_true, Option.getD_some]
      omega
    · simp only [Bool.not_eq_true] at hh
      have h0 : carriedUnits env (eligible env) w.inv X = 0 :=
        stackUnits_sum_of_no_stack _ _ _ _ hh
      simp only [hh, Bool.false_eq_true, if_false, h0]
      omega
  · rw [DepositAllReagents_eq]
    exact uniqueKeys_writeDeposit _ _ _ _ hu

theorem WithdrawOne_uniqueKeys (env : Env) (player : Player) (entry : Nat) (w : World)
    (h : w.db.UniqueKeys) : (WithdrawOne env player entry w).db.UniqueKeys := by
  unfold WithdrawOne
  simp only
  cases w.db.selectAmount (GetStorageKeys env player).1 (GetStorageKeys env player).2 entry with
  | nil => exact h
  | cons stored rest =>
    simp only
    by_cases h0 : stored = 0
    · rw [if_pos h0]; exact h
    · rw [if_neg h0]
      cases env.GetItemTemplate entry with
      | none => exact h
      | some temp =>
        simp only
        by_cases hc : env.CanStoreNewItem w.inv entry 1 = false
        · rw [if_pos hc]; exact h
        · rw [if_neg hc]
          simp only
          by_cases h1 : stored = 1
          · rw [if_pos h1]; exact uniqueKeys_delete _ _ _ _ h
          · rw [if_neg h1]; exact uniqueKeys_update _ _ _ _ _ h

theorem WithdrawStack_uniqueKeys (env : Env) (player : Player) (entry : Nat) (w : World)
    (h : w.db.UniqueKeys) : (WithdrawStack env player entry w).db.UniqueKeys := by
  unfold WithdrawStack
  simp only
  cases w.db.selectAmount (GetStorageKeys env player).1 (GetStorageKeys env player).2 entry with
  | nil => exact h
  | cons stored rest =>
    simp only
    by_cases h0 : stored = 0
    · rw [if_pos h0]; exact h
    · rw [if_neg h0]
      cases env.GetItemTemplate entry with
      | none => exact h
      | some temp =>
        simp only
        by_cases hc : env.CanStoreNewItem w.inv entry (min temp.MaxStackSize stored) = false
        · rw [if_pos hc]; exact h
        · rw [if_neg hc]
          simp only
          by_cases h1 : min temp.MaxStackSize stored = stored
          · rw [if_pos h1]; exact uniqueKeys_delete _ _ _ _ h
          · rw [if_neg h1]; exact uniqueKeys_update _ _ _ _ _ h

theorem WithdrawAllOfItem_uniqueKeys (env : Env) (player : Player) (entry : Nat)
    (w w' : World) (h : w.db.UniqueKeys)
    (hrun : WithdrawAllOfItem env player entry w = some w') : w'.db.UniqueKeys := by
  unfold WithdrawAllOfItem at hrun
  simp only at hrun
  cases hsel : w.db.selectAmount (GetStorageKeys env player).1 (GetStorageKeys env player).2
      entry with
  | nil =>
    rw [hsel] at hrun
    injection hrun with hrun
    rw [← hrun]; exact h
  | cons stored rest =>
    rw [hsel] at hrun
    simp only at hrun
    by_cases h0 : stored = 0
    · rw [if_pos h0] at hrun
      injection hrun with hrun
      rw [← hrun]; exact h
    · rw [if_neg h0] at hrun
      cases htemp : env.GetItemTemplate entry with
      | none =>
        rw [htemp] at hrun
        injection hrun with hrun
        rw [← hrun]; exact h
      | some temp =>
        rw [htemp] at hrun
        simp only at hrun
        cases hloop : grantLoop env entry temp.MaxStackSize temp.Name1 stored
            { inv := w.inv, log := w.log, givenTotal := 0, remaining := stored } with
        | none => rw [hloop] at hrun; cases hrun
        | some s =>
          rw [hloop] at hrun
          injection hrun with hrun
          rw [← hrun]
          simp only
          by_cases hr : s.remaining = 0
          · rw [if_pos hr]; exact uniqueKeys_delete _ _ _ _ h
          · rw [if_neg hr]; exact uniqueKeys_update _ _ _ _ _ h

/-- Each operation other than the deposit of a single category creates and
destroys nothing of item `X`, and keeps the keys of the table unique. -/
theorem runOp_conserved (env : Env) (player : Player) (X : Nat) (op : Op) (w w' : World)
    (hop : op.notCategoryDeposit = true) (hu : w.db.UniqueKeys) (hslots : env.slotsDisjoint)
    (hfit : op = Op.depositAll →
      (w.db.amountOf (GetStorageKeys env player).1 (GetStorageKeys env player).2 X).getD 0
        + carriedUnits env (eligible env) w.inv X < 4294967296)
    (hrun : runOp env player op w = some w') :
    conserved env player X w w' ∧ w'.db.UniqueKeys := by
  cases op with
  | depositAll =>
    injection hrun with hrun
    subst hrun
    exact DepositAllReagents_conserved env player X w hu hslots (hfit rfl)
  | depositCategory c => cases hop
  | withdrawOne e =>
    injection hrun with hrun
    subst hrun
    exact ⟨WithdrawOne_conserved env player e X w, WithdrawOne_uniqueKeys env player e w hu⟩
  | withdrawStack e =>
    injection hrun with hrun
    subst hrun
    exact ⟨WithdrawStack_conserved env player e X w, WithdrawStack_uniqueKeys env player e w hu⟩
  | withdrawAllOfItem e =>
    exact ⟨WithdrawAllOfItem_conserved env player e X w w' hrun,
      WithdrawAllOfItem_uniqueKeys env player e w w' hu hrun⟩
  | withdrawAllInCategory c =>
    exact WithdrawAllInCategory_conserved env player c X w w' hu hrun

/-- Conservation over sequences without the deposit of a single category:
whatever the capacity behaviour, after any sequence of `DepositAllReagents`,
`WithdrawOne`, `WithdrawStack`, `WithdrawAllOfItem` and
`WithdrawAllInCategory` started on a table with unique keys, the stored
quantity of `X` plus the units of `X` granted has grown by exactly the units
of `X` the deposits removed from the inventory, no deposit total of `X`
overflowing 32 bits. -/
theorem runOps_conserved (env : Env) (player : Player) (X : Nat) (hslots : env.slotsDisjoint) :
    ∀ (ops : List Op) (w w' : World), (∀ op ∈ ops, op.notCategoryDeposit = true) →
      w.db.UniqueKeys → fitsAlong env player X ops w →
      runOps env player ops w = some w' → conserved env player X w w' := by
  intro ops
  induction ops with
  | nil =>
    intro w w' _ _ _ hrun
    injection hrun with hrun
    subst hrun
    exact conserved_refl env player X w
  | cons op ops ih =>
    intro w w' hops hu hfit hrun
    unfold runOps at hrun
    cases hstep : runOp env player op w with
    | none => rw [hstep] at hrun; cases hrun
    | some w1 =>
      rw [hstep] at hrun
      simp only at hrun
      unfold fitsAlong at hfit
      obtain ⟨hc, hu1⟩ := runOp_conserved env player X op w w1
        (hops op (List.mem_cons_self _ _)) hu hslots hfit.1 hstep
      exact conserved_trans env player X w w1 w' hc
        (ih w1 w' (fun o ho => hops o (List.mem_cons_of_mem _ ho)) hu1 (hfit.2 w1 hstep) hrun)

/-- From an empty table and an empty log: after such a sequence the stored
quantity of `X` plus the units of `X` granted equals the units of `X` removed
from the inventory by the deposits. -/
theorem runOps_conserved_from_empty (env : Env) (player : Player) (X : Nat)
    (hslots : env.slotsDisjoint) (ops : List Op) (inv : Inventory) (w' : World)
    (hops : ∀ op ∈ ops, op.notCategoryDeposit = true)
    (hfit : fitsAlong env player X ops { db := [], inv := inv, log := [] })
    (hrun : runOps env player ops { db := [], inv := inv, log := [] } = some w') :
    (w'.db.amountOf (GetStorageKeys env player).1 (GetStorageKeys env player).2 X).getD 0
        + grantedUnits w'.log X
      = removedUnits w'.log X := by
  have h := runOps_conserved env player X hslots ops { db := [], inv := inv, log := [] } w'
    hops List.Pairwise.nil hfit hrun
  unfold conserved balance at h
  simpa [grantedUnits, removedUnits, amountOf_nil] using h

/-! ## Conservation over sequences -/

/-- C1, the code at the failing input: starting from an empty table with one
carried stack of 5 Linen Cloth, the sequence `DepositAllReagents`,
`WithdrawOne`, `DepositAllReagentsForCategory` on the cloth category ends
with 1 unit stored and 1 unit granted although 6 units were removed from the
inventory by the deposits; with `DepositAllReagents` as the last operation
the sequence ends with 5 stored, 1 granted and 6 removed. -/
theorem conservation_fails_with_category_deposit :
    (runOps exampleEnv examplePlayer
        [Op.depositAll, Op.withdrawOne 2589, Op.depositCategory 5]
        { db := [], inv := packOf linenCloth [5], log := [] }).map
        (fun w' => (w'.db.amountOf 0 7 2589, grantedUnits w'.log 2589,
          removedUnits w'.log 2589))
        = some (some 1, 1, 6)
      ∧ (runOps exampleEnv examplePlayer
          [Op.depositAll, Op.withdrawOne 2589, Op.depositAll]
          { db := [], inv := packOf linenCloth [5], log := [] }).map
          (fun w' => (w'.db.amountOf 0 7 2589, grantedUnits w'.log 2589,
            removedUnits w'.log 2589))
          = some (some 5, 1, 6) := by
  constructor <;> rfl

/-! ## The number of pages -/

/-- The integer quotient `(n + p - 1) / p` is the ceiling of the fraction
`n / p`. -/
theorem ceil_div_eq (n p : Nat) (hp : 1 ≤ p) : ⌈(n : ℚ) / (p : ℚ)⌉₊ = (n + p - 1) / p := by
  have hp0 : (0 : ℚ) < (p : ℚ) := by exact_mod_cast hp
  apply le_antisymm
  · rw [Nat.ceil_le, div_le_iff₀ hp0]
    have h : n ≤ (n + p - 1) / p * p := by
      have h1 := Nat.div_add_mod (n + p - 1) p
      have h2 := Nat.mod_lt (n + p - 1) hp
      have h3 : p * ((n + p - 1) / p) = (n + p - 1) / p * p := Nat.mul_comm _ _
      omega
    exact_mod_cast h
  · rcases Nat.eq_zero_or_pos ((n + p - 1) / p) with h0 | hpos
    · omega
    · have h : ((n + p - 1) / p - 1) < ⌈(n : ℚ) / (p : ℚ)⌉₊ := by
        rw [Nat.lt_ceil, lt_div_iff₀ hp0]
        have h1 := Nat.div_add_mod (n + p - 1) p
        have h3 : p * ((n + p - 1) / p) = (n + p - 1) / p * p := Nat.mul_comm _ _
        have h4 : ((n + p - 1) / p - 1) * p + p = (n + p - 1) / p * p := by
          have : (n + p - 1) / p = ((n + p - 1) / p - 1) + 1 := by omega
          nth_rewrite 2 [this]
          rw [Nat.add_mul, Nat.one_mul]
        have h5 : ((n + p - 1) / p - 1) * p < n := by omega
        exact_mod_cast h5
      omega

/-- The page count of `ShowReagentItems` as a rounded-up quotient. -/
theorem totalPagesOf_eq (pageSize totalItems : Nat) (hp : 1 ≤ pageSize)
    (hn : totalItems < 4294967296) :
    totalPagesOf pageSize totalItems = max 1 ((totalItems + pageSize - 1) / pageSize) := by
  unfold totalPagesOf
  by_cases h0 : totalItems = 0
  · subst h0
    rw [if_pos rfl, Nat.zero_add, Nat.div_eq_of_lt (by omega)]
    rfl
  · rw [if_neg h0]
    have h1 : (totalItems - 1) / pageSize + 1 = (totalItems + pageSize - 1) / pageSize := by
      rw [← Nat.add_div_right _ (by omega : 0 < pageSize)]
      congr 1
      omega
    have h2 : (totalItems - 1) / pageSize ≤ totalItems - 1 := Nat.div_le_self _ _
    have h3 : 1 ≤ (totalItems - 1) / pageSize + 1 := Nat.le_add_left _ _
    rw [u32_of_lt (by omega), h1]
    rw [h1] at h3
    exact (Nat.max_eq_right h3).symm


/-- C14. For every item count `totalItems` (a `uint32`) and every page size
of at least 1, the `totalPages` computed by `ShowReagentItems` is
`max 1 (ceil (totalItems / pageSize))`, the ceiling written both as the
integer quotient `(totalItems + pageSize - 1) / pageSize` and as the ceiling
of the fraction; no item gives 1 page, `pageSize` items give 1 page and
`pageSize + 1` items give 2 pages. -/
theorem totalPages_spec (pageSize totalItems : Nat) (hp : 1 ≤ pageSize)
    (hn : totalItems < 4294967296) :
    totalPagesOf pageSize totalItems = max 1 ((totalItems + pageSize - 1) / pageSize)
      ∧ (totalPagesOf pageSize totalItems : ℚ)
          = max 1 (⌈(totalItems : ℚ) / (pageSize : ℚ)⌉₊ : ℚ)
      ∧ totalPagesOf pageSize 0 = 1
      ∧ (pageSize < 4294967296 → totalPagesOf pageSize pageSize = 1)
      ∧ (pageSize + 1 < 4294967296 → totalPagesOf pageSize (pageSize + 1) = 2) := by
  have h := totalPagesOf_eq pageSize totalItems hp hn
  refine ⟨h, ?_, ?_, ?_, ?_⟩
  · rw [h, ceil_div_eq totalItems pageSize hp]
    push_cast
    rfl
  · rfl
  · intro hlt
    rw [totalPagesOf_eq pageSize pageSize hp hlt]
    have : (pageSize + pageSize - 1) / pageSize = 1 := by
      apply Nat.div_eq_of_lt_le <;> omega
    rw [this]
    rfl
  · intro hlt
    rw [totalPagesOf_eq pageSize (pageSize + 1) hp hlt]
    have : (pageSize + 1 + pageSize - 1) / pageSize = 2 := by
      apply Nat.div_eq_of_lt_le <;> omega
    rw [this]
    rfl

/-- C14 at 27 items and 13 options per page: 3 pages. -/
theorem totalPages_spec_witness :
    totalPagesOf 13 27 = max 1 ((27 + 13 - 1) / 13)
      ∧ (totalPagesOf 13 27 : ℚ) = max 1 (⌈((27 : Nat) : ℚ) / ((13 : Nat) : ℚ)⌉₊ : ℚ)
      ∧ totalPagesOf 13 0 = 1
      ∧ (13 < 4294967296 → totalPagesOf 13 13 = 1)
      ∧ (13 + 1 < 4294967296 → totalPagesOf 13 (13 + 1) = 2) :=
  totalPages_spec 13 27 (by decide) (by decide)

/-! ## The clamped page and the listed range -/

/-- The page count is at least 1. -/
theorem totalPagesOf_pos (pageSize totalItems : Nat) (hn : totalItems < 4294967296) :
    1 ≤ totalPagesOf pageSize totalItems := by
  unfold totalPagesOf
  by_cases h0 : totalItems = 0
  · rw [if_pos h0]
  · rw [if_neg h0]
    have h2 : (totalItems - 1) / pageSize ≤ totalItems - 1 := Nat.div_le_self _ _
    rw [u32_of_lt (by omega)]
    exact Nat.le_add_left _ _

/-- The clamp of `ShowReagentItems` is the minimum with the last page. -/
theorem clampPage_eq_min (totalPages gossipPageNumber : Nat) (hT : 1 ≤ totalPages) :
    clampPage totalPages gossipPageNumber = min gossipPageNumber (totalPages - 1) := by
  unfold clampPage
  by_cases h : gossipPageNumber ≥ totalPages
  · rw [if_pos h, if_neg (by omega)]
    omega
  · rw [if_neg h]
    omega

/-- On a page that ends within the `uint32` range, `endValue` is the last
position of the page. -/
theorem endValueOf_eq (pageSize p : Nat) (hp : 1 ≤ pageSize)
    (hfit : (p + 1) * pageSize ≤ 4294967296) :
    endValueOf pageSize p = (p + 1) * pageSize - 1 := by
  have hpos : 1 ≤ (p + 1) * pageSize := Nat.mul_pos (Nat.succ_pos p) hp
  unfold endValueOf u32
  rcases Nat.lt_or_eq_of_le hfit with hlt | heq
  · rw [Nat.mod_eq_of_lt hlt]
    have : (p + 1) * pageSize + 4294967295 = ((p + 1) * pageSize - 1) + 4294967296 := by omega
    rw [this, Nat.add_mod_right, Nat.mod_eq_of_lt (by omega)]
  · rw [heq]

/-- The first position of a page that ends within the `uint32` range. -/
theorem startValueOf_eq (pageSize p : Nat) (hfit : (p + 1) * pageSize ≤ 4294967296)
    (hp : 1 ≤ pageSize) : startValueOf pageSize p = p * pageSize := by
  unfold startValueOf
  apply u32_of_lt
  have : (p + 1) * pageSize = p * pageSize + pageSize := by rw [Nat.add_mul, Nat.one_mul]
  omega

/-- The listing loop, given an iteration for every counter value up to
`endValue`, lists the positions from `i` to `endValue` that exist. -/
theorem listedFrom_eq (itemEntries : List Nat) (endValue : Nat)
    (hlen : itemEntries.length < 4294967296) :
    ∀ (fuel i : Nat), endValue + 1 - i ≤ fuel →
      listedFrom itemEntries endValue fuel i
        = some ((itemEntries.drop i).take (endValue + 1 - i)) := by
  intro fuel
  induction fuel with
  | zero =>
    intro i hf
    have hi : ¬ i ≤ endValue := by omega
    have h0 : endValue + 1 - i = 0 := by omega
    simp only [listedFrom, if_neg hi, h0, List.take_zero]
  | succ fuel ih =>
    intro i hf
    by_cases hi : i ≤ endValue
    · by_cases hbr : itemEntries.isEmpty ∨ i > itemEntries.length - 1
      · have hge : itemEntries.length ≤ i := by
          rcases hbr with he | hgt
          · rw [List.isEmpty_iff] at he
            rw [he]
            exact Nat.zero_le _
          · omega
        simp only [listedFrom, if_pos hi, if_pos hbr, List.drop_eq_nil_of_le hge, List.take_nil]
      · have hlt : i < itemEntries.length := by
          by_contra hcon
          apply hbr
          right
          rcases Nat.eq_zero_or_pos itemEntries.length with h0 | hpos
          · exfalso
            apply hbr
            left
            rw [List.isEmpty_iff]
            exact List.length_eq_zero.mp h0
          · omega
        have hu : u32 (i + 1) = i + 1 := u32_of_lt (by omega)
        have hk : endValue + 1 - i = (endValue + 1 - (i + 1)) + 1 := by omega
        simp only [listedFrom, if_pos hi, if_neg hbr, hu, ih (i + 1) (by omega)]
        rw [hk, List.drop_eq_getElem_cons hlt, List.take_succ_cons]
        congr 2
        simp [List.getD_eq_getElem?_getD, List.getElem?_eq_getElem hlt]
    · have h0 : endValue + 1 - i = 0 := by omega
      simp only [listedFrom, if_neg hi, h0, List.take_zero]

/-- The stored items listed on a page that ends within the `uint32` range. -/
theorem listedEntries_eq (pageSize p : Nat) (itemEntries : List Nat) (hp : 1 ≤ pageSize)
    (hlen : itemEntries.length < 4294967296) (hfit : (p + 1) * pageSize ≤ 4294967296) :
    listedEntries pageSize p itemEntries
      = some ((itemEntries.drop (p * pageSize)).take pageSize) := by
  unfold listedEntries
  rw [listedFrom_eq itemEntries _ hlen _ _ (Nat.le_refl _), endValueOf_eq pageSize p hp hfit,
    startValueOf_eq pageSize p hfit hp]
  have hpos : 1 ≤ (p + 1) * pageSize := Nat.mul_pos (Nat.succ_pos p) hp
  have : (p + 1) * pageSize - 1 + 1 - p * pageSize = pageSize := by
    have : (p + 1) * pageSize = p * pageSize + pageSize := by rw [Nat.add_mul, Nat.one_mul]
    omega
  rw [this]

/-- The listing loop comes to an end whenever the list has fewer than `2^32`
entries. -/
theorem listedEntries_isSome (pageSize p : Nat) (itemEntries : List Nat)
    (hlen : itemEntries.length < 4294967296) :
    (listedEntries pageSize p itemEntries).isSome = true := by
  unfold listedEntries
  rw [listedFrom_eq itemEntries _ hlen _ _ (Nat.le_refl _)]
  rfl

/-! ## Page clamp -/

/-- A selection of a category is answered by `ShowReagentItems` with the page
number converted to `uint16`. -/
theorem OnGossipSelect_category (env : Env) (hdr : Header) (localeName : Nat → Option String)
    (player : Player) (c requested : Nat) (g : Gossip)
    (hc : IsCategory env c = true) (hd : c ≠ hdr.DEPOSIT_ALL_REAGENTS)
    (hw : c ≠ hdr.WITHDRAW_ALL_REAGENTS) (hm : c ≠ hdr.MAIN_MENU) :
    OnGossipSelect env hdr localeName player c requested g
      = showReagentItemsView env hdr localeName player c (u16 requested) g := by
  unfold OnGossipSelect
  rw [if_neg hd, if_neg hw, if_neg hm, if_pos hc]

/-- C15, as stated, fails: the page number 65536 requested for the cloth
category with two stored items and one option per page has
`min 65536 (totalPages - 1) = 1`, but the page rendered is page 0: the menu
lists the first item, Linen Cloth, with page index 0. -/
theorem page_clamp_counterexample :
    (OnGossipSelect (pagedEnv 1) exampleHeader noLocale examplePlayer 5 65536
        (gossipOver [clothRow 3, tigerseyeRow 4])).map (fun g => g.view)
      = some (View.menu
          [ { label := Label.categoryHeader "Cloth" 2 7, sender := 0, action := 0 },
            { label := Label.depositAll, sender := 16, action := 5 },
            { label := Label.withdrawAll, sender := 17, action := 5 },
            { label := Label.nextPage 2 2, sender := 5, action := 1 },
            { label := Label.storedItem 2589 3, sender := 2589, action := 0 },
            { label := Label.backToCategories, sender := 18, action := 0 } ])
      ∧ totalPagesOf 1 2 = 2
      ∧ min 65536 (totalPagesOf 1 2 - 1) = 1
      ∧ clampPage (totalPagesOf 1 2) (u16 65536) = 0 := by
  decide

/-- C15, amended. A page number requested through `OnGossipSelect` on a
category reaches `ShowReagentItems` through its `uint16` parameter, so the
page index rendered is `min (requested mod 65536) (totalPages - 1)`; it lies
in `[0, totalPages - 1]`, and it is `min requested (totalPages - 1)` for every
request below 65536. -/
theorem page_clamp (env : Env) (hdr : Header) (localeName : Nat → Option String)
    (player : Player) (c requested totalItems : Nat) (g : Gossip)
    (hc : IsCategory env c = true) (hd : c ≠ hdr.DEPOSIT_ALL_REAGENTS)
    (hw : c ≠ hdr.WITHDRAW_ALL_REAGENTS) (hm : c ≠ hdr.MAIN_MENU)
    (hn : totalItems < 4294967296) :
    OnGossipSelect env hdr localeName player c requested g
        = showReagentItemsView env hdr localeName player c (requested % 65536) g
      ∧ clampPage (totalPagesOf env.g_maxOptionsPerPage totalItems) (requested % 65536)
          = min (requested % 65536) (totalPagesOf env.g_maxOptionsPerPage totalItems - 1)
      ∧ clampPage (totalPagesOf env.g_maxOptionsPerPage totalItems) (requested % 65536)
          ≤ totalPagesOf env.g_maxOptionsPerPage totalItems - 1
      ∧ (requested < 65536 →
          clampPage (totalPagesOf env.g_maxOptionsPerPage totalItems) (requested % 65536)
            = min requested (totalPagesOf env.g_maxOptionsPerPage totalItems - 1)) := by
  have hT := totalPagesOf_pos env.g_maxOptionsPerPage totalItems hn
  have hmin := clampPage_eq_min (totalPagesOf env.g_maxOptionsPerPage totalItems)
    (requested % 65536) hT
  refine ⟨OnGossipSelect_category env hdr localeName player c requested g hc hd hw hm, hmin,
    ?_, ?_⟩
  · rw [hmin]
    exact Nat.min_le_right _ _
  · intro hlt
    rw [hmin, Nat.mod_eq_of_lt hlt]

/-- C15, amended, at the request of page 65537 for the cloth category with two
stored items and one option per page: page 1 is rendered. -/
theorem page_clamp_witness :
    OnGossipSelect (pagedEnv 1) exampleHeader noLocale examplePlayer 5 65537
        (gossipOver [clothRow 3, tigerseyeRow 4])
        = showReagentItemsView (pagedEnv 1) exampleHeader noLocale examplePlayer 5
            (65537 % 65536) (gossipOver [clothRow 3, tigerseyeRow 4])
      ∧ clampPage (totalPagesOf (pagedEnv 1).g_maxOptionsPerPage 2) (65537 % 65536)
          = min (65537 % 65536) (totalPagesOf (pagedEnv 1).g_maxOptionsPerPage 2 - 1)
      ∧ clampPage (totalPagesOf (pagedEnv 1).g_maxOptionsPerPage 2) (65537 % 65536)
          ≤ totalPagesOf (pagedEnv 1).g_maxOptionsPerPage 2 - 1
      ∧ (65537 < 65536 →
          clampPage (totalPagesOf (pagedEnv 1).g_maxOptionsPerPage 2) (65537 % 65536)
            = min 65537 (totalPagesOf (pagedEnv 1).g_maxOptionsPerPage 2 - 1)) :=
  page_clamp (pagedEnv 1) exampleHeader noLocale examplePlayer 5 65537 2
    (gossipOver [clothRow 3, tigerseyeRow 4]) (by decide) (by decide) (by decide) (by decide)
    (by decide)

/-! ## The displayed range -/

/-- Without a catalog the comparator of the listing orders by item entry. -/
theorem itemLess_nameless (a b : Nat) :
    itemLess namelessEnv noLocale a b = decide (a < b) := by
  simp [itemLess, getSortKey, GetItemName, namelessEnv]

/-- C16, as stated, fails when `endValue` wraps around: with 2147483649
options per page and the 2147483650 item entries `0, 1, ..., 2147483649`, a
list in the order of the comparator, there are two pages and page 1 is the
effective page for the request of page 1; `endValue` is
`(2 * 2147483649 - 1) mod 2^32 = 1`, below `startValue = 2147483649`, so
nothing is listed, whereas the positions from `1 * 2147483649` up to
`min 2147483650 (2 * 2147483649)` hold one entry. -/
theorem displayed_range_counterexample :
    List.Chain' (fun a b => itemLess namelessEnv noLocale a b = true) manyEntries
      ∧ manyEntries.length = 2147483650
      ∧ clampPage (totalPagesOf 2147483649 (u32 manyEntries.length)) 1 = 1
      ∧ endValueOf 2147483649 1 = 1
      ∧ startValueOf 2147483649 1 = 2147483649
      ∧ listedEntries 2147483649 1 manyEntries = some []
      ∧ ((manyEntries.take (min manyEntries.length ((1 + 1) * 2147483649))).drop
          (1 * 2147483649)).length = 1 := by
  have hlen : manyEntries.length = 2147483650 := List.length_range _
  have hend : endValueOf 2147483649 1 = 1 := by decide
  have hstart : startValueOf 2147483649 1 = 2147483649 := by decide
  refine ⟨?_, hlen, ?_, hend, hstart, ?_, ?_⟩
  · unfold manyEntries
    rw [show (2147483650 : Nat) = Nat.succ 2147483649 from rfl, List.chain'_range_succ]
    intro m _
    rw [itemLess_nameless]
    exact decide_eq_true (Nat.lt_succ_self m)
  · rw [hlen]
    decide
  · unfold listedEntries
    rw [hend, hstart]
    rfl
  · rw [List.length_drop, List.length_take, hlen]
    decide

/-- C16, amended. For every item list of fewer than `2^32` entries, every
page size of at least 1 and every page index `p` whose page ends within the
`uint32` range, `(p + 1) * pageSize ≤ 2^32`, the entries listed by
`ShowReagentItems` are the elements at the positions from `p * pageSize` up to
`min totalItems ((p + 1) * pageSize)`, in that order; their number is
`min pageSize (totalItems - p * pageSize)`, so nothing is listed without
items, and `pageSize + 1` items give `pageSize` entries on page 0 and 1 on
page 1. -/
theorem displayed_range (pageSize p : Nat) (itemEntries : List Nat) (hp : 1 ≤ pageSize)
    (hlen : itemEntries.length < 4294967296) (hfit : (p + 1) * pageSize ≤ 4294967296) :
    ∃ listed, listedEntries pageSize p itemEntries = some listed
      ∧ listed = (itemEntries.take (min itemEntries.length ((p + 1) * pageSize))).drop
          (p * pageSize)
      ∧ listed.length = min pageSize (itemEntries.length - p * pageSize) := by
  have hB : (p + 1) * pageSize = p * pageSize + pageSize := by rw [Nat.add_mul, Nat.one_mul]
  have htake : itemEntries.take (min itemEntries.length ((p + 1) * pageSize))
      = itemEntries.take ((p + 1) * pageSize) := by
    rcases Nat.le_total itemEntries.length ((p + 1) * pageSize) with hle | hle
    · rw [Nat.min_eq_left hle, List.take_of_length_le hle, List.take_of_length_le (Nat.le_refl _)]
    · rw [Nat.min_eq_right hle]
  refine ⟨_, listedEntries_eq pageSize p itemEntries hp hlen hfit, ?_, ?_⟩
  · rw [htake, List.drop_take, hB, Nat.add_sub_cancel_left]
  · rw [List.length_take, List.length_drop]

/-- C16, amended, at three items and two options per page: page 1 lists the
third item. -/
theorem displayed_range_witness :
    ∃ listed, listedEntries 2 1 [2589, 818, 90001] = some listed
      ∧ listed = ([2589, 818, 90001].take
          (min [2589, 818, 90001].length ((1 + 1) * 2))).drop (1 * 2)
      ∧ listed.length = min 2 ([2589, 818, 90001].length - 1 * 2) :=
  displayed_range 2 1 [2589, 818, 90001] (by decide) (by decide) (by decide)

/-! ## The options "Next Page" and "Previous Page" -/

/-- On a page that ends within the `uint32` range, "Next Page" is offered
exactly when the page is full. -/
theorem offersNext_iff (pageSize p mapSize : Nat) (hp : 1 ≤ pageSize)
    (hfit : (p + 1) * pageSize ≤ 4294967296) :
    offersNext pageSize p mapSize = true ↔ (p + 1) * pageSize ≤ mapSize := by
  have hpos : 1 ≤ (p + 1) * pageSize := Nat.mul_pos (Nat.succ_pos p) hp
  unfold offersNext
  rw [decide_eq_true_iff, endValueOf_eq pageSize p hp hfit]
  omega

/-- C20. The "Next Page" option does not match the page count: with two stored
items and two options per page there is one page, and on page 0
`endValue = 1 < 2 = entryToAmountMap.size()`, so `ShowReagentItems` offers
"Next Page (2/1)" although `0 + 1 < totalPages` is false.  "Previous Page" is
not offered on page 0. -/
theorem next_page_offered_on_full_last_page :
    ShowReagentItems (pagedEnv 2) exampleHeader noLocale examplePlayer 5 0
        [clothRow 3, tigerseyeRow 4]
      = some
          [ { label := Label.categoryHeader "Cloth" 2 7, sender := 0, action := 0 },
            { label := Label.depositAll, sender := 16, action := 5 },
            { label := Label.withdrawAll, sender := 17, action := 5 },
            { label := Label.nextPage 2 1, sender := 5, action := 1 },
            { label := Label.storedItem 2589 3, sender := 2589, action := 0 },
            { label := Label.storedItem 818 4, sender := 818, action := 0 },
            { label := Label.backToCategories, sender := 18, action := 0 } ]
      ∧ totalPagesOf 2 2 = 1
      ∧ clampPage (totalPagesOf 2 2) 0 = 0
      ∧ endValueOf 2 0 = 1
      ∧ offersNext 2 0 2 = true
      ∧ ¬ (0 + 1 < totalPagesOf 2 2)
      ∧ offersPrevious 0 = false := by
  decide

/-! ## The order of the listing -/

/-- The vector `itemEntries` holds the item entries of the rows, in the order
of the rows. -/
theorem buildArrays_entries (rows : List (Nat × Nat)) :
    (buildArrays rows).2.1 = rows.map Prod.fst := by
  unfold buildArrays
  have h : ∀ (rows : List (Nat × Nat)) (acc : StdMap × List Nat × Nat),
      (rows.foldl (fun acc row => (acc.1.set row.1 row.2, acc.2.1 ++ [row.1],
        u32 (acc.2.2 + row.2))) acc).2.1 = acc.2.1 ++ rows.map Prod.fst := by
    intro rows
    induction rows with
    | nil => intro acc; simp
    | cons row rest ih =>
      intro acc
      rw [List.foldl_cons, ih]
      simp
  rw [h]
  rfl

/-- The comparator of the listing: by lower-cased name, then by item entry. -/
theorem itemLess_iff (env : Env) (localeName : Nat → Option String) (a b : Nat) :
    itemLess env localeName a b = true
      ↔ getSortKey env localeName a < getSortKey env localeName b
        ∨ (getSortKey env localeName a = getSortKey env localeName b ∧ a < b) := by
  unfold itemLess
  by_cases h : getSortKey env localeName a = getSortKey env localeName b
  · rw [if_pos h, decide_eq_true_iff]
    constructor
    · intro hlt
      exact Or.inr ⟨h, hlt⟩
    · rintro (hlt | ⟨_, hlt⟩)
      · rw [h] at hlt
        exact absurd hlt (lt_irrefl _)
      · exact hlt
  · rw [if_neg h, decide_eq_true_iff]
    have hlex : (getSortKey env localeName a).data < (getSortKey env localeName b).data
        ↔ getSortKey env localeName a < getSortKey env localeName b :=
      String.lt_iff_toList_lt.symm
    rw [hlex]
    constructor
    · intro hlt
      exact Or.inl hlt
    · rintro (hlt | ⟨he, _⟩)
      · exact hlt
      · exact absurd he h

/-- An entry is not before another one exactly when it is the same entry or
the other one is before it. -/
theorem itemLess_eq_false_iff (env : Env) (localeName : Nat → Option String) (a b : Nat) :
    itemLess env localeName b a = false
      ↔ getSortKey env localeName a < getSortKey env localeName b
        ∨ (getSortKey env localeName a = getSortKey env localeName b ∧ a ≤ b) := by
  rw [← Bool.not_eq_true, itemLess_iff]
  rcases lt_trichotomy (getSortKey env localeName a) (getSortKey env localeName b)
    with hlt | heq | hgt
  · constructor
    · intro _
      exact Or.inl hlt
    · rintro _ (h | ⟨h, _⟩)
      · exact lt_asymm hlt h
      · rw [h] at hlt
        exact lt_irrefl _ hlt
  · constructor
    · intro hn
      refine Or.inr ⟨heq, ?_⟩
      by_contra hle
      exact hn (Or.inr ⟨heq.symm, by omega⟩)
    · rintro (h | ⟨_, hle⟩) (h2 | ⟨_, hlt⟩)
      · rw [heq] at h
        exact lt_irrefl _ h
      · rw [heq] at h
        exact lt_irrefl _ h
      · rw [heq] at h2
        exact lt_irrefl _ h2
      · omega
  · constructor
    · intro hn
      exact absurd (Or.inl hgt) hn
    · rintro (h | ⟨h, _⟩)
      · exact absurd h (lt_asymm hgt)
      · rw [h] at hgt
        exact absurd hgt (lt_irrefl _)

/-- The result of `std::sort` in `ShowReagentItems` is in the order of the
comparator: no entry is before an earlier one. -/
theorem stdSort_sorted (env : Env) (localeName : Nat → Option String) (l : List Nat) :
    (stdSort (itemLess env localeName) l).Pairwise
      (fun a b => itemLess env localeName b a = false) := by
  haveI : IsTotal Nat (fun a b => itemLess env localeName b a = false) := by
    constructor
    intro a b
    rw [itemLess_eq_false_iff, itemLess_eq_false_iff]
    rcases lt_trichotomy (getSortKey env localeName a) (getSortKey env localeName b)
      with hlt | heq | hgt
    · exact Or.inl (Or.inl hlt)
    · rcases Nat.le_total a b with h | h
      · exact Or.inl (Or.inr ⟨heq, h⟩)
      · exact Or.inr (Or.inr ⟨heq.symm, h⟩)
    · exact Or.inr (Or.inl hgt)
  haveI : IsTrans Nat (fun a b => itemLess env localeName b a = false) := by
    constructor
    intro a b c
    simp only [itemLess_eq_false_iff]
    rintro (h1 | ⟨h1, h1le⟩) (h2 | ⟨h2, h2le⟩)
    · exact Or.inl (lt_trans h1 h2)
    · rw [h2] at h1
      exact Or.inl h1
    · rw [← h1] at h2
      exact Or.inl h2
    · exact Or.inr ⟨h1.trans h2, Nat.le_trans h1le h2le⟩
  exact List.sorted_insertionSort (fun a b => itemLess env localeName b a = false) l

/-- The result of `std::sort` is a rearrangement of the vector. -/
theorem stdSort_perm (less : Nat → Nat → Bool) (l : List Nat) : (stdSort less l).Perm l :=
  List.perm_insertionSort _ l

/-- The comparator leaves `std::sort` no choice: a rearrangement of the vector
in which no entry is before an earlier one is the result of `stdSort`. -/
theorem stdSort_unique (env : Env) (localeName : Nat → Option String) (l l' : List Nat)
    (hperm : l'.Perm l)
    (hsorted : l'.Pairwise (fun a b => itemLess env localeName b a = false)) :
    l' = stdSort (itemLess env localeName) l := by
  haveI : IsAntisymm Nat (fun a b => itemLess env localeName b a = false) := by
    constructor
    intro a b
    simp only [itemLess_eq_false_iff]
    rintro (h1 | ⟨h1, h1le⟩) (h2 | ⟨h2, h2le⟩)
    · exact absurd h2 (lt_asymm h1)
    · rw [h2] at h1
      exact absurd h1 (lt_irrefl _)
    · rw [h1] at h2
      exact absurd h2 (lt_irrefl _)
    · exact Nat.le_antisymm h1le h2le
  exact List.eq_of_perm_of_sorted (hperm.trans (stdSort_perm _ l).symm) hsorted
    (stdSort_sorted env localeName l)

/-- C17. For every table with one row per key, every catalog and every locale
table (together the display-name function), the list `ShowReagentItems` pages
over is a rearrangement of the item entries of the rows of the category, and
any two consecutive entries `a`, `b` of it have
`lower (name a) < lower (name b)`, or equal lower-cased names and `a < b`. -/
theorem listing_sorted (env : Env) (localeName : Nat → Option String) (player : Player)
    (item_subclass : Nat) (db : Table) (hu : db.UniqueKeys) :
    (stdSort (itemLess env localeName)
        (buildArrays (db.selectCategory (GetStorageKeys env player).1
          (GetStorageKeys env player).2 item_subclass)).2.1).Perm
        ((db.selectCategory (GetStorageKeys env player).1
          (GetStorageKeys env player).2 item_subclass).map Prod.fst)
      ∧ List.Chain'
          (fun a b => getSortKey env localeName a < getSortKey env localeName b
            ∨ (getSortKey env localeName a = getSortKey env localeName b ∧ a < b))
          (stdSort (itemLess env localeName)
            (buildArrays (db.selectCategory (GetStorageKeys env player).1
              (GetStorageKeys env player).2 item_subclass)).2.1)
      ∧ getSortKey env localeName
          = fun entry => String.map Char.toLower (GetItemName env localeName entry) := by
  rw [buildArrays_entries]
  have hperm := stdSort_perm (itemLess env localeName)
    ((db.selectCategory (GetStorageKeys env player).1
      (GetStorageKeys env player).2 item_subclass).map Prod.fst)
  have hnd : (stdSort (itemLess env localeName)
      ((db.selectCategory (GetStorageKeys env player).1
        (GetStorageKeys env player).2 item_subclass).map Prod.fst)).Nodup :=
    hperm.nodup_iff.mpr (selectCategory_nodup db hu _ _ _)
  refine ⟨hperm, ?_, ?_⟩
  · apply List.Pairwise.chain'
    have hs := stdSort_sorted env localeName
      ((db.selectCategory (GetStorageKeys env player).1
        (GetStorageKeys env player).2 item_subclass).map Prod.fst)
    have hboth := hs.and hnd
    refine hboth.imp ?_
    intro a b hab
    rcases (itemLess_eq_false_iff env localeName a b).mp hab.1 with h | ⟨h, hle⟩
    · exact Or.inl h
    · exact Or.inr ⟨h, Nat.lt_of_le_of_ne hle hab.2⟩
  · funext entry
    rw [String.map_eq]
    rfl

/-- C17 for the two stored items of the example: Linen Cloth comes before
Tigerseye. -/
theorem listing_sorted_witness :
    (stdSort (itemLess exampleEnv noLocale)
        (buildArrays (Table.selectCategory [tigerseyeRow 4, clothRow 3]
          (GetStorageKeys exampleEnv examplePlayer).1
          (GetStorageKeys exampleEnv examplePlayer).2 5)).2.1).Perm
        ((Table.selectCategory [tigerseyeRow 4, clothRow 3]
          (GetStorageKeys exampleEnv examplePlayer).1
          (GetStorageKeys exampleEnv examplePlayer).2 5).map Prod.fst)
      ∧ List.Chain'
          (fun a b => getSortKey exampleEnv noLocale a < getSortKey exampleEnv noLocale b
            ∨ (getSortKey exampleEnv noLocale a = getSortKey exampleEnv noLocale b ∧ a < b))
          (stdSort (itemLess exampleEnv noLocale)
            (buildArrays (Table.selectCategory [tigerseyeRow 4, clothRow 3]
              (GetStorageKeys exampleEnv examplePlayer).1
              (GetStorageKeys exampleEnv examplePlayer).2 5)).2.1)
      ∧ getSortKey exampleEnv noLocale
          = fun entry => String.map Char.toLower (GetItemName exampleEnv noLocale entry) :=
  listing_sorted exampleEnv noLocale examplePlayer 5 [tigerseyeRow 4, clothRow 3] (by decide)

/-! ## Return from the item submenu -/

theorem delete_length_le (t : Table) (a g e : Nat) : (t.delete a g e).length ≤ t.length :=
  List.length_filter_le _ _

theorem update_length (t : Table) (v a g e : Nat) : (t.update v a g e).length = t.length :=
  List.length_map _ _

theorem WithdrawOne_db_length (env : Env) (player : Player) (entry : Nat) (w : World) :
    (WithdrawOne env player entry w).db.length ≤ w.db.length := by
  unfold WithdrawOne
  simp only
  split
  · exact Nat.le_refl _
  · split
    · exact Nat.le_refl _
    · split
      · exact Nat.le_refl _
      · split
        · exact Nat.le_refl _
        · simp only
          split
          · exact delete_length_le _ _ _ _
          · exact Nat.le_of_eq (update_length _ _ _ _ _)

theorem WithdrawStack_db_length (env : Env) (player : Player) (entry : Nat) (w : World) :
    (WithdrawStack env player entry w).db.length ≤ w.db.length := by
  unfold WithdrawStack
  simp only
  split
  · exact Nat.le_refl _
  · split
    · exact Nat.le_refl _
    · split
      · exact Nat.le_refl _
      · split
        · exact Nat.le_refl _
        · simp only
          split
          · exact delete_length_le _ _ _ _
          · exact Nat.le_of_eq (update_length _ _ _ _ _)

theorem WithdrawAllOfItem_db_length (env : Env) (player : Player) (entry : Nat) (w w' : World)
    (h : WithdrawAllOfItem env player entry w = some w') : w'.db.length ≤ w.db.length := by
  unfold WithdrawAllOfItem at h
  simp only at h
  split at h
  · cases h; exact Nat.le_refl _
  · split at h
    · cases h; exact Nat.le_refl _
    · split at h
      · cases h; exact Nat.le_refl _
      · split at h
        · cases h
        · cases h
          simp only
          split
          · exact delete_length_le _ _ _ _
          · exact Nat.le_of_eq (update_length _ _ _ _ _)

/-- A withdraw action adds no row to the table. -/
theorem withdrawAction_db_length (env : Env) (player : Player) (a itemEntry : Nat)
    (w w' : World) (h : withdrawAction env player a itemEntry w = some w') :
    w'.db.length ≤ w.db.length := by
  unfold withdrawAction at h
  split at h
  · cases h; exact WithdrawOne_db_length _ _ _ _
  · split at h
    · cases h; exact WithdrawStack_db_length _ _ _ _
    · split at h
      · exact WithdrawAllOfItem_db_length _ _ _ _ _ h
      · cases h; exact Nat.le_refl _

/-- A withdraw action comes to an end when every stack size of the catalog is
at least 1. -/
theorem withdrawAction_isSome (env : Env) (player : Player) (a itemEntry : Nat) (w : World)
    (hS : ∀ e t, env.GetItemTemplate e = some t → 1 ≤ t.MaxStackSize) :
    ∃ w', withdrawAction env player a itemEntry w = some w' := by
  unfold withdrawAction
  split
  · exact ⟨_, rfl⟩
  · split
    · exact ⟨_, rfl⟩
    · split
      · exact WithdrawAllOfItem_isSome env player itemEntry w hS
      · exact ⟨_, rfl⟩

/-- The listing of a category is sent whenever the page size is at least 1
and the table has fewer than `2^32` rows. -/
theorem ShowReagentItems_isSome (env : Env) (hdr : Header) (localeName : Nat → Option String)
    (player : Player) (item_subclass gossipPageNumber : Nat) (db : Table)
    (hp : 1 ≤ env.g_maxOptionsPerPage) (hlen : db.length < 4294967296) :
    ∃ items, ShowReagentItems env hdr localeName player item_subclass gossipPageNumber db
      = some items := by
  have hl : (stdSort (itemLess env localeName)
      (buildArrays (db.selectCategory (GetStorageKeys env player).1
        (GetStorageKeys env player).2 item_subclass)).2.1).length < 4294967296 := by
    rw [(stdSort_perm _ _).length_eq, buildArrays_entries, List.length_map]
    unfold Table.selectCategory
    rw [List.length_map]
    exact Nat.lt_of_le_of_lt (List.length_filter_le _ _) hlen
  have hsome := listedEntries_isSome env.g_maxOptionsPerPage
    (clampPage (totalPagesOf env.g_maxOptionsPerPage
      (u32 (stdSort (itemLess env localeName)
        (buildArrays (db.selectCategory (GetStorageKeys env player).1
          (GetStorageKeys env player).2 item_subclass)).2.1).length)) gossipPageNumber)
    _ hl
  obtain ⟨listed, hlisted⟩ := Option.isSome_iff_exists.mp hsome
  have hguard : ¬ (u32 (stdSort (itemLess env localeName)
      (buildArrays (db.selectCategory (GetStorageKeys env player).1
        (GetStorageKeys env player).2 item_subclass)).2.1).length ≠ 0
      ∧ env.g_maxOptionsPerPage = 0) := by
    intro h
    omega
  unfold ShowReagentItems
  simp only [hlisted, if_neg hguard]
  exact ⟨_, rfl⟩

/-- With a page size of 0 the listing of a category that holds an item is not
sent: the computation of `totalPages` divides by zero. -/
theorem ShowReagentItems_pageSize_zero :
    ShowReagentItems (pagedEnv 0) exampleHeader noLocale examplePlayer 5 0 [clothRow 3] = none
      ∧ ShowReagentItems (pagedEnv 0) exampleHeader noLocale examplePlayer 5 0 []
        = some
            [ { label := Label.categoryHeader "Cloth" 0 0, sender := 0, action := 0 },
              { label := Label.depositAll, sender := 16, action := 5 },
              { label := Label.withdrawAll, sender := 17, action := 5 },
              { label := Label.backToCategories, sender := 18, action := 0 } ] := by
  decide

/-- A selection that is none of the codes of the dispatch and has a catalog
definition records the category and the page and shows the item submenu. -/
theorem OnGossipSelect_item (env : Env) (hdr : Header) (localeName : Nat → Option String)
    (player : Player) (X p : Nat) (g : Gossip) (temp : ItemTemplate)
    (htemp : env.GetItemTemplate X = some temp)
    (hd : X ≠ hdr.DEPOSIT_ALL_REAGENTS) (hw : X ≠ hdr.WITHDRAW_ALL_REAGENTS)
    (hm : X ≠ hdr.MAIN_MENU) (hc : IsCategory env X = false)
    (ha : ¬ (X = ACTION_WITHDRAW_ONE ∨ X = ACTION_WITHDRAW_STACK ∨ X = ACTION_WITHDRAW_ALL)) :
    OnGossipSelect env hdr localeName player X p g
      = some { g with
          m_lastCategoryPage := fun key =>
            if key = guidLow player then some (categoryOf env temp, u16 p)
            else g.m_lastCategoryPage key
          view := View.menu
            (ShowItemWithdrawMenu env player (categoryOf env temp) (u16 p) X g.world.db) } := by
  unfold OnGossipSelect
  rw [if_neg hd, if_neg hw, if_neg hm, if_neg (by rw [hc]; exact Bool.false_ne_true), if_neg ha]
  simp only [htemp]
  rfl

/-- A selection of a withdraw action performs it and then shows the category
last recorded for the player, or the main menu. -/
theorem OnGossipSelect_action (env : Env) (hdr : Header) (localeName : Nat → Option String)
    (player : Player) (a itemEntry : Nat) (g : Gossip) (w : World)
    (ha : a = ACTION_WITHDRAW_ONE ∨ a = ACTION_WITHDRAW_STACK ∨ a = ACTION_WITHDRAW_ALL)
    (hd : a ≠ hdr.DEPOSIT_ALL_REAGENTS) (hw : a ≠ hdr.WITHDRAW_ALL_REAGENTS)
    (hm : a ≠ hdr.MAIN_MENU) (hc : IsCategory env a = false)
    (hrun : withdrawAction env player a itemEntry g.world = some w) :
    OnGossipSelect env hdr localeName player a itemEntry g
      = if IsCategory env
            (match g.m_lastCategoryPage (guidLow player) with
              | some last => last.1
              | none => 0) = true then
          showReagentItemsView env hdr localeName player
            (match g.m_lastCategoryPage (guidLow player) with
              | some last => last.1
              | none => 0)
            (match g.m_lastCategoryPage (guidLow player) with
              | some last => last.2
              | none => 0)
            { g with world := w }
        else some { g with world := w, view := View.menu (OnGossipHello env hdr) } := by
  unfold OnGossipSelect
  rw [if_neg hd, if_neg hw, if_neg hm, if_neg (by rw [hc]; exact Bool.false_ne_true), if_pos ha]
  simp only [hrun]

/-- C18, as stated, fails for an item whose entry is one of the action codes:
the custom cloth 900001 has a catalog definition and is stored under cloth, a
category of `IsCategory`; selecting it on page 0 of the listing is taken for
`ACTION_WITHDRAW_ONE` on the item entry 0, so the main menu is shown and no
category and page are recorded, and the withdraw action that follows takes one
unit of the custom cloth and shows the main menu, not the listing of cloth. -/
theorem return_from_item_submenu_counterexample :
    customEnv.GetItemTemplate 900001 = some customCloth
      ∧ IsCategory customEnv (categoryOf customEnv customCloth) = true
      ∧ (OnGossipSelect customEnv exampleHeader noLocale examplePlayer 900001 0
          (gossipOver [customRow 3])).map
            (fun g => (g.world.db, g.m_lastCategoryPage (guidLow examplePlayer), g.view))
          = some ([customRow 3], none, View.menu (OnGossipHello customEnv exampleHeader))
      ∧ ((OnGossipSelect customEnv exampleHeader noLocale examplePlayer 900001 0
            (gossipOver [customRow 3])).bind
          (fun g => OnGossipSelect customEnv exampleHeader noLocale examplePlayer
            ACTION_WITHDRAW_ONE 900001 g)).map (fun g => (g.world.db, g.view))
          = some ([customRow 2], View.menu (OnGossipHello customEnv exampleHeader))
      ∧ (ShowReagentItems customEnv exampleHeader noLocale examplePlayer 5 0 [customRow 2]).map
            View.menu
          ≠ some (View.menu (OnGossipHello customEnv exampleHeader)) := by
  decide

/-- C18, amended. Let the item `X` have a catalog definition and be none of the
codes `OnGossipSelect` tests before it treats a selection as an item (the three
codes of the header, the categories of `IsCategory`, the three action codes),
let the action codes be none of the header codes and categories, and let
`g_maxOptionsPerPage` be at least 1.  Selecting
`X` with page `p` shows the item submenu and leaves the world as it is; a
withdraw action on `X` that follows performs the withdrawal and then shows the
listing of the category of `X` at the page `p mod 65536` (the page is recorded
as a `uint16`) when that category satisfies `IsCategory`, and the main menu
otherwise.  A withdraw action for a player without a recorded category and page
performs the withdrawal and shows the main menu, 0 being no category. -/
theorem return_from_item_submenu (env : Env) (hdr : Header)
    (localeName : Nat → Option String) (player : Player) (X p a : Nat) (g : Gossip)
    (temp : ItemTemplate) (htemp : env.GetItemTemplate X = some temp)
    (hXd : X ≠ hdr.DEPOSIT_ALL_REAGENTS) (hXw : X ≠ hdr.WITHDRAW_ALL_REAGENTS)
    (hXm : X ≠ hdr.MAIN_MENU) (hXc : IsCategory env X = false)
    (hXa : ¬ (X = ACTION_WITHDRAW_ONE ∨ X = ACTION_WITHDRAW_STACK ∨ X = ACTION_WITHDRAW_ALL))
    (ha : a = ACTION_WITHDRAW_ONE ∨ a = ACTION_WITHDRAW_STACK ∨ a = ACTION_WITHDRAW_ALL)
    (had : a ≠ hdr.DEPOSIT_ALL_REAGENTS) (haw : a ≠ hdr.WITHDRAW_ALL_REAGENTS)
    (ham : a ≠ hdr.MAIN_MENU) (hac : IsCategory env a = false)
    (h0 : IsCategory env 0 = false) (hp : 1 ≤ env.g_maxOptionsPerPage)
    (hS : ∀ e t, env.GetItemTemplate e = some t → 1 ≤ t.MaxStackSize)
    (hlen : g.world.db.length < 4294967296) :
    (∃ g1 w g2,
        OnGossipSelect env hdr localeName player X p g = some g1
        ∧ g1.world = g.world
        ∧ g1.view = View.menu
            (ShowItemWithdrawMenu env player (categoryOf env temp) (p % 65536) X g.world.db)
        ∧ withdrawAction env player a X g.world = some w
        ∧ OnGossipSelect env hdr localeName player a X g1 = some g2
        ∧ g2.world = w
        ∧ (IsCategory env (categoryOf env temp) = true →
            ∃ items, ShowReagentItems env hdr localeName player (categoryOf env temp)
                (p % 65536) w.db = some items
              ∧ g2.view = View.menu items)
        ∧ (IsCategory env (categoryOf env temp) = false →
            g2.view = View.menu (OnGossipHello env hdr)))
      ∧ (g.m_lastCategoryPage (guidLow player) = none →
          ∀ Y, ∃ w g2, withdrawAction env player a Y g.world = some w
            ∧ OnGossipSelect env hdr localeName player a Y g = some g2
            ∧ g2.world = w
            ∧ g2.view = View.menu (OnGossipHello env hdr)) := by
  constructor
  · obtain ⟨w, hw⟩ := withdrawAction_isSome env player a X g.world hS
    have hwlen : w.db.length < 4294967296 :=
      Nat.lt_of_le_of_lt (withdrawAction_db_length env player a X g.world w hw) hlen
    have h1 := OnGossipSelect_item env hdr localeName player X p g temp htemp hXd hXw hXm hXc hXa
    have key : ∀ g1 : Gossip, g1.world = g.world →
        g1.m_lastCategoryPage (guidLow player) = some (categoryOf env temp, u16 p) →
        ∃ g2, OnGossipSelect env hdr localeName player a X g1 = some g2
          ∧ g2.world = w
          ∧ (IsCategory env (categoryOf env temp) = true →
              ∃ items, ShowReagentItems env hdr localeName player (categoryOf env temp)
                  (p % 65536) w.db = some items
                ∧ g2.view = View.menu items)
          ∧ (IsCategory env (categoryOf env temp) = false →
              g2.view = View.menu (OnGossipHello env hdr)) := by
      intro g1 hworld hrec
      rw [← hworld] at hw
      have h2 := OnGossipSelect_action env hdr localeName player a X g1 w ha had haw ham hac hw
      simp only [hrec] at h2
      by_cases hcat : IsCategory env (categoryOf env temp) = true
      · obtain ⟨items, hitems⟩ := ShowReagentItems_isSome env hdr localeName player
          (categoryOf env temp) (u16 p) w.db hp hwlen
        rw [if_pos hcat] at h2
        simp only [showReagentItemsView, hitems] at h2
        refine ⟨_, h2, rfl, ?_, ?_⟩
        · intro _
          exact ⟨items, hitems, rfl⟩
        · intro hn
          rw [hn] at hcat
          exact absurd hcat Bool.false_ne_true
      · rw [if_neg hcat] at h2
        refine ⟨_, h2, rfl, ?_, ?_⟩
        · intro hy
          exact absurd hy hcat
        · intro _
          rfl
    have hex : ∃ g1, OnGossipSelect env hdr localeName player X p g = some g1
        ∧ g1.world = g.world
        ∧ g1.view = View.menu
            (ShowItemWithdrawMenu env player (categoryOf env temp) (p % 65536) X g.world.db)
        ∧ g1.m_lastCategoryPage (guidLow player) = some (categoryOf env temp, u16 p) :=
      ⟨_, h1, rfl, rfl, if_pos rfl⟩
    obtain ⟨g1, hg1, hw1, hv1, hr1⟩ := hex
    obtain ⟨g2, hg2, hg2w, hg2a, hg2b⟩ := key g1 hw1 hr1
    exact ⟨g1, w, g2, hg1, hw1, hv1, hw, hg2, hg2w, hg2a, hg2b⟩
  · intro hnone Y
    obtain ⟨w, hw⟩ := withdrawAction_isSome env player a Y g.world hS
    have h2 := OnGossipSelect_action env hdr localeName player a Y g w ha had haw ham hac hw
    simp only [hnone] at h2
    rw [if_neg (by rw [h0]; exact Bool.false_ne_true)] at h2
    exact ⟨w, _, hw, h2, rfl, rfl⟩


/-- C18, amended, for Linen Cloth selected on page 1 of the cloth listing and
then "Withdraw 1". -/
theorem return_from_item_submenu_witness :
    (∃ g1 w g2,
        OnGossipSelect exampleEnv exampleHeader noLocale examplePlayer 2589 1
            (gossipOver [clothRow 3]) = some g1
        ∧ g1.world = (gossipOver [clothRow 3]).world
        ∧ g1.view = View.menu
            (ShowItemWithdrawMenu exampleEnv examplePlayer (categoryOf exampleEnv linenCloth)
              (1 % 65536) 2589 (gossipOver [clothRow 3]).world.db)
        ∧ withdrawAction exampleEnv examplePlayer ACTION_WITHDRAW_ONE 2589
            (gossipOver [clothRow 3]).world = some w
        ∧ OnGossipSelect exampleEnv exampleHeader noLocale examplePlayer ACTION_WITHDRAW_ONE
            2589 g1 = some g2
        ∧ g2.world = w
        ∧ (IsCategory exampleEnv (categoryOf exampleEnv linenCloth) = true →
            ∃ items, ShowReagentItems exampleEnv exampleHeader noLocale examplePlayer
                (categoryOf exampleEnv linenCloth) (1 % 65536) w.db = some items
              ∧ g2.view = View.menu items)
        ∧ (IsCategory exampleEnv (categoryOf exampleEnv linenCloth) = false →
            g2.view = View.menu (OnGossipHello exampleEnv exampleHeader)))
      ∧ ((gossipOver [clothRow 3]).m_lastCategoryPage (guidLow examplePlayer) = none →
          ∀ Y, ∃ w g2, withdrawAction exampleEnv examplePlayer ACTION_WITHDRAW_ONE Y
              (gossipOver [clothRow 3]).world = some w
            ∧ OnGossipSelect exampleEnv exampleHeader noLocale examplePlayer ACTION_WITHDRAW_ONE
                Y (gossipOver [clothRow 3]) = some g2
            ∧ g2.world = w
            ∧ g2.view = View.menu (OnGossipHello exampleEnv exampleHeader)) :=
  return_from_item_submenu exampleEnv exampleHeader noLocale examplePlayer 2589 1
    ACTION_WITHDRAW_ONE (gossipOver [clothRow 3]) linenCloth (by decide) (by decide)
    (by decide) (by decide) (by decide) (by decide) (by decide) (by decide) (by decide)
    (by decide) (by decide) (by decide) (by decide)
    (by
      intro e t h
      unfold exampleEnv exampleCatalog at h
      simp only at h
      split at h
      · cases h; decide
      · split at h
        · cases h; decide
        · split at h
          · cases h; decide
          · split at h
            · cases h; decide
            · cases h)
    (by decide)

/-! ## Stacks a deposit passes over -/

/-- A scan that meets no counted stack changes nothing. -/
theorem scan_nothing (env : Env) (P : ItemTemplate → Bool) :
    ∀ (ps : List (Nat × Nat)) (s : DepositState),
      (∀ q ∈ ps, ∀ it, s.inv.items q.1 q.2 = some it → counted env P it.template = false) →
      ps.foldl (depositStep env P) s = s := by
  intro ps
  induction ps with
  | nil => intro s _; rfl
  | cons p ps ih =>
    intro s h
    rw [List.foldl_cons, depositStep_skip env P s p (h p (List.mem_cons_self _ _))]
    exact ih s (fun q hq => h q (List.mem_cons_of_mem _ hq))

/-- A stack that is not counted stays where it is during a scan. -/
theorem scan_keeps_stack (env : Env) (P : ItemTemplate → Bool) (q : Nat × Nat) (it : Item)
    (hc : counted env P it.template = false) :
    ∀ (ps : List (Nat × Nat)) (s : DepositState), s.inv.items q.1 q.2 = some it →
      (ps.foldl (depositStep env P) s).inv.items q.1 q.2 = some it := by
  intro ps
  induction ps with
  | nil => intro s h; exact h
  | cons p ps ih =>
    intro s h
    rw [List.foldl_cons]
    apply ih
    by_cases hpq : q = p
    · subst hpq
      rw [depositStep_skip env P s q]
      · exact h
      · intro it' h'
        rw [h] at h'
        injection h' with h'
        rw [← h']
        exact hc
    · rw [depositStep_items_other env P s p q hpq]
      exact h

/-- The quantity a scan holds for an item of which no counted stack is carried
is the one it started with. -/
theorem scan_find_no_stack (env : Env) (P : ItemTemplate → Bool) (inv0 : Inventory) (X : Nat) :
    ∀ (ps : List (Nat × Nat)) (s : DepositState), ps.Nodup →
      (∀ q ∈ ps, s.inv.items q.1 q.2 = inv0.items q.1 q.2) →
      hasStack (counted env P) inv0 X ps = false →
      (ps.foldl (depositStep env P) s).entryToAmountMap.find X = s.entryToAmountMap.find X := by
  intro ps
  induction ps with
  | nil => intro s _ _ _; rfl
  | cons p ps ih =>
    intro s hnd hag hno
    have hnd' := List.nodup_cons.mp hnd
    have hag1 : ∀ q ∈ ps, (depositStep env P s p).inv.items q.1 q.2 = inv0.items q.1 q.2 := by
      intro q hq
      rw [depositStep_items_other env P s p q (fun h => hnd'.1 (h ▸ hq))]
      exact hag q (List.mem_cons_of_mem _ hq)
    rw [List.foldl_cons]
    rcases depositStep_cases env P inv0 X s p (hag p (List.mem_cons_self _ _)) with
      ⟨hstep, _, hh⟩ | ⟨it, _, _, hX, hstep, hel, _, hh⟩ | ⟨it, _, _, hX, hstep, hel, _, hh⟩
    · rw [hh] at hno
      rw [hstep]
      exact ih s hnd'.2 (fun q hq => hag q (List.mem_cons_of_mem _ hq)) hno
    · rw [hh] at hno
      rw [ih _ hnd'.2 hag1 hno, hstep, UpdateItemCount_eligible env s it _ _ hel]
      simp only
      cases s.entryToAmountMap.find it.template.ItemId <;>
        exact find_set_other _ _ _ _ (fun h => hX h.symm)
    · rw [hh] at hno
      exact absurd hno (by decide)

/-- The row found for a key has that key. -/
theorem rowOf_hasKey (t : Table) (a g e : Nat) (r : Row) (h : t.rowOf a g e = some r) :
    r.hasKey a g e = true := by
  unfold Table.rowOf at h
  exact @List.find?_some Row (fun r => r.hasKey a g e) r t h

/-- The row found for a key is a row of the table. -/
theorem rowOf_mem (t : Table) (a g e : Nat) (r : Row) (h : t.rowOf a g e = some r) : r ∈ t := by
  unfold Table.rowOf at h
  exact List.mem_of_find?_eq_some h

/-- With one row per key, every row is the row found for its key. -/
theorem rowOf_of_mem (t : Table) (hu : t.UniqueKeys) (r : Row) (hr : r ∈ t) :
    t.rowOf r.account_id r.guid r.item_entry = some r := by
  induction t with
  | nil => cases hr
  | cons r0 t ih =>
    rw [rowOf_cons]
    have h' := List.pairwise_cons.mp hu
    rcases List.mem_cons.mp hr with h1 | h1
    · subst h1
      rw [if_pos ((hasKey_iff _ _ _ _).mpr ⟨rfl, rfl, rfl⟩)]
    · have hne : ¬ r0.hasKey r.account_id r.guid r.item_entry = true := by
        rw [hasKey_iff]
        exact h'.1 r h1
      rw [if_neg hne]
      exact ih h'.2 h1

/-- Two tables with one row per key that answer every point query alike have
the same rows. -/
theorem mem_iff_of_rowOf_eq (t t' : Table) (hu : t.UniqueKeys) (hu' : t'.UniqueKeys)
    (h : ∀ a g e, t'.rowOf a g e = t.rowOf a g e) (r : Row) : r ∈ t' ↔ r ∈ t := by
  constructor
  · intro hr
    have := rowOf_of_mem t' hu' r hr
    rw [h] at this
    exact rowOf_mem t _ _ _ r this
  · intro hr
    have := rowOf_of_mem t hu r hr
    rw [← h] at this
    exact rowOf_mem t' _ _ _ r this

/-- The row written back for an item whose quantity and category in the maps
are those of its stored row is that row. -/
theorem writeDeposit_rowOf_same (a g : Nat) (s : DepositState) (db : Table) (X : Nat)
    (hs : s.entryToAmountMap.Sorted)
    (hamt : s.entryToAmountMap.find X = db.amountOf a g X)
    (hsub : s.entryToSubclassMap.find X = db.subclassOf a g X) :
    (writeDeposit a g s db).rowOf a g X = db.rowOf a g X := by
  rw [writeDeposit_rowOf a g s db X hs, hamt, hsub, amountOf_eq_rowOf, subclassOf_eq_rowOf]
  cases hr : db.rowOf a g X with
  | none => rfl
  | some r =>
    have hk := (hasKey_iff _ _ _ _).mp (rowOf_hasKey db a g X r hr)
    obtain ⟨h1, h2, h3⟩ := hk
    simp only [Option.map_some', Option.getD_some]
    rw [← h1, ← h2, ← h3]

/-- The row stored for an item of which no counted stack is carried is left as
it is by `DepositAllReagents`. -/
theorem DepositAllReagents_rowOf_kept (env : Env) (player : Player) (w : World) (X : Nat)
    (hu : w.db.UniqueKeys) (hslots : env.slotsDisjoint)
    (hno : hasStack (eligible env) w.inv X (scanPositions env w.inv) = false) :
    (DepositAllReagents env player w).db.rowOf
        (GetStorageKeys env player).1 (GetStorageKeys env player).2 X
      = w.db.rowOf (GetStorageKeys env player).1 (GetStorageKeys env player).2 X := by
  have hnd := scanPositions_nodup env w.inv hslots
  have hno' : hasStack (counted env (fun _ => true)) (depositAllStart env player w).inv X
      (scanPositions env w.inv) = false := by
    rw [counted_true]
    exact hno
  rw [DepositAllReagents_eq]
  apply writeDeposit_rowOf_same
  · exact foldl_depositStep_sorted env _ _ _ (depositAllStart_sorted env player w)
  · rw [scan_find_no_stack env _ (depositAllStart env player w).inv X _ _ hnd (fun _ _ => rfl)
      hno']
    exact depositAllStart_amount env player w X hu
  · rw [scan_subclass_kept env _ (depositAllStart env player w).inv X _ _ hnd (fun _ _ => rfl)
      (Or.inr hno')]
    exact depositAllStart_subclass env player w X hu

/-- The row stored for an item of which no stack of the category is carried is
left as it is by `DepositAllReagentsForCategory`. -/
theorem DepositAllReagentsForCategory_rowOf_kept (env : Env) (player : Player) (c : Nat)
    (w : World) (X : Nat) (hslots : env.slotsDisjoint)
    (hno : hasStack (eligibleIn env c) w.inv X (scanPositions env w.inv) = false) :
    (DepositAllReagentsForCategory env player c w).db.rowOf
        (GetStorageKeys env player).1 (GetStorageKeys env player).2 X
      = w.db.rowOf (GetStorageKeys env player).1 (GetStorageKeys env player).2 X := by
  have hnd := scanPositions_nodup env w.inv hslots
  have hno' : hasStack (counted env (eligibleIn env c)) (depositCategoryStart w).inv X
      (scanPositions env w.inv) = false := by
    rw [counted_eligibleIn]
    exact hno
  have hfind := scan_find_no_stack env (eligibleIn env c) (depositCategoryStart w).inv X
    (scanPositions env w.inv) (depositCategoryStart w) hnd (fun _ _ => rfl) hno'
  rw [DepositAllReagentsForCategory_eq]
  simp only
  rw [writeDeposit_rowOf _ _ _ _ X
    (foldl_depositStep_sorted env _ _ _ (by exact List.Pairwise.nil)), hfind]
  rfl

/-- No stack of an item is counted when every carried stack of it fails the
filter. -/
theorem hasStack_eq_false (P : ItemTemplate → Bool) (inv : Inventory) (X : Nat)
    (ps : List (Nat × Nat))
    (h : ∀ q ∈ ps, ∀ it, inv.items q.1 q.2 = some it → it.template.ItemId = X →
      P it.template = false) :
    hasStack P inv X ps = false := by
  induction ps with
  | nil => rfl
  | cons p ps ih =>
    rw [hasStack_cons, ih (fun q hq => h q (List.mem_cons_of_mem _ hq)), Bool.or_false]
    cases hit : inv.items p.1 p.2 with
    | none => rfl
    | some it =>
      simp only
      by_cases hX : it.template.ItemId = X
      · rw [h p (List.mem_cons_self _ _) it hit hX]
        rfl
      · simp [hX]

/-- A template of stack size 1, or of a class other than trade goods and gem,
fails the guard of `UpdateItemCount`. -/
theorem eligible_eq_false (env : Env) (t : ItemTemplate)
    (h : t.MaxStackSize = 1
      ∨ ¬ (t.Class = env.ITEM_CLASS_TRADE_GOODS ∨ t.Class = env.ITEM_CLASS_GEM)) :
    eligible env t = false := by
  unfold eligible
  rw [decide_eq_false_iff_not]
  rintro ⟨hc, hs⟩
  rcases h with h | h
  · exact hs h
  · exact h hc

/-- A template that fails the guard of `UpdateItemCount` is counted by no
scan. -/
theorem counted_eq_false (env : Env) (P : ItemTemplate → Bool) (t : ItemTemplate)
    (h : eligible env t = false) : counted env P t = false := by
  unfold counted
  rw [h, Bool.and_false]

/-- C11. Let a carried stack have a template of maximum stack size 1, or of a class that is neither trade goods nor gem, the
carried stacks of the same item sharing that template.  Then
`DepositAllReagents` and `DepositAllReagentsForCategory`, for any category,
leave the stack in the inventory and leave the row of its item as it was: no
row is created when there was none, and an existing row keeps its quantity. -/
theorem ineligible_untouched (env : Env) (player : Player) (w : World) (c bag slot : Nat)
    (it : Item) (hu : w.db.UniqueKeys) (hslots : env.slotsDisjoint)
    (hit : w.inv.items bag slot = some it)
    (hin : it.template.MaxStackSize = 1
      ∨ ¬ (it.template.Class = env.ITEM_CLASS_TRADE_GOODS
        ∨ it.template.Class = env.ITEM_CLASS_GEM))
    (hsame : ∀ q ∈ scanPositions env w.inv, ∀ it2, w.inv.items q.1 q.2 = some it2 →
      it2.template.ItemId = it.template.ItemId → it2.template = it.template) :
    (DepositAllReagents env player w).inv.items bag slot = some it
      ∧ (DepositAllReagents env player w).db.rowOf
          (GetStorageKeys env player).1 (GetStorageKeys env player).2 it.template.ItemId
        = w.db.rowOf (GetStorageKeys env player).1 (GetStorageKeys env player).2
          it.template.ItemId
      ∧ (DepositAllReagents env player w).db.amountOf
          (GetStorageKeys env player).1 (GetStorageKeys env player).2 it.template.ItemId
        = w.db.amountOf (GetStorageKeys env player).1 (GetStorageKeys env player).2
          it.template.ItemId
      ∧ (DepositAllReagentsForCategory env player c w).inv.items bag slot = some it
      ∧ (DepositAllReagentsForCategory env player c w).db.rowOf
          (GetStorageKeys env player).1 (GetStorageKeys env player).2 it.template.ItemId
        = w.db.rowOf (GetStorageKeys env player).1 (GetStorageKeys env player).2
          it.template.ItemId
      ∧ (DepositAllReagentsForCategory env player c w).db.amountOf
          (GetStorageKeys env player).1 (GetStorageKeys env player).2 it.template.ItemId
        = w.db.amountOf (GetStorageKeys env player).1 (GetStorageKeys env player).2
          it.template.ItemId := by
  have hel := eligible_eq_false env it.template hin
  have hnoA : hasStack (eligible env) w.inv it.template.ItemId (scanPositions env w.inv)
      = false := by
    apply hasStack_eq_false
    intro q hq it2 h2 hX
    rw [hsame q hq it2 h2 hX]
    exact hel
  have hnoC : hasStack (eligibleIn env c) w.inv it.template.ItemId (scanPositions env w.inv)
      = false := by
    apply hasStack_eq_false
    intro q hq it2 h2 hX
    rw [hsame q hq it2 h2 hX, ← counted_eligibleIn]
    exact counted_eq_false env _ _ hel
  have hA := DepositAllReagents_rowOf_kept env player w it.template.ItemId hu hslots hnoA
  have hC := DepositAllReagentsForCategory_rowOf_kept env player c w it.template.ItemId hslots
    hnoC
  refine ⟨?_, hA, ?_, ?_, hC, ?_⟩
  · rw [DepositAllReagents_eq]
    exact scan_keeps_stack env _ (bag, slot) it (counted_eq_false env _ _ hel) _ _ hit
  · rw [amountOf_eq_rowOf, amountOf_eq_rowOf, hA]
  · rw [DepositAllReagentsForCategory_eq]
    exact scan_keeps_stack env _ (bag, slot) it (counted_eq_false env _ _ hel) _ _ hit
  · rw [amountOf_eq_rowOf, amountOf_eq_rowOf, hC]

/-- C11 for a carried Hearthstone, which has a row of 4 in the table next to
the row of Linen Cloth, and the cloth category. -/
theorem ineligible_untouched_witness :
    (DepositAllReagents exampleEnv examplePlayer
        { db := [clothRow 5, hearthstoneRow 4], inv := packOf hearthstone [1], log := [] }
      ).inv.items 255 23 = some { template := hearthstone, count := 1 }
      ∧ (DepositAllReagents exampleEnv examplePlayer
          { db := [clothRow 5, hearthstoneRow 4], inv := packOf hearthstone [1], log := [] }
        ).db.rowOf (GetStorageKeys exampleEnv examplePlayer).1
          (GetStorageKeys exampleEnv examplePlayer).2 6948
        = Table.rowOf [clothRow 5, hearthstoneRow 4] (GetStorageKeys exampleEnv examplePlayer).1
          (GetStorageKeys exampleEnv examplePlayer).2 6948
      ∧ (DepositAllReagents exampleEnv examplePlayer
          { db := [clothRow 5, hearthstoneRow 4], inv := packOf hearthstone [1], log := [] }
        ).db.amountOf (GetStorageKeys exampleEnv examplePlayer).1
          (GetStorageKeys exampleEnv examplePlayer).2 6948
        = Table.amountOf [clothRow 5, hearthstoneRow 4]
          (GetStorageKeys exampleEnv examplePlayer).1
          (GetStorageKeys exampleEnv examplePlayer).2 6948
      ∧ (DepositAllReagentsForCategory exampleEnv examplePlayer 5
          { db := [clothRow 5, hearthstoneRow 4], inv := packOf hearthstone [1], log := [] }
        ).inv.items 255 23 = some { template := hearthstone, count := 1 }
      ∧ (DepositAllReagentsForCategory exampleEnv examplePlayer 5
          { db := [clothRow 5, hearthstoneRow 4], inv := packOf hearthstone [1], log := [] }
        ).db.rowOf (GetStorageKeys exampleEnv examplePlayer).1
          (GetStorageKeys exampleEnv examplePlayer).2 6948
        = Table.rowOf [clothRow 5, hearthstoneRow 4] (GetStorageKeys exampleEnv examplePlayer).1
          (GetStorageKeys exampleEnv examplePlayer).2 6948
      ∧ (DepositAllReagentsForCategory exampleEnv examplePlayer 5
          { db := [clothRow 5, hearthstoneRow 4], inv := packOf hearthstone [1], log := [] }
        ).db.amountOf (GetStorageKeys exampleEnv examplePlayer).1
          (GetStorageKeys exampleEnv examplePlayer).2 6948
        = Table.amountOf [clothRow 5, hearthstoneRow 4]
          (GetStorageKeys exampleEnv examplePlayer).1
          (GetStorageKeys exampleEnv examplePlayer).2 6948 :=
  ineligible_untouched exampleEnv examplePlayer
    { db := [clothRow 5, hearthstoneRow 4], inv := packOf hearthstone [1], log := [] } 5 255 23
    { template := hearthstone, count := 1 } (by decide) (by decide) rfl (Or.inl rfl)
    (fun _ _ it2 h2 _ => (packOf_item hearthstone [1] _ _ it2 h2).1)

/-! ## A deposit that finds nothing -/

/-- Without a counted stack, `DepositAllReagents` writes every stored row of
the owner back as it was: every point query is answered as before. -/
theorem DepositAllReagents_rowOf_empty (env : Env) (player : Player) (w : World)
    (hu : w.db.UniqueKeys)
    (hnone : ∀ q ∈ scanPositions env w.inv, ∀ it, w.inv.items q.1 q.2 = some it →
      eligible env it.template = false) (a g e : Nat) :
    (DepositAllReagents env player w).db.rowOf a g e = w.db.rowOf a g e := by
  have hscan := scan_nothing env (fun _ => true) (scanPositions env w.inv)
    (depositAllStart env player w)
    (fun q hq it h => counted_eq_false env _ _ (hnone q hq it h))
  rw [DepositAllReagents_eq, hscan]
  by_cases hown : a = (GetStorageKeys env player).1 ∧ g = (GetStorageKeys env player).2
  · obtain ⟨ha, hg⟩ := hown
    subst ha
    subst hg
    exact writeDeposit_rowOf_same _ _ _ _ e (depositAllStart_sorted env player w)
      (depositAllStart_amount env player w e hu) (depositAllStart_subclass env player w e hu)
  · exact writeDeposit_rowOf_other_owner _ _ _ _ a g e hown

/-- C13. For every table with one row per key and every carried inventory none
of whose scanned stacks passes the guard of `UpdateItemCount`:
`DepositAllReagents` leaves every row as it was (every point query has the
answer it had, the rows are the same rows), removes nothing from the inventory
and sends "No reagents to deposit." after closing the menu;
`DepositAllReagentsForCategory`, for any category, leaves the table and the
inventory as they were and sends "No reagents to deposit in this category."
before closing the menu.  No deposit list is sent. -/
theorem empty_deposit (env : Env) (player : Player) (w : World) (c : Nat)
    (hu : w.db.UniqueKeys)
    (hnone : ∀ q ∈ scanPositions env w.inv, ∀ it, w.inv.items q.1 q.2 = some it →
      eligible env it.template = false) :
    (∀ a g e, (DepositAllReagents env player w).db.rowOf a g e = w.db.rowOf a g e)
      ∧ (∀ r, r ∈ (DepositAllReagents env player w).db ↔ r ∈ w.db)
      ∧ (DepositAllReagents env player w).inv = w.inv
      ∧ (DepositAllReagents env player w).log
          = w.log ++ [Event.closeGossipMenu, Event.sysMessage Msg.noReagentsToDeposit]
      ∧ (DepositAllReagentsForCategory env player c w).db = w.db
      ∧ (DepositAllReagentsForCategory env player c w).inv = w.inv
      ∧ (DepositAllReagentsForCategory env player c w).log
          = w.log ++ [Event.sysMessage Msg.noReagentsToDepositInCategory,
              Event.closeGossipMenu] := by
  have hrow := DepositAllReagents_rowOf_empty env player w hu hnone
  have hscanA := scan_nothing env (fun _ => true) (scanPositions env w.inv)
    (depositAllStart env player w)
    (fun q hq it h => counted_eq_false env _ _ (hnone q hq it h))
  have hscanC := scan_nothing env (eligibleIn env c) (scanPositions env w.inv)
    (depositCategoryStart w)
    (fun q hq it h => counted_eq_false env _ _ (hnone q hq it h))
  have huA : (DepositAllReagents env player w).db.UniqueKeys := by
    rw [DepositAllReagents_eq]
    exact uniqueKeys_writeDeposit _ _ _ _ hu
  refine ⟨hrow, mem_iff_of_rowOf_eq w.db _ hu huA hrow, ?_, ?_, ?_, ?_, ?_⟩
  · rw [DepositAllReagents_eq, hscanA]
    rfl
  · rw [DepositAllReagents_eq, hscanA]
    simp [depositAllStart, depositFeedback]
  · rw [DepositAllReagentsForCategory_eq, hscanC]
    rfl
  · rw [DepositAllReagentsForCategory_eq, hscanC]
    rfl
  · rw [DepositAllReagentsForCategory_eq, hscanC]
    simp [depositCategoryStart, depositFeedback]

/-- C13 for a pack that holds a Hearthstone only, over a table with a row of
Linen Cloth. -/
theorem empty_deposit_witness :
    (∀ a g e, (DepositAllReagents exampleEnv examplePlayer
          { db := [clothRow 5], inv := packOf hearthstone [1], log := [] }).db.rowOf a g e
        = Table.rowOf [clothRow 5] a g e)
      ∧ (∀ r, r ∈ (DepositAllReagents exampleEnv examplePlayer
            { db := [clothRow 5], inv := packOf hearthstone [1], log := [] }).db
          ↔ r ∈ [clothRow 5])
      ∧ (DepositAllReagents exampleEnv examplePlayer
          { db := [clothRow 5], inv := packOf hearthstone [1], log := [] }).inv
          = packOf hearthstone [1]
      ∧ (DepositAllReagents exampleEnv examplePlayer
          { db := [clothRow 5], inv := packOf hearthstone [1], log := [] }).log
          = [] ++ [Event.closeGossipMenu, Event.sysMessage Msg.noReagentsToDeposit]
      ∧ (DepositAllReagentsForCategory exampleEnv examplePlayer 5
          { db := [clothRow 5], inv := packOf hearthstone [1], log := [] }).db = [clothRow 5]
      ∧ (DepositAllReagentsForCategory exampleEnv examplePlayer 5
          { db := [clothRow 5], inv := packOf hearthstone [1], log := [] }).inv
          = packOf hearthstone [1]
      ∧ (DepositAllReagentsForCategory exampleEnv examplePlayer 5
          { db := [clothRow 5], inv := packOf hearthstone [1], log := [] }).log
          = [] ++ [Event.sysMessage Msg.noReagentsToDepositInCategory,
              Event.closeGossipMenu] :=
  empty_deposit exampleEnv examplePlayer
    { db := [clothRow 5], inv := packOf hearthstone [1], log := [] } 5 (by decide)
    (fun _ _ it h => by
      rw [(show it.template = hearthstone from (packOf_item hearthstone [1] _ _ it h).1)]
      rfl)

/-! ## A category withdrawal, item by item -/

/-- The stacks of a withdrawal begin with `min S r` units; the others are the
stacks of a withdrawal of what is left. -/
theorem specStacks_step (r S : Nat) (hr : 1 ≤ r) (hS : 1 ≤ S) :
    specStacks r S = min S r :: (if r ≤ S then [] else specStacks (r - S) S) := by
  by_cases hle : r ≤ S
  · rw [if_pos hle]
    unfold specStacks
    have h1 : (r + S - 1) / S = 1 := by
      apply Nat.div_eq_of_lt_le <;> omega
    rw [h1]
    simp only [Nat.sub_self, List.replicate_zero, List.nil_append, List.cons.injEq, and_true]
    rcases Nat.lt_or_eq_of_le hle with hlt | heq
    · rw [Nat.mod_eq_of_lt hlt, if_neg (by omega)]
      omega
    · subst heq
      rw [Nat.mod_self, if_pos rfl]
      omega
  · rw [if_neg hle]
    have hgt : S < r := by omega
    unfold specStacks
    have harith := specStacks_arith (r - S) S (by omega) hS
    have h1 : (r + S - 1) / S = (r - S + S - 1) / S + 1 := by
      rw [← Nat.add_div_right _ (by omega : 0 < S)]
      congr 1
      omega
    have h2 : (r + S - 1) / S - 1 = ((r - S + S - 1) / S - 1) + 1 := by
      rw [h1]
      have := harith.2.1
      omega
    have h3 : r % S = (r - S) % S := Nat.mod_eq_sub_mod (by omega)
    rw [h2, h3, List.replicate_succ, Nat.min_eq_left (by omega)]
    rfl

theorem itemSegment_nil_cons (e : Nat) (name : String) (toGive : Nat) (rest : List Nat) :
    itemSegment e name [] (toGive :: rest)
      = [Event.sendEquipError e, Event.sysMessage (Msg.notEnoughBagSpace toGive name)] := rfl

theorem itemSegment_cons (e : Nat) (name : String) (c : Nat) (granted rest : List Nat) :
    itemSegment e name (c :: granted) rest
      = Event.newItem e c :: Event.sysMessage (Msg.withdrew c name)
          :: itemSegment e name granted rest := by
  simp [itemSegment]

/-- The per-item loop of `WithdrawAllInCategory` on `remaining` stored units:
it grants an initial part of the stacks of `min S remaining` units, stops at
the first capacity check that fails, and leaves what it did not grant in the
row. -/
theorem categoryGrantLoop_outcome (env : Env) (a g e S : Nat) (name : String) (hS : 1 ≤ S) :
    ∀ (fuel remaining : Nat) (s : CategoryState), remaining ≤ fuel → 1 ≤ remaining →
      s.db.amountOf a g e = some remaining →
      ∃ granted s', categoryGrantLoop env a g e S name fuel remaining s = some s'
        ∧ granted = (specStacks remaining S).take granted.length
        ∧ acceptsAll env e s.inv granted = true
        ∧ (match (specStacks remaining S).drop granted.length with
            | [] => true
            | toGive :: _ => !env.CanStoreNewItem (invAfter env e s.inv granted) e toGive) = true
        ∧ s'.inv = invAfter env e s.inv granted
        ∧ s'.log = s.log
            ++ itemSegment e name granted ((specStacks remaining S).drop granted.length)
        ∧ s'.db.amountOf a g e
            = (if granted.sum = remaining then none else some (remaining - granted.sum))
        ∧ granted.sum ≤ remaining
        ∧ s'.anyWithdrawn = (s.anyWithdrawn || !granted.isEmpty) := by
  intro fuel
  induction fuel with
  | zero =>
    intro remaining s hf hr _
    omega
  | succ fuel ih =>
    intro remaining s hf hr hamt
    have hpos : remaining > 0 := hr
    have hplan := specStacks_step remaining S hr hS
    unfold categoryGrantLoop
    rw [if_pos hpos]
    simp only
    by_cases hcan : env.CanStoreNewItem s.inv e (min S remaining) = true
    · rw [if_pos hcan]
      by_cases hle : remaining ≤ S
      · have hmin : min S remaining = remaining := Nat.min_eq_right hle
        rw [if_pos hle] at hplan
        rw [hmin, Nat.sub_self, categoryGrantLoop_zero]
        rw [hmin] at hcan hplan
        refine ⟨[remaining], _, rfl, ?_, ?_, ?_, rfl, ?_, ?_, ?_, ?_⟩
        · rw [hplan]; rfl
        · simp [acceptsAll, hcan]
        · rw [hplan]; rfl
        · rw [hplan]
          simp [itemSegment]
        · simp only [if_pos rfl, List.sum_cons, List.sum_nil, Nat.add_zero]
          exact amountOf_delete_self _ _ _ _
        · simp
        · simp
      · have hmin : min S remaining = S := Nat.min_eq_left (by omega)
        rw [if_neg hle] at hplan
        rw [hmin] at hcan hplan ⊢
        have hne : ¬ S = remaining := by omega
        rw [if_neg hne]
        obtain ⟨granted, s', hrun, hg, hacc, hnext, hinv, hlog, hdb, hsum, hany⟩ :=
          ih (remaining - S)
            { db := s.db.update (remaining - S) a g e
              inv := env.StoreNewItem s.inv e S
              log := s.log ++ [Event.newItem e S, Event.sysMessage (Msg.withdrew S name)]
              anyWithdrawn := true }
            (by omega) (by omega)
            (by
              simp only
              rw [amountOf_update_self, hamt]
              rfl)
        simp only at hacc hnext hinv hlog hany
        refine ⟨S :: granted, s', hrun, ?_, ?_, ?_, ?_, ?_, ?_, ?_, ?_⟩
        · rw [hplan, List.length_cons, List.take_succ_cons, ← hg]
        · simp [acceptsAll, hcan, hacc]
        · rw [hplan, List.length_cons, List.drop_succ_cons, invAfter_cons]
          exact hnext
        · rw [hinv, invAfter_cons]
        · rw [hlog, hplan, List.length_cons, List.drop_succ_cons, itemSegment_cons]
          simp
        · rw [hdb, List.sum_cons]
          by_cases hs : granted.sum = remaining - S
          · rw [if_pos hs, if_pos (by omega)]
          · rw [if_neg hs, if_neg (by omega)]
            congr 1
            omega
        · rw [List.sum_cons]
          omega
        · rw [hany]
          simp
    · rw [if_neg hcan]
      simp only [Bool.not_eq_true] at hcan
      refine ⟨[], _, rfl, rfl, rfl, ?_, rfl, ?_, ?_, ?_, ?_⟩
      · rw [hplan]
        simp only [List.length_nil, List.drop_zero]
        show (!env.CanStoreNewItem s.inv e (min S remaining)) = true
        rw [hcan]
        rfl
      · rw [hplan]
        rfl
      · simp only [List.sum_nil]
        rw [if_neg (by omega), Nat.sub_zero]
        exact hamt
      · simp
      · simp

/-- The row loop of `WithdrawAllInCategory` over stored items with distinct
entries, catalog definitions and quantities of at least 1: every item is
processed, in the order of the rows, by the rule of `followsPlan`, and each
row is left with what was not granted of it. -/
theorem categoryRows_outcome (env : Env) (a g : Nat) :
    ∀ (rows : List (Nat × Nat)) (s : CategoryState), (rows.map Prod.fst).Nodup →
      (∀ q ∈ rows, s.db.amountOf a g q.1 = some q.2) →
      (∀ q ∈ rows, (env.GetItemTemplate q.1).isSome = true ∧ 1 ≤ stackSizeOf env q.1
        ∧ 1 ≤ q.2) →
      ∃ outs s', categoryRows env a g rows s = some s'
        ∧ followsPlan env s.inv rows outs = true
        ∧ s'.inv = invAfterRows env s.inv rows outs
        ∧ s'.log = s.log ++ rowsLog env rows outs
        ∧ List.Forall₂
            (fun q granted => s'.db.amountOf a g q.1
              = (if granted.sum = q.2 then none else some (q.2 - granted.sum))
              ∧ granted.sum ≤ q.2)
            rows outs
        ∧ s'.anyWithdrawn = (s.anyWithdrawn || outs.any (fun granted => !granted.isEmpty))
        ∧ (∀ a' g' e', ¬ (a' = a ∧ g' = g ∧ e' ∈ rows.map Prod.fst) →
            s'.db.amountOf a' g' e' = s.db.amountOf a' g' e') := by
  intro rows
  induction rows with
  | nil =>
    intro s _ _ _
    exact ⟨[], s, rfl, rfl, rfl, by simp [rowsLog], List.Forall₂.nil, by simp,
      fun _ _ _ _ => rfl⟩
  | cons row rows ih =>
    intro s hnd hamt hdef
    obtain ⟨e, amount⟩ := row
    have hnd' := List.nodup_cons.mp hnd
    obtain ⟨hsome, hstack, hpos⟩ := hdef (e, amount) (List.mem_cons_self _ _)
    obtain ⟨temp, htemp⟩ := Option.isSome_iff_exists.mp hsome
    have hS : stackSizeOf env e = temp.MaxStackSize := by simp [stackSizeOf, htemp]
    have hN : catalogName env e = temp.Name1 := by simp [catalogName, htemp]
    simp only at hstack hpos
    rw [hS] at hstack
    have hamt0 := hamt (e, amount) (List.mem_cons_self _ _)
    obtain ⟨granted, s1, hrun, hg, hacc, hnext, hinv, hlog, hdb, hsum, hany⟩ :=
      categoryGrantLoop_outcome env a g e temp.MaxStackSize temp.Name1 hstack amount amount s
        (Nat.le_refl _) hpos hamt0
    obtain ⟨_, _, _, _, _, hframe1, _⟩ :=
      categoryGrantLoop_conserves env a g e temp.MaxStackSize temp.Name1 amount amount s s1
        hamt0 hrun
    have hamt1 : ∀ q ∈ rows, s1.db.amountOf a g q.1 = some q.2 := by
      intro q hq
      have hne : q.1 ≠ e := by
        intro h
        apply hnd'.1
        exact List.mem_map.mpr ⟨q, hq, h⟩
      rw [hframe1 a g q.1 (fun h => hne h.2.2)]
      exact hamt q (List.mem_cons_of_mem _ hq)
    obtain ⟨outs, s', hrows, hplan, hinv', hlog', hall, hany', hframe⟩ :=
      ih s1 hnd'.2 hamt1 (fun q hq => hdef q (List.mem_cons_of_mem _ hq))
    refine ⟨granted :: outs, s', ?_, ?_, ?_, ?_, ?_, ?_, ?_⟩
    · simp only [categoryRows, htemp, hrun]
      exact hrows
    · simp only [followsPlan, hS, Bool.and_eq_true, decide_eq_true_eq]
      rw [hinv] at hplan
      exact ⟨⟨⟨hg, hacc⟩, hnext⟩, hplan⟩
    · simp only [invAfterRows]
      rw [hinv', hinv]
    · simp only [rowsLog, hS, hN]
      rw [hlog', hlog, List.append_assoc]
    · refine List.Forall₂.cons ⟨?_, hsum⟩ hall
      simp only
      rw [hframe a g e (fun h => hnd'.1 h.2.2)]
      exact hdb
    · rw [hany', hany, List.any_cons, Bool.or_assoc]
    · intro a' g' e' hne
      rw [hframe a' g' e' (fun h => hne ⟨h.1, h.2.1, List.mem_cons_of_mem _ h.2.2⟩)]
      apply hframe1
      intro h
      apply hne
      refine ⟨h.1, h.2.1, ?_⟩
      rw [h.2.2]
      exact List.mem_cons_self _ _

/-- C12, as stated, fails for a stored item of quantity 0: Linen Cloth has a
catalog definition and stacks of 20, and its row holds 0 units, a row the
deposits write when a total wraps around.  `WithdrawAllInCategory` on the cloth
category never enters the loop `while (remaining > 0)`, which holds the only
`DELETE`: nothing is granted, so the stored quantity minus the amount granted
is 0, and the row is still in the table with quantity 0 where the claim has
it deleted. -/
theorem WithdrawAllInCategory_zero_row_counterexample :
    exampleEnv.GetItemTemplate 2589 = some linenCloth
      ∧ 1 ≤ linenCloth.MaxStackSize
      ∧ Table.selectCategory [clothRow 0] (GetStorageKeys exampleEnv examplePlayer).1
          (GetStorageKeys exampleEnv examplePlayer).2 5 = [(2589, 0)]
      ∧ (WithdrawAllInCategory exampleEnv examplePlayer 5
          { db := [clothRow 0], inv := emptyInventory, log := [] }).map
            (fun w => (w.db, w.log))
          = some ([clothRow 0], [Event.sysMessage Msg.noReagentsWithdrawn])
      ∧ (WithdrawAllInCategory exampleEnv examplePlayer 5
          { db := [clothRow 0], inv := emptyInventory, log := [] }).map
            (fun w => (grantedUnits w.log 2589, w.db.amountOf
              (GetStorageKeys exampleEnv examplePlayer).1
              (GetStorageKeys exampleEnv examplePlayer).2 2589))
          = some (0, some 0) := by
  decide

/-- C12, amended. For every table with one row per key whose stored items of the
category have catalog definitions, stack sizes of at least 1 and quantities of
at least 1, and for every capacity behaviour, `WithdrawAllInCategory`
returns, and there are granted stacks `outs`, one list per stored item in the
order of the rows, such that: every item is processed by the rule of
`followsPlan` (stacks of `min stackSize remaining` units until the quantity is
exhausted or a capacity check fails, the next item being attempted in either
case); the events are those of the items in order, each failure on its own
item; the quantity left in a row is its stored quantity minus the units
granted for it, the row being deleted when that is 0; no other row
changes. -/
theorem WithdrawAllInCategory_per_item (env : Env) (player : Player) (c : Nat) (w : World)
    (hu : w.db.UniqueKeys)
    (hdef : ∀ q ∈ w.db.selectCategory (GetStorageKeys env player).1
        (GetStorageKeys env player).2 c,
      (env.GetItemTemplate q.1).isSome = true ∧ 1 ≤ stackSizeOf env q.1 ∧ 1 ≤ q.2) :
    ∃ w' outs, WithdrawAllInCategory env player c w = some w'
      ∧ followsPlan env w.inv
          (w.db.selectCategory (GetStorageKeys env player).1 (GetStorageKeys env player).2 c)
          outs = true
      ∧ w'.inv = invAfterRows env w.inv
          (w.db.selectCategory (GetStorageKeys env player).1 (GetStorageKeys env player).2 c)
          outs
      ∧ w'.log = w.log
          ++ rowsLog env
            (w.db.selectCategory (GetStorageKeys env player).1 (GetStorageKeys env player).2 c)
            outs
          ++ (if w.db.selectCategory (GetStorageKeys env player).1
                (GetStorageKeys env player).2 c = [] then
                [Event.sysMessage Msg.noReagentsToWithdrawInCategory]
              else if outs.any (fun granted => !granted.isEmpty) = true then []
              else [Event.sysMessage Msg.noReagentsWithdrawn])
      ∧ List.Forall₂
          (fun q granted =>
            w'.db.amountOf (GetStorageKeys env player).1 (GetStorageKeys env player).2 q.1
              = (if granted.sum = q.2 then none else some (q.2 - granted.sum))
            ∧ granted.sum ≤ q.2)
          (w.db.selectCategory (GetStorageKeys env player).1 (GetStorageKeys env player).2 c)
          outs
      ∧ (∀ a g e, ¬ (a = (GetStorageKeys env player).1 ∧ g = (GetStorageKeys env player).2
            ∧ e ∈ (w.db.selectCategory (GetStorageKeys env player).1
                (GetStorageKeys env player).2 c).map Prod.fst) →
          w'.db.amountOf a g e = w.db.amountOf a g e) := by
  have hnd := selectCategory_nodup w.db hu (GetStorageKeys env player).1
    (GetStorageKeys env player).2 c
  have hamt := selectCategory_mem w.db hu (GetStorageKeys env player).1
    (GetStorageKeys env player).2 c
  unfold WithdrawAllInCategory
  simp only
  generalize w.db.selectCategory (GetStorageKeys env player).1
    (GetStorageKeys env player).2 c = rows at hnd hamt hdef ⊢
  cases rows with
  | nil =>
    refine ⟨_, [], rfl, rfl, rfl, ?_, List.Forall₂.nil, fun _ _ _ _ => rfl⟩
    simp [rowsLog]
  | cons row rows =>
    obtain ⟨outs, s', hrows, hplan, hinv, hlog, hall, hany, hframe⟩ :=
      categoryRows_outcome env (GetStorageKeys env player).1 (GetStorageKeys env player).2
        (row :: rows) { db := w.db, inv := w.inv, log := w.log, anyWithdrawn := false }
        hnd hamt hdef
    simp only [Bool.false_or] at hany
    simp only [hrows]
    refine ⟨_, outs, rfl, hplan, hinv, ?_, hall, hframe⟩
    simp only [hlog, hany, if_neg (List.cons_ne_nil row rows)]
    cases outs.any (fun granted => !granted.isEmpty) <;> simp

/-- C12, amended, for 45 Linen Cloth and 30 Tigerseye stored under cloth and a
pack with two free slots. -/
theorem WithdrawAllInCategory_per_item_witness :
    ∃ w' outs, WithdrawAllInCategory exampleEnv examplePlayer 5
          { db := [clothRow 45, tigerseyeRow 30], inv := packWithFree 2, log := [] } = some w'
      ∧ followsPlan exampleEnv (packWithFree 2)
          (Table.selectCategory [clothRow 45, tigerseyeRow 30]
            (GetStorageKeys exampleEnv examplePlayer).1
            (GetStorageKeys exampleEnv examplePlayer).2 5)
          outs = true
      ∧ w'.inv = invAfterRows exampleEnv (packWithFree 2)
          (Table.selectCategory [clothRow 45, tigerseyeRow 30]
            (GetStorageKeys exampleEnv examplePlayer).1
            (GetStorageKeys exampleEnv examplePlayer).2 5)
          outs
      ∧ w'.log = []
          ++ rowsLog exampleEnv
            (Table.selectCategory [clothRow 45, tigerseyeRow 30]
              (GetStorageKeys exampleEnv examplePlayer).1
              (GetStorageKeys exampleEnv examplePlayer).2 5)
            outs
          ++ (if Table.selectCategory [clothRow 45, tigerseyeRow 30]
                (GetStorageKeys exampleEnv examplePlayer).1
                (GetStorageKeys exampleEnv examplePlayer).2 5 = [] then
                [Event.sysMessage Msg.noReagentsToWithdrawInCategory]
              else if outs.any (fun granted => !granted.isEmpty) = true then []
              else [Event.sysMessage Msg.noReagentsWithdrawn])
      ∧ List.Forall₂
          (fun q granted =>
            w'.db.amountOf (GetStorageKeys exampleEnv examplePlayer).1
                (GetStorageKeys exampleEnv examplePlayer).2 q.1
              = (if granted.sum = q.2 then none else some (q.2 - granted.sum))
            ∧ granted.sum ≤ q.2)
          (Table.selectCategory [clothRow 45, tigerseyeRow 30]
            (GetStorageKeys exampleEnv examplePlayer).1
            (GetStorageKeys exampleEnv examplePlayer).2 5)
          outs
      ∧ (∀ a g e, ¬ (a = (GetStorageKeys exampleEnv examplePlayer).1
            ∧ g = (GetStorageKeys exampleEnv examplePlayer).2
            ∧ e ∈ (Table.selectCategory [clothRow 45, tigerseyeRow 30]
                (GetStorageKeys exampleEnv examplePlayer).1
                (GetStorageKeys exampleEnv examplePlayer).2 5).map Prod.fst) →
          Table.amountOf w'.db a g e
            = Table.amountOf [clothRow 45, tigerseyeRow 30] a g e) :=
  WithdrawAllInCategory_per_item exampleEnv examplePlayer 5
    { db := [clothRow 45, tigerseyeRow 30], inv := packWithFree 2, log := [] }
    (by decide) (by decide)

/-! ## Deposited entries and the categories of the menus -/

/-- The categories of `IsCategory` are the fifteen subclasses swept by
"Withdraw All Reagents". -/
theorem IsCategory_iff_mem_swept (env : Env) (value : Nat) :
    IsCategory env value = true ↔ value ∈ sweptSubclasses env := by
  simp [IsCategory, sweptSubclasses, or_assoc]

/-- C21. A deposited entry need not be reachable: `UpdateItemCount` accepts a
trade good of subclass 0 with stacks of 20 and files it under its own subclass,
which is none of the categories of `IsCategory` and none of the fifteen swept
subclasses.  After `DepositAllReagents` on a carried stack of 3 the stack is
gone and the row `(90002, subclass 0, 3)` is stored; "Withdraw All Reagents",
with a receiving inventory that accepts every stack, grants nothing and leaves
the row in the table. -/
theorem deposited_entry_not_swept :
    eligible roomyEnv unsortedGoods = true
      ∧ categoryOf roomyEnv unsortedGoods = 0
      ∧ IsCategory roomyEnv 0 = false
      ∧ 0 ∉ sweptSubclasses roomyEnv
      ∧ (DepositAllReagents roomyEnv examplePlayer
          { db := [], inv := packOf unsortedGoods [3], log := [] }).db = [unsortedRow 3]
      ∧ (DepositAllReagents roomyEnv examplePlayer
          { db := [], inv := packOf unsortedGoods [3], log := [] }).inv.items 255 23 = none
      ∧ (withdrawAllCategories roomyEnv examplePlayer (sweptSubclasses roomyEnv)
          (DepositAllReagents roomyEnv examplePlayer
            { db := [], inv := packOf unsortedGoods [3], log := [] })).map
            (fun w => (w.db, grantedUnits w.log 90002))
          = some ([unsortedRow 3], 0)
      ∧ (OnGossipSelect roomyEnv exampleHeader noLocale examplePlayer
          exampleHeader.WITHDRAW_ALL_REAGENTS 0
          { world := DepositAllReagents roomyEnv examplePlayer
              { db := [], inv := packOf unsortedGoods [3], log := [] }
            m_lastCategoryPage := fun _ => none
            view := View.closed }).map (fun g => (g.world.db, g.view))
          = some ([unsortedRow 3], View.closed) := by
  refine ⟨by decide, by decide, by decide, by decide, ?_, ?_, ?_, ?_⟩ <;> rfl

/-! ## The number of capacity checks -/

theorem checkEvents_append (l1 l2 : List Event) :
    checkEvents (l1 ++ l2) = checkEvents l1 + checkEvents l2 := by
  induction l1 with
  | nil => simp [checkEvents]
  | cons ev l1 ih =>
    cases ev <;> simp [checkEvents, ih, Nat.add_assoc]

/-- The grant loop makes at most `ceil (remaining / S)` capacity checks,
whatever the checks answer. -/
theorem grantChecks_le (env : Env) (entry S : Nat) (hS : 1 ≤ S) :
    ∀ (fuel : Nat) (inv : Inventory) (remaining : Nat),
      grantChecks env entry S fuel inv remaining ≤ (remaining + S - 1) / S := by
  intro fuel
  induction fuel with
  | zero => intro inv remaining; exact Nat.zero_le _
  | succ fuel ih =>
    intro inv remaining
    unfold grantChecks
    by_cases hr : remaining > 0
    · rw [if_pos hr]
      have hone : 1 ≤ (remaining + S - 1) / S := by
        rw [Nat.le_div_iff_mul_le (by omega)]
        omega
      by_cases hc : env.CanStoreNewItem inv entry (min S remaining) = false
      · rw [if_pos hc]
        exact hone
      · rw [if_neg hc]
        have hih := ih (env.StoreNewItem inv entry (min S remaining)) (remaining - min S remaining)
        by_cases hle : remaining ≤ S
        · have hm : min S remaining = remaining := Nat.min_eq_right hle
          rw [hm, Nat.sub_self] at hih ⊢
          rw [Nat.zero_add, Nat.div_eq_of_lt (by omega)] at hih
          omega
        · have hm : min S remaining = S := Nat.min_eq_left (by omega)
          rw [hm] at hih ⊢
          have hstep : (remaining - S + S - 1) / S + 1 = (remaining + S - 1) / S := by
            rw [← Nat.add_div_right _ (by omega : 0 < S)]
            congr 1
            omega
          omega
    · rw [if_neg hr]
      exact Nat.zero_le _

/-- The capacity checks of the grant loop of `WithdrawAllOfItem` are the ones
visible in its log. -/
theorem grantLoop_checks (env : Env) (entry S : Nat) (name : String) :
    ∀ (fuel : Nat) (s s' : GrantState), grantLoop env entry S name fuel s = some s' →
      ∃ l, s'.log = s.log ++ l
        ∧ checkEvents l = grantChecks env entry S fuel s.inv s.remaining := by
  intro fuel
  induction fuel with
  | zero =>
    intro s s' h
    unfold grantLoop at h
    by_cases hr : s.remaining > 0
    · rw [if_pos hr] at h; cases h
    · rw [if_neg hr] at h
      injection h with h
      subst h
      exact ⟨[], by simp, rfl⟩
  | succ fuel ih =>
    intro s s' h
    unfold grantLoop at h
    unfold grantChecks
    by_cases hr : s.remaining > 0
    · rw [if_pos hr] at h ⊢
      simp only at h
      by_cases hc : env.CanStoreNewItem s.inv entry (min S s.remaining) = false
      · rw [if_pos hc] at h ⊢
        injection h with h
        subst h
        exact ⟨_, rfl, by simp [checkEvents]⟩
      · rw [if_neg hc] at h ⊢
        obtain ⟨l, hl, hcount⟩ := ih _ s' h
        simp only at hl hcount
        refine ⟨Event.newItem entry (min S s.remaining) :: l, ?_, ?_⟩
        · rw [hl]
          simp
        · simp only [checkEvents]
          rw [hcount]
    · rw [if_neg hr] at h ⊢
      injection h with h
      subst h
      exact ⟨[], by simp, rfl⟩

/-- The capacity checks of the per-item loop of `WithdrawAllInCategory` are
the ones visible in its log. -/
theorem categoryGrantLoop_checks (env : Env) (a g entry S : Nat) (name : String) :
    ∀ (fuel remaining : Nat) (s s' : CategoryState),
      categoryGrantLoop env a g entry S name fuel remaining s = some s' →
      ∃ l, s'.log = s.log ++ l
        ∧ checkEvents l = grantChecks env entry S fuel s.inv remaining := by
  intro fuel
  induction fuel with
  | zero =>
    intro remaining s s' h
    unfold categoryGrantLoop at h
    by_cases hr : remaining > 0
    · rw [if_pos hr] at h; cases h
    · rw [if_neg hr] at h
      injection h with h
      subst h
      exact ⟨[], by simp, rfl⟩
  | succ fuel ih =>
    intro remaining s s' h
    unfold categoryGrantLoop at h
    unfold grantChecks
    by_cases hr : remaining > 0
    · rw [if_pos hr] at h ⊢
      simp only at h
      by_cases hc : env.CanStoreNewItem s.inv entry (min S remaining) = true
      · rw [if_pos hc] at h
        rw [if_neg (by rw [hc]; exact Bool.noConfusion)]
        obtain ⟨l, hl, hcount⟩ := ih _ _ s' h
        simp only at hl hcount
        refine ⟨Event.newItem entry (min S remaining)
          :: Event.sysMessage (Msg.withdrew (min S remaining) name) :: l, ?_, ?_⟩
        · rw [hl]
          simp
        · simp only [checkEvents]
          rw [hcount]
      · rw [if_neg hc] at h
        simp only [Bool.not_eq_true] at hc
        rw [if_pos hc]
        injection h with h
        subst h
        exact ⟨_, rfl, by simp [checkEvents]⟩
    · rw [if_neg hr] at h ⊢
      injection h with h
      subst h
      exact ⟨[], by simp, rfl⟩

/-- C22. For every stored quantity `Q`, every stack size `S` of at least 1 and
every capacity behaviour, the grant loop of `WithdrawAllOfItem` and the
per-item loop of `WithdrawAllInCategory`, allowed `Q` iterations or more,
stop, and the capacity checks they made, which are the ones visible in the
log, number at most `ceil (Q / S)`, hence at most `ceil (Q / S) + 1`. -/
theorem grant_loops_terminate (env : Env) (entry S : Nat) (name : String) (a g Q fuel : Nat)
    (s : GrantState) (cs : CategoryState) (hS : 1 ≤ S) (hQ : s.remaining = Q)
    (hfuel : Q ≤ fuel) :
    (∃ s' l, grantLoop env entry S name fuel s = some s'
        ∧ s'.log = s.log ++ l
        ∧ checkEvents l = grantChecks env entry S fuel s.inv Q
        ∧ checkEvents l ≤ ⌈(Q : ℚ) / (S : ℚ)⌉₊
        ∧ checkEvents l ≤ ⌈(Q : ℚ) / (S : ℚ)⌉₊ + 1)
      ∧ (∃ cs' l, categoryGrantLoop env a g entry S name fuel Q cs = some cs'
        ∧ cs'.log = cs.log ++ l
        ∧ checkEvents l = grantChecks env entry S fuel cs.inv Q
        ∧ checkEvents l ≤ ⌈(Q : ℚ) / (S : ℚ)⌉₊
        ∧ checkEvents l ≤ ⌈(Q : ℚ) / (S : ℚ)⌉₊ + 1)
      ∧ ⌈(Q : ℚ) / (S : ℚ)⌉₊ = (Q + S - 1) / S := by
  have hceil := ceil_div_eq Q S hS
  refine ⟨?_, ?_, hceil⟩
  · obtain ⟨s', hrun⟩ := grantLoop_isSome env entry S name hS fuel s (by omega)
    obtain ⟨l, hl, hcount⟩ := grantLoop_checks env entry S name fuel s s' hrun
    rw [hQ] at hcount
    have hle : checkEvents l ≤ ⌈(Q : ℚ) / (S : ℚ)⌉₊ := by
      rw [hcount, hceil]
      exact grantChecks_le env entry S hS fuel s.inv Q
    exact ⟨s', l, hrun, hl, hcount, hle, Nat.le_succ_of_le hle⟩
  · obtain ⟨cs', hrun⟩ := categoryGrantLoop_isSome env a g entry S name hS fuel Q cs hfuel
    obtain ⟨l, hl, hcount⟩ := categoryGrantLoop_checks env a g entry S name fuel Q cs cs' hrun
    have hle : checkEvents l ≤ ⌈(Q : ℚ) / (S : ℚ)⌉₊ := by
      rw [hcount, hceil]
      exact grantChecks_le env entry S hS fuel cs.inv Q
    exact ⟨cs', l, hrun, hl, hcount, hle, Nat.le_succ_of_le hle⟩

/-- C22 for 45 Linen Cloth in stacks of 20 and a pack with two free slots: two
checks succeed and the third fails. -/
theorem grant_loops_terminate_witness :
    (∃ s' l, grantLoop exampleEnv 2589 20 "Linen Cloth" 45
          { inv := packWithFree 2, log := [], givenTotal := 0, remaining := 45 } = some s'
        ∧ s'.log = ([] : List Event) ++ l
        ∧ checkEvents l = grantChecks exampleEnv 2589 20 45 (packWithFree 2) 45
        ∧ checkEvents l ≤ ⌈((45 : Nat) : ℚ) / ((20 : Nat) : ℚ)⌉₊
        ∧ checkEvents l ≤ ⌈((45 : Nat) : ℚ) / ((20 : Nat) : ℚ)⌉₊ + 1)
      ∧ (∃ cs' l, categoryGrantLoop exampleEnv 0 7 2589 20 "Linen Cloth" 45 45
          { db := [clothRow 45], inv := packWithFree 2, log := [], anyWithdrawn := false }
          = some cs'
        ∧ cs'.log = ([] : List Event) ++ l
        ∧ checkEvents l = grantChecks exampleEnv 2589 20 45 (packWithFree 2) 45
        ∧ checkEvents l ≤ ⌈((45 : Nat) : ℚ) / ((20 : Nat) : ℚ)⌉₊
        ∧ checkEvents l ≤ ⌈((45 : Nat) : ℚ) / ((20 : Nat) : ℚ)⌉₊ + 1)
      ∧ ⌈((45 : Nat) : ℚ) / ((20 : Nat) : ℚ)⌉₊ = (45 + 20 - 1) / 20 :=
  grant_loops_terminate exampleEnv 2589 20 "Linen Cloth" 0 7 45 45
    { inv := packWithFree 2, log := [], givenTotal := 0, remaining := 45 }
    { db := [clothRow 45], inv := packWithFree 2, log := [], anyWithdrawn := false }
    (by decide) rfl (by decide)

end ReagentBank
